import Mathlib

/-!
# Chainring optimiser (`src/main.go`): shallow embedding and verified properties

The Go program works on `float64` and `int`.  The embedding keeps both:

* `F64` is IEEE 754 binary64.  Every finite binary64 value is an integer
  multiple of `2^-1074`, so a finite value is stored as a sign and a natural
  number of such units; NaN and the two infinities are separate constructors.
  Each arithmetic operator computes the exact rational result and rounds it to
  nearest, ties to even (`F64.round`), as the Go operators do when no two
  operations are fused; comparisons are those of IEEE 754 (NaN compares false,
  the two zeros are equal).
* Go `int` values are `Int` (theorems that need the 64-bit range say so); slices
  are `List`; an index out of range (a Go run-time panic) is the `none` of
  `Option`.
* Loops are recursive functions over the slice they range over, their state
  being the variables the loop body assigns.
* Library functions (`math.Sin` and its like, `time.Parse`) are parameters;
  what a property needs of them is a hypothesis of its theorem (`MathLaws`,
  `MathNaNLaws`, `OneDegreeAccuracy`).

Layout: the embedding of the source; auxiliary definitions and the inputs of
the concrete instances; facts about `float64`; the properties of
`calculatePowerLoss`, `calculateGear`, `calculateOptimalChainring`, of the
enrichment loop of `parseGPX`, of `haversine` and of the zone table of `main2`.
-/

namespace Chainring

/-! ## IEEE 754 binary64 -/

/-- Binary64 value; `fin neg k` is the finite number `(-1)^neg * k * 2^-1074`. -/
inductive F64 where
  | nan : F64
  | inf (neg : Bool) : F64
  | fin (neg : Bool) (k : Nat) : F64
  deriving DecidableEq, Repr

namespace F64

/-- Binary search for the position of the highest set bit: each step of the
list halves the window. -/
def ilog2Aux : List Nat → Nat → Nat → Nat
  | [], _, acc => acc
  | s :: ss, n, acc =>
    if n >>> s ≠ 0 then ilog2Aux ss (n >>> s) (acc + s) else ilog2Aux ss n acc

/-- Floor of the base-2 logarithm (for `1 ≤ n < 2^16384`, far above every
intermediate result of binary64 arithmetic); `0` at `0`. -/
def ilog2 (n : Nat) : Nat :=
  ilog2Aux [8192, 4096, 2048, 1024, 512, 256, 128, 64, 32, 16, 8, 4, 2, 1] n 0

/-- Nearest integer to `n / d` (`d > 0`), ties to even. -/
def roundHalfEven (n d : Nat) : Nat :=
  let k0 := n / d
  let r := n % d
  if d < 2 * r ∨ (2 * r = d ∧ k0 % 2 = 1) then k0 + 1 else k0

/-- Nearest binary64 to the non-negative rational `n / d` units of `2^-1074`
(`d > 0`), ties to even, with sign `neg`: the quotient is cut to 53
significant bits (`s` low bits dropped) and a result from `2^1024` on
overflows to infinity. -/
def round (neg : Bool) (n d : Nat) : F64 :=
  let s := ilog2 (n / d) - 52
  let k := roundHalfEven n (d <<< s) <<< s
  if k < 1 <<< 2098 then fin neg k else inf neg

/-- Signed number of units of a finite value. -/
def sgn (neg : Bool) (k : Nat) : Int := if neg then -(k : Int) else (k : Int)

/-- Positive zero, the zero value of a Go `float64`. -/
def zero : F64 := fin false 0

instance : Inhabited F64 := ⟨zero⟩

/-- Conversion `float64(n)` of an integer. -/
def ofInt (n : Int) : F64 := round (decide (n < 0)) (n.natAbs <<< 1074) 1

/-- Nearest binary64 to the decimal constant `n / d`. -/
def ofRatio (n d : Nat) : F64 := round false (n <<< 1074) d

/-- The constant `math.MaxFloat64`, `(2^53 - 1) * 2^971`. -/
def maxFloat64 : F64 := fin false (((1 <<< 53) - 1) <<< 2045)

/-- The constant `3.6`. -/
def c3_6 : F64 := ofRatio 36 10

/-- Function `math.IsNaN`. -/
def isNaN : F64 → Bool
  | nan => true
  | _ => false

/-- Unary minus. -/
def neg : F64 → F64
  | nan => nan
  | inf a => inf (!a)
  | fin a k => fin (!a) k

/-- Function `math.Abs`. -/
def abs : F64 → F64
  | nan => nan
  | inf _ => inf false
  | fin _ k => fin false k

/-- Operator `+`. -/
def add : F64 → F64 → F64
  | nan, _ => nan
  | _, nan => nan
  | inf a, inf b => if a = b then inf a else nan
  | inf a, fin _ _ => inf a
  | fin _ _, inf b => inf b
  | fin a x, fin b y =>
    let v := sgn a x + sgn b y
    if v = 0 then fin (a && b) 0 else round (decide (v < 0)) v.natAbs 1

/-- Operator `-`. -/
def sub (x y : F64) : F64 := add x (neg y)

/-- Operator `*`. -/
def mul : F64 → F64 → F64
  | nan, _ => nan
  | _, nan => nan
  | inf a, inf b => inf (xor a b)
  | inf a, fin b k => if k = 0 then nan else inf (xor a b)
  | fin a k, inf b => if k = 0 then nan else inf (xor a b)
  | fin a x, fin b y => round (xor a b) (x * y) (1 <<< 1074)

/-- Operator `/`. -/
def div : F64 → F64 → F64
  | nan, _ => nan
  | _, nan => nan
  | inf _, inf _ => nan
  | inf a, fin b _ => inf (xor a b)
  | fin a _, inf b => fin (xor a b) 0
  | fin a x, fin b y =>
    if y = 0 then (if x = 0 then nan else inf (xor a b))
    else round (xor a b) (x <<< 1074) y

/-- Operator `<`. -/
def lt : F64 → F64 → Bool
  | nan, _ => false
  | _, nan => false
  | inf a, inf b => a && !b
  | inf a, fin _ _ => a
  | fin _ _, inf b => !b
  | fin a x, fin b y => decide (sgn a x < sgn b y)

/-- Operator `<=`. -/
def le : F64 → F64 → Bool
  | nan, _ => false
  | _, nan => false
  | inf a, inf b => a || !b
  | inf a, fin _ _ => a
  | fin _ _, inf b => !b
  | fin a x, fin b y => decide (sgn a x ≤ sgn b y)

/-- Operator `>=`. -/
def ge (x y : F64) : Bool := le y x

/-- Operator `==`. -/
def eq : F64 → F64 → Bool
  | inf a, inf b => a == b
  | fin a x, fin b y => decide (sgn a x = sgn b y)
  | _, _ => false

/-- Operator `!=`. -/
def ne (x y : F64) : Bool := !(eq x y)

/-- Neither NaN nor an infinity. -/
def isFinite : F64 → Bool
  | fin _ _ => true
  | _ => false

end F64

/-! ## Data model (`src/main.go`, lines 41-62) -/

/-- Go `DataPoint`. -/
structure DataPoint where
  Lat : F64
  Lon : F64
  Ele : F64
  Power : F64
  Speed : F64
  Cad : Int
  Time : String
  deriving DecidableEq, Repr

/-- Go `ChainringPowerLoss`. -/
structure ChainringPowerLoss where
  Gear : Int
  Power : F64
  BadGearFactor : F64
  deriving DecidableEq, Repr

/-- Go `FTPZone`. -/
structure FTPZone where
  Zone : String
  Min : F64
  Max : F64
  Coefficient : F64
  deriving DecidableEq, Repr

/-- Go `Gear`. -/
structure Gear where
  GearNumber : Int
  Chainring : Int
  Cog : Int
  Speed : F64
  Cadence : F64
  PowerLoss : F64
  deriving DecidableEq, Repr

/-- The zero value `var chosenGear Gear`. -/
def Gear.zero : Gear := ⟨0, 0, 0, F64.zero, F64.zero, F64.zero⟩

/-! ## `calculatePowerLoss` (lines 169-196) -/

/-- The loop of lines 177-183: `coefficient` starts at `0`; the first zone with
`power >= zone.Min && power < zone.Max` sets it and the loop breaks. -/
def zoneCoefficient (power : F64) : List FTPZone → F64
  | [] => F64.zero
  | zone :: rest =>
    if F64.ge power zone.Min && F64.lt power zone.Max then zone.Coefficient
    else zoneCoefficient power rest

/-- Slice indexing `s[i]` with a Go `int` index: `none` is the run-time panic. -/
def index {α : Type} (s : List α) (i : Int) : Option α :=
  if i < 0 then none else s[i.toNat]?

/-- Go `calculatePowerLoss`; `none` is the index-out-of-range panic of line 172. -/
def calculatePowerLoss (gear : Gear) (power : F64)
    (chainringPowerLoss : List ChainringPowerLoss) (ftpZones : List FTPZone) : Option F64 :=
  match index chainringPowerLoss gear.GearNumber with
  | none => none
  | some lossData =>
    let basePowerLoss := F64.mul lossData.Power lossData.BadGearFactor
    let coefficient := zoneCoefficient power ftpZones
    let totalPowerLoss := F64.mul basePowerLoss coefficient
    if F64.isNaN power then some F64.zero else some totalPowerLoss

/-! ## `calculateGear` (lines 123-165) -/

/-- The loop of lines 132-158 from cassette position `i` on.  The state is
`(minDifference, chosenGear)`; every `continue` leaves it unchanged.  `speed`
is already in m/s. -/
def gearLoop (speed cadence : F64) (chainring : Int) (tyreCircumference : F64) :
    List Int → Nat → F64 × Gear → F64 × Gear
  | [], _, st => st
  | cog :: rest, i, (minDifference, chosenGear) =>
    if F64.eq cadence F64.zero || chainring == 0 || cog == 0 then
      gearLoop speed cadence chainring tyreCircumference rest (i + 1) (minDifference, chosenGear)
    else
      let gearRatio := F64.div (F64.ofInt chainring) (F64.ofInt cog)
      let requiredGearRatio :=
        F64.div speed (F64.div (F64.mul cadence tyreCircumference) (F64.ofInt (1000 * 60)))
      if F64.isNaN gearRatio || F64.isNaN requiredGearRatio then
        gearLoop speed cadence chainring tyreCircumference rest (i + 1) (minDifference, chosenGear)
      else
        let difference := F64.abs (F64.sub gearRatio requiredGearRatio)
        if F64.lt difference minDifference then
          gearLoop speed cadence chainring tyreCircumference rest (i + 1)
            (difference, ⟨(i : Int), chainring, cog, speed, cadence, F64.zero⟩)
        else
          gearLoop speed cadence chainring tyreCircumference rest (i + 1)
            (minDifference, chosenGear)

/-- The power proxy of line 161,
`Speed*3.6*float64(Cadence)*float64(Chainring)/float64(Cog)`. -/
def powerProxy (g : Gear) : F64 :=
  F64.div
    (F64.mul (F64.mul (F64.mul g.Speed F64.c3_6) g.Cadence) (F64.ofInt g.Chainring))
    (F64.ofInt g.Cog)

/-- Go `calculateGear`; `none` is the panic of the table lookup in
`calculatePowerLoss`. -/
def calculateGear (speed cadence : F64) (chainring : Int) (cassette : List Int)
    (tyreCircumference : F64) (chainRingPowerLoss : List ChainringPowerLoss)
    (ftpZones : List FTPZone) : Option Gear :=
  let speed := F64.div speed F64.c3_6
  let chosenGear :=
    (gearLoop speed cadence chainring tyreCircumference cassette 0
      (F64.maxFloat64, Gear.zero)).2
  match calculatePowerLoss chosenGear (powerProxy chosenGear) chainRingPowerLoss ftpZones with
  | none => none
  | some powerLoss => some { chosenGear with PowerLoss := powerLoss }

/-! ## `calculateOptimalChainring` (lines 200-249) -/

/-- The loop of lines 222-227: is `cog` one of `goodGears`? -/
def isGoodGear (cog : Int) : List Int → Bool
  | [] => false
  | goodGear :: rest => if cog == goodGear then true else isGoodGear cog rest

/-- The loop of lines 210-228 for one chainring.  The state is
`(totalPowerLoss, goodGearCount)`; a panic inside `calculateGear` aborts.
(The `fmt.Println` of line 214 only prints.) -/
def sampleLoop (chainring : Int) (cassette : List Int) (tyreCircumference : F64)
    (chainringPowerLoss : List ChainringPowerLoss) (ftpZones : List FTPZone)
    (goodGears : List Int) : List DataPoint → F64 × Int → Option (F64 × Int)
  | [], acc => some acc
  | point :: rest, (totalPowerLoss, goodGearCount) =>
    if F64.eq point.Power F64.zero || F64.isNaN point.Power then
      sampleLoop chainring cassette tyreCircumference chainringPowerLoss ftpZones goodGears
        rest (totalPowerLoss, goodGearCount)
    else
      match calculateGear point.Speed (F64.ofInt point.Cad) chainring cassette
          tyreCircumference chainringPowerLoss ftpZones with
      | none => none
      | some gear =>
        sampleLoop chainring cassette tyreCircumference chainringPowerLoss ftpZones goodGears
          rest
          (F64.add totalPowerLoss gear.PowerLoss,
            if isGoodGear gear.Cog goodGears then goodGearCount + 1 else goodGearCount)

/-- Lines 206-234 for one chainring: the value of `weightedLoss`. -/
def weightedLoss (dataPoints : List DataPoint) (chainring : Int) (cassette : List Int)
    (tyreCircumference : F64) (chainringPowerLoss : List ChainringPowerLoss)
    (ftpZones : List FTPZone) (goodGears : List Int) (weight : F64) : Option F64 :=
  match sampleLoop chainring cassette tyreCircumference chainringPowerLoss ftpZones goodGears
      dataPoints (F64.zero, 0) with
  | none => none
  | some (totalPowerLoss, goodGearCount) =>
    let percentInGoodGears :=
      F64.div (F64.ofInt goodGearCount) (F64.ofInt (dataPoints.length : Int))
    some (F64.sub totalPowerLoss (F64.mul weight percentInGoodGears))

/-- The loop of lines 205-245.  The state is `(optimalChainring, minWeightedLoss)`. -/
def chainringLoop (dataPoints : List DataPoint) (cassette : List Int)
    (tyreCircumference : F64) (chainringPowerLoss : List ChainringPowerLoss)
    (ftpZones : List FTPZone) (goodGears : List Int) (weight : F64) :
    List Int → Int × F64 → Option (Int × F64)
  | [], st => some st
  | chainring :: rest, (optimalChainring, minWeightedLoss) =>
    match weightedLoss dataPoints chainring cassette tyreCircumference chainringPowerLoss
        ftpZones goodGears weight with
    | none => none
    | some w =>
      if F64.lt w minWeightedLoss then
        chainringLoop dataPoints cassette tyreCircumference chainringPowerLoss ftpZones
          goodGears weight rest (chainring, w)
      else
        chainringLoop dataPoints cassette tyreCircumference chainringPowerLoss ftpZones
          goodGears weight rest (optimalChainring, minWeightedLoss)

/-- Go `calculateOptimalChainring`; `none` is a panic. -/
def calculateOptimalChainring (dataPoints : List DataPoint) (possibleChainrings : List Int)
    (cassette : List Int) (tyreCircumference : F64)
    (chainringPowerLoss : List ChainringPowerLoss) (ftpZones : List FTPZone)
    (goodGears : List Int) (weight : F64) : Option Int :=
  match chainringLoop dataPoints cassette tyreCircumference chainringPowerLoss ftpZones
      goodGears weight possibleChainrings (0, F64.maxFloat64) with
  | none => none
  | some st => some st.1

/-! ## `haversine` and the enrichment loop of `parseGPX` (lines 64-119)

`math.Sin`, `math.Cos`, `math.Sqrt`, `math.Atan2` and `time.Parse` belong to the
Go standard library, not to this program: the first four are a parameter
(`FloatMath`), the parser is a parameter `parse` that yields the parsed instant
in nanoseconds since `0001-01-01T00:00:00Z` or `none` for a parse error (Go
then hands back the zero `Time`, which is that origin).  Reading and decoding
the file (lines 82-91) is outside the embedding. -/

/-- The functions of package `math` used by `haversine`. -/
structure FloatMath where
  Sin : F64 → F64
  Cos : F64 → F64
  Sqrt : F64 → F64
  Atan2 : F64 → F64 → F64

/-- The constant `math.Pi` converted to `float64`. -/
def F64.pi : F64 :=
  F64.ofRatio 314159265358979323846264338327950288419716939937510582097494459
    100000000000000000000000000000000000000000000000000000000000000

/-- Go `haversine`. -/
def haversine (M : FloatMath) (lat1 lon1 lat2 lon2 : F64) : F64 :=
  let R := F64.ofInt 6371000
  let φ1 := F64.div (F64.mul lat1 F64.pi) (F64.ofInt 180)
  let φ2 := F64.div (F64.mul lat2 F64.pi) (F64.ofInt 180)
  let Δφ := F64.div (F64.mul (F64.sub lat2 lat1) F64.pi) (F64.ofInt 180)
  let Δlam := F64.div (F64.mul (F64.sub lon2 lon1) F64.pi) (F64.ofInt 180)
  let a := F64.add
    (F64.mul (M.Sin (F64.div Δφ (F64.ofInt 2))) (M.Sin (F64.div Δφ (F64.ofInt 2))))
    (F64.mul
      (F64.mul (F64.mul (M.Cos φ1) (M.Cos φ2)) (M.Sin (F64.div Δlam (F64.ofInt 2))))
      (M.Sin (F64.div Δlam (F64.ofInt 2))))
  let c := F64.mul (F64.ofInt 2) (M.Atan2 (M.Sqrt a) (M.Sqrt (F64.sub (F64.ofInt 1) a)))
  F64.mul R c

/-- Go `TPX`. -/
structure TPX where
  Cad : Int
  deriving DecidableEq, Repr

/-- Go `Ext`. -/
structure Ext where
  Power : F64
  TPX : TPX
  deriving DecidableEq, Repr

/-- Go `Point`. -/
structure Point where
  Lat : F64
  Lon : F64
  Ele : F64
  Time : String
  Ext : Ext
  deriving DecidableEq, Repr

/-- Method `Time.Sub` on instants in nanoseconds: the difference as a
`time.Duration` (an `int64` count of nanoseconds), saturating at the largest
and smallest duration. -/
def timeSub (t u : Int) : Int :=
  let d := t - u
  if d > 9223372036854775807 then 9223372036854775807
  else if d < -9223372036854775808 then -9223372036854775808
  else d

/-- Method `Duration.Seconds`: `float64(d / Second) + float64(d % Second) / 1e9`,
with Go's truncating integer division. -/
def durationSeconds (d : Int) : F64 :=
  F64.add (F64.ofInt (Int.tdiv d 1000000000))
    (F64.div (F64.ofInt (Int.tmod d 1000000000)) (F64.ofInt 1000000000))

/-- Lines 109-111: the value `timeDiff` for the previous and the current
timestamp; a timestamp that fails to parse is the zero `Time`. -/
def elapsedSeconds (parse : String → Option Int) (prevTime time : String) : F64 :=
  let time1 := (parse time).getD 0
  let time2 := (parse prevTime).getD 0
  durationSeconds (timeSub time1 time2)

/-- The loop of lines 97-117 from index `i` on, `dataPoints` being the slice
built so far; `none` is the panic of `dataPoints[i-1]`. -/
def enrichLoop (M : FloatMath) (parse : String → Option Int) :
    List Point → Nat → List DataPoint → Option (List DataPoint)
  | [], _, dataPoints => some dataPoints
  | point :: rest, i, dataPoints =>
    let dataPoint : DataPoint :=
      ⟨point.Lat, point.Lon, point.Ele, point.Ext.Power, F64.zero, point.Ext.TPX.Cad,
        point.Time⟩
    if i > 0 then
      match dataPoints[i - 1]? with
      | none => none
      | some prevPoint =>
        let distance := haversine M prevPoint.Lat prevPoint.Lon point.Lat point.Lon
        let timeDiff := elapsedSeconds parse prevPoint.Time point.Time
        if F64.ne timeDiff F64.zero then
          enrichLoop M parse rest (i + 1)
            (dataPoints ++
              [{ dataPoint with Speed := F64.mul (F64.div distance timeDiff) F64.c3_6 }])
        else enrichLoop M parse rest (i + 1) (dataPoints ++ [dataPoint])
    else enrichLoop M parse rest (i + 1) (dataPoints ++ [dataPoint])

/-- The transformation of `parseGPX` (lines 94-118) on the decoded track points. -/
def enrich (M : FloatMath) (parse : String → Option Int) (points : List Point) :
    Option (List DataPoint) :=
  enrichLoop M parse points 0 []

/-- The data point built from a track point (lines 98-105), with its speed. -/
def baseDataPoint (point : Point) (speed : F64) : DataPoint :=
  ⟨point.Lat, point.Lon, point.Ele, point.Ext.Power, speed, point.Ext.TPX.Cad, point.Time⟩

/-- Lines 108-114: the speed of a sample whose predecessor has the given
position and timestamp. -/
def pairSpeed (M : FloatMath) (parse : String → Option Int) (prevLat prevLon : F64)
    (prevTime : String) (point : Point) : F64 :=
  let distance := haversine M prevLat prevLon point.Lat point.Lon
  let timeDiff := elapsedSeconds parse prevTime point.Time
  if F64.ne timeDiff F64.zero then F64.mul (F64.div distance timeDiff) F64.c3_6
  else F64.zero

/-- The data points of a run of track points, given the data point before the
run (`none` at the start of the track). -/
def enrichFrom (M : FloatMath) (parse : String → Option Int) :
    Option DataPoint → List Point → List DataPoint
  | _, [] => []
  | prev, point :: rest =>
    let dataPoint := baseDataPoint point
      (match prev with
        | none => F64.zero
        | some prevPoint => pairSpeed M parse prevPoint.Lat prevPoint.Lon prevPoint.Time point)
    dataPoint :: enrichFrom M parse (some dataPoint) rest

/-! ### `time.Parse` for the layout of line 95

A model of the Go standard library function `time.Parse` for the one layout
`"2006-01-02T15:04:05Z"`, after the library's parsing rules: a four-digit year,
two-digit month and day, an hour of one or two digits, two-digit minute and
second, an optional fractional second after `.` or `,`, the literal `Z`, and
nothing after it; month, day, hour, minute and second must be in range.  It
serves to evaluate the enrichment loop on concrete timestamps. -/

/-- Library `isDigit`. -/
def isDigit (c : Char) : Bool := decide ('0' ≤ c) && decide (c ≤ '9')

/-- Value of a decimal digit. -/
def digitVal (c : Char) : Nat := c.toNat - 48

/-- Library `getnum`: a number of two digits, or of one digit when not `fixed`. -/
def getnum (fixed : Bool) : List Char → Option (Nat × List Char)
  | [] => none
  | [c0] => if isDigit c0 && !fixed then some (digitVal c0, []) else none
  | c0 :: c1 :: rest =>
    if !isDigit c0 then none
    else if !isDigit c1 then (if fixed then none else some (digitVal c0, c1 :: rest))
    else some (digitVal c0 * 10 + digitVal c1, rest)

/-- A literal character of the layout. -/
def skipChar (c : Char) : List Char → Option (List Char)
  | [] => none
  | x :: rest => if x = c then some rest else none

/-- The four-digit year. -/
def parseYear : List Char → Option (Nat × List Char)
  | a :: b :: c :: d :: rest =>
    if isDigit a && isDigit b && isDigit c && isDigit d then
      some (((digitVal a * 10 + digitVal b) * 10 + digitVal c) * 10 + digitVal d, rest)
    else none
  | _ => none

/-- The optional fractional second after the seconds field: nanoseconds from at
most nine digits, and the rest of the input. -/
def parseFraction (value : List Char) : Nat × List Char :=
  match value with
  | sep :: d :: rest =>
    if (sep = '.' || sep = ',') && isDigit d then
      let digits := (d :: rest).takeWhile isDigit
      let used := digits.take 9
      (used.foldl (fun n c => n * 10 + digitVal c) 0 * 10 ^ (9 - used.length),
        (d :: rest).dropWhile isDigit)
    else (0, value)
  | _ => (0, value)

/-- Library `daysIn`. -/
def daysIn (month year : Nat) : Nat :=
  if month = 2 then
    (if year % 4 = 0 ∧ (year % 100 ≠ 0 ∨ year % 400 = 0) then 29 else 28)
  else if month = 4 ∨ month = 6 ∨ month = 9 ∨ month = 11 then 30
  else 31

/-- Days from `0001-01-01` to the first day of the year (year 0 is one leap
year earlier). -/
def daysBeforeYear (year : Nat) : Int :=
  if year = 0 then -366
  else
    let y := year - 1
    ((365 * y + y / 4 - y / 100 + y / 400 : Nat) : Int)

/-- Days from the first day of the year to the first day of the month. -/
def daysBeforeMonth (month year : Nat) : Nat :=
  ((List.range (month - 1)).map (fun m => daysIn (m + 1) year)).sum

/-- Function `time.Parse("2006-01-02T15:04:05Z", value)`: the instant in
nanoseconds since `0001-01-01T00:00:00Z`, or `none` for a parse error. -/
def parseLayout (value : String) : Option Int :=
  match parseYear value.toList with
  | none => none
  | some (year, v1) =>
  match (skipChar '-' v1).bind (getnum true) with
  | none => none
  | some (month, v2) =>
  match (skipChar '-' v2).bind (getnum true) with
  | none => none
  | some (day, v3) =>
  match (skipChar 'T' v3).bind (getnum false) with
  | none => none
  | some (hour, v4) =>
  match (skipChar ':' v4).bind (getnum true) with
  | none => none
  | some (min, v5) =>
  match (skipChar ':' v5).bind (getnum true) with
  | none => none
  | some (sec, v6) =>
    if month < 1 ∨ 12 < month ∨ 24 ≤ hour ∨ 60 ≤ min ∨ 60 ≤ sec then none
    else
      let (nsec, v7) := parseFraction v6
      if v7 ≠ ['Z'] then none
      else if day < 1 ∨ daysIn month year < day then none
      else
        let days : Int := daysBeforeYear year + (daysBeforeMonth month year : Nat) + (day - 1 : Nat)
        some (((days * 86400 + (hour * 3600 + min * 60 + sec : Nat)) * 1000000000)
          + (nsec : Nat))

/-! ## Auxiliary definitions for the proofs -/

/-- The scan both minimum searches of the program perform: a list of
candidates, each with an optional key (`none`: the candidate is skipped), is
folded into `(smallest key so far, its candidate)`, a candidate replacing the
current one only when its key is `<` the current key. -/
def firstMin {β : Type} : List (Option F64 × β) → F64 × β → F64 × β
  | [], st => st
  | (none, _) :: rest, st => firstMin rest st
  | (some d, b) :: rest, (m, x) =>
    if F64.lt d m then firstMin rest (d, b) else firstMin rest (m, x)

/-- The value `requiredGearRatio` of line 139 (`speed` in m/s). -/
def requiredRatio (speed cadence tyreCircumference : F64) : F64 :=
  F64.div speed (F64.div (F64.mul cadence tyreCircumference) (F64.ofInt (1000 * 60)))

/-- The value `difference` of line 143 for one cog (`speed` in m/s). -/
def ratioDifference (speed cadence : F64) (chainring : Int) (tyreCircumference : F64)
    (cog : Int) : F64 :=
  F64.abs (F64.sub (F64.div (F64.ofInt chainring) (F64.ofInt cog))
    (requiredRatio speed cadence tyreCircumference))

/-- Lines 135-143 for one cog: `none` when the loop body reaches a `continue`,
otherwise the `difference`. -/
def cogDifference (speed cadence : F64) (chainring : Int) (tyreCircumference : F64)
    (cog : Int) : Option F64 :=
  if F64.eq cadence F64.zero || chainring == 0 || cog == 0 then none
  else if F64.isNaN (F64.div (F64.ofInt chainring) (F64.ofInt cog)) ||
      F64.isNaN (requiredRatio speed cadence tyreCircumference) then none
  else some (ratioDifference speed cadence chainring tyreCircumference cog)

/-- The candidates of `gearLoop` from position `i` on, with the gear each one
would be recorded as. -/
def gearKeys (speed cadence : F64) (chainring : Int) (tyreCircumference : F64) :
    List Int → Nat → List (Option F64 × Gear)
  | [], _ => []
  | cog :: rest, i =>
    (cogDifference speed cadence chainring tyreCircumference cog,
      (⟨(i : Int), chainring, cog, speed, cadence, F64.zero⟩ : Gear)) ::
      gearKeys speed cadence chainring tyreCircumference rest (i + 1)

/-- A sample is scored when the guard of line 211 does not skip it: its power
is neither `== 0` nor NaN. -/
def scored (point : DataPoint) : Bool :=
  !(F64.eq point.Power F64.zero || F64.isNaN point.Power)

/-- The gears `calculateGear` selects for the scored samples, in sample order
(`none` if a selection panics). -/
def scoredGears (dataPoints : List DataPoint) (chainring : Int) (cassette : List Int)
    (tyreCircumference : F64) (chainringPowerLoss : List ChainringPowerLoss)
    (ftpZones : List FTPZone) : Option (List Gear) :=
  (dataPoints.filter scored).mapM (fun point =>
    calculateGear point.Speed (F64.ofInt point.Cad) chainring cassette tyreCircumference
      chainringPowerLoss ftpZones)

/-- The score of a candidate as the specification words it:
`total_power_loss - weight * (goodGearCount / len(dataPoints))`, where
`total_power_loss` is the sum (from `0`, in sample order) of the `PowerLoss` of
the gears of the scored samples, `goodGearCount` the number of those gears whose
cog is in `goodGears`, and the denominator the full sample count. -/
def specScore (dataPoints : List DataPoint) (chainring : Int) (cassette : List Int)
    (tyreCircumference : F64) (chainringPowerLoss : List ChainringPowerLoss)
    (ftpZones : List FTPZone) (goodGears : List Int) (weight : F64) : Option F64 :=
  match scoredGears dataPoints chainring cassette tyreCircumference chainringPowerLoss
      ftpZones with
  | none => none
  | some gears =>
    let totalPowerLoss := (gears.map (fun g => g.PowerLoss)).foldl F64.add F64.zero
    let goodGearCount := gears.countP (fun g => decide (g.Cog ∈ goodGears))
    some (F64.sub totalPowerLoss
      (F64.mul weight
        (F64.div (F64.ofInt (goodGearCount : Int)) (F64.ofInt (dataPoints.length : Int)))))

/-- A cassette of two distinct cogs whose tooth counts, `2^60` and `2^60 + 1`,
convert to the same `float64`. -/
def hugeCassette : List Int := [1152921504606846976, 1152921504606846977]

/-- A speed in km/h whose required ratio at cadence 1 and tyre circumference
60000 is exactly `34 / float64(2^60 + 1)`. -/
def hugeSpeed : F64 :=
  F64.mul F64.c3_6 (F64.div (F64.ofInt 34) (F64.ofInt 1152921504606846977))

/-- The speed in km/h whose required ratio at cadence 90 and tyre circumference
2171 is exactly `34 / 13`. -/
def speedFor34x13 : F64 :=
  F64.mul
    (F64.mul (F64.div (F64.ofInt 34) (F64.ofInt 13))
      (F64.div (F64.mul (F64.ofInt 90) (F64.ofInt 2171)) (F64.ofInt 60000)))
    F64.c3_6

/-- A short ride: 200 W at 3 km/h, a coasting sample with power 0, 150 W at
30 km/h. -/
def exampleRide : List DataPoint :=
  [⟨F64.zero, F64.zero, F64.zero, F64.ofInt 200, F64.ofInt 3, 90, "2023-01-01T00:00:00Z"⟩,
   ⟨F64.zero, F64.zero, F64.zero, F64.ofInt 0, F64.ofInt 25, 85, "2023-01-01T00:00:01Z"⟩,
   ⟨F64.zero, F64.zero, F64.zero, F64.ofInt 150, F64.ofInt 30, 90, "2023-01-01T00:00:02Z"⟩]

/-- A sample at 3 km/h and cadence 90 with the given recorded power. -/
def sampleWithPower (power : F64) : DataPoint :=
  ⟨F64.zero, F64.zero, F64.zero, power, F64.ofInt 3, 90, "2023-01-01T00:00:00Z"⟩

/-- The slice `possibleChainrings` of `main2`. -/
def main2Chainrings : List Int :=
  [30, 31, 32, 33, 34, 35, 36, 37, 38, 39, 40, 41, 42, 43, 44, 45, 46, 47, 48, 49, 50]

/-- The slice `cassette` of `main2`. -/
def main2Cassette : List Int := [11, 12, 13, 14, 15, 16, 17, 19, 21, 24, 27, 30]

/-- The value `tyreCircumference` of `main2`. -/
def main2Tyre : F64 := F64.ofInt 2171

/-- The slice `chainringPowerLoss` of `main2`. -/
def main2PowerLoss : List ChainringPowerLoss :=
  [⟨1, F64.ofRatio 90 10, F64.ofRatio 15 10⟩,
   ⟨2, F64.ofRatio 82 10, F64.ofRatio 135 100⟩,
   ⟨3, F64.ofRatio 75 10, F64.ofRatio 12 10⟩,
   ⟨4, F64.ofRatio 70 10, F64.ofRatio 10 10⟩,
   ⟨5, F64.ofRatio 70 10, F64.ofRatio 10 10⟩,
   ⟨6, F64.ofRatio 70 10, F64.ofRatio 10 10⟩,
   ⟨7, F64.ofRatio 70 10, F64.ofRatio 10 10⟩,
   ⟨8, F64.ofRatio 70 10, F64.ofRatio 10 10⟩,
   ⟨9, F64.ofRatio 75 10, F64.ofRatio 10 10⟩,
   ⟨10, F64.ofRatio 80 10, F64.ofRatio 12 10⟩,
   ⟨11, F64.ofRatio 88 10, F64.ofRatio 135 100⟩,
   ⟨12, F64.ofRatio 90 10, F64.ofRatio 15 10⟩]

/-- The slice `ftpZones` of `main2`. -/
def main2Zones : List FTPZone :=
  [⟨"Active Recovery", F64.ofInt 0, F64.ofInt 174, F64.ofInt 0⟩,
   ⟨"Endurance", F64.ofInt 174, F64.ofInt 241, F64.ofRatio 5 10⟩,
   ⟨"Tempo", F64.ofInt 241, F64.ofInt 286, F64.ofRatio 75 100⟩,
   ⟨"Sweet Spot", F64.ofInt 279, F64.ofInt 333, F64.ofInt 1⟩,
   ⟨"VO2 max", F64.ofInt 333, F64.ofInt 381, F64.ofRatio 15 10⟩,
   ⟨"Anaerobic capacity", F64.ofInt 381, F64.ofInt 477, F64.ofInt 2⟩,
   ⟨"Neuromuscular", F64.ofInt 477, F64.ofInt 2000, F64.ofInt 3⟩]

/-- The slice `goodGears` of `main2`. -/
def main2GoodGears : List Int := [12, 13, 14, 15]

/-- The ride `exampleRide` with other recorded powers: 50 W, NaN and 999 W in
place of 200 W, 0 W and 150 W. -/
def exampleRideOtherPower : List DataPoint :=
  [⟨F64.zero, F64.zero, F64.zero, F64.ofInt 50, F64.ofInt 3, 90, "2023-01-01T00:00:00Z"⟩,
   ⟨F64.zero, F64.zero, F64.zero, F64.nan, F64.ofInt 25, 85, "2023-01-01T00:00:01Z"⟩,
   ⟨F64.zero, F64.zero, F64.zero, F64.ofInt 999, F64.ofInt 30, 90, "2023-01-01T00:00:02Z"⟩]

/-- Two sample lists differ at most in the recorded power, and a sample's power
is `== 0` or NaN in one list exactly when it is in the other. -/
def samePowerPattern (p q : DataPoint) : Prop :=
  q.Lat = p.Lat ∧ q.Lon = p.Lon ∧ q.Ele = p.Ele ∧ q.Speed = p.Speed ∧ q.Cad = p.Cad ∧
    q.Time = p.Time ∧
    (F64.eq q.Power F64.zero || F64.isNaN q.Power)
      = (F64.eq p.Power F64.zero || F64.isNaN p.Power)

/-- The value `1`. -/
def F64.one : F64 := F64.ofInt 1

/-- The behaviour of package `math` that `haversine` relies on at a point and
itself: `Sin(+0) = +0`, `Cos` of a finite argument is at most 1 in magnitude,
`Sqrt(+0) = +0`, `Sqrt(1) = 1` and `Atan2(+0, 1) = +0` (special cases
documented for the Go functions, and the range of the cosine). -/
structure MathLaws (M : FloatMath) : Prop where
  sin_zero : M.Sin F64.zero = F64.zero
  cos_le_one : ∀ x, F64.isFinite x = true → F64.le (F64.abs (M.Cos x)) F64.one = true
  sqrt_zero : M.Sqrt F64.zero = F64.zero
  sqrt_one : M.Sqrt F64.one = F64.one
  atan2_zero_one : M.Atan2 F64.zero F64.one = F64.zero

/-- The special cases of package `math` at NaN and infinity that `haversine`
meets when a coordinate overflows: `Cos(+Inf) = NaN`, `Sqrt(NaN) = NaN`,
`Atan2(NaN, NaN) = NaN` (documented for the Go functions). -/
structure MathNaNLaws (M : FloatMath) : Prop where
  cos_inf : M.Cos (F64.inf false) = F64.nan
  sqrt_nan : M.Sqrt F64.nan = F64.nan
  atan2_nan : M.Atan2 F64.nan F64.nan = F64.nan

/-- A stand-in for package `math`: the crudest functions that obey `MathLaws`
and `MathNaNLaws` and have an odd sine (`sin x = x`, `cos x = 1` on finite
arguments, `sqrt x = x`, `atan2 y x = y`).
It shows that the laws can be met and lets statements about `haversine` be
instantiated; it is not the Go library. -/
def standInMath : FloatMath where
  Sin := fun x => x
  Cos := fun x => if F64.isFinite x then F64.one else F64.nan
  Sqrt := fun x => x
  Atan2 := fun y _ => y

/-- Each step of a binary search is at most one more than the sum of the steps
after it, so the windows leave no gap. -/
def F64.halving : List Nat → Prop
  | [] => True
  | s :: ss => s ≤ ss.sum + 1 ∧ F64.halving ss

/-- A magnitude with at most 53 significant bits. -/
def F64.representable (k : Nat) : Prop := ∃ m e, m < 2 ^ 53 ∧ k = m * 2 ^ e

/-- The values of the model that are binary64 numbers: a finite value has at
most 53 significant bits and lies below `2^1024`. -/
def F64.valid : F64 → Prop
  | F64.fin _ k => F64.representable k ∧ k < 1 <<< 2098
  | _ => True

/-- Two values that every comparison treats alike: equal, or both a zero. -/
def F64.same (x y : F64) : Prop := x = y ∨ ∃ a b, x = F64.fin a 0 ∧ y = F64.fin b 0

/-- The total power loss of a candidate as the specification words it: the sum
(from `0`, in sample order) of the `PowerLoss` of the gears of the scored
samples (`none` if a selection panics). -/
def totalPowerLoss (dataPoints : List DataPoint) (chainring : Int) (cassette : List Int)
    (tyreCircumference : F64) (chainringPowerLoss : List ChainringPowerLoss)
    (ftpZones : List FTPZone) : Option F64 :=
  (scoredGears dataPoints chainring cassette tyreCircumference chainringPowerLoss
    ftpZones).map (fun gears => (gears.map (fun g => g.PowerLoss)).foldl F64.add F64.zero)

/-- The speed in km/h at which cadence 30 on a 2171 mm tyre needs the ratio
`34/13`, about 10.22 km/h. -/
def slowSpeedFor34x13 : F64 :=
  F64.mul
    (F64.mul (F64.div (F64.ofInt 34) (F64.ofInt 13))
      (F64.div (F64.mul (F64.ofInt 30) (F64.ofInt 2171)) (F64.ofInt 60000)))
    F64.c3_6

/-- A ride of one sample: 200 W at cadence 30 and `slowSpeedFor34x13`. -/
def slowRide : List DataPoint :=
  [⟨F64.zero, F64.zero, F64.zero, F64.ofInt 200, slowSpeedFor34x13, 30,
    "2023-01-01T00:00:00Z"⟩]


/-! ### One degree of latitude

Auxiliary definitions for the distance between two points of a meridian one
degree apart: the arguments `haversine` passes to package `math`, the accuracy
assumed of the results, and the enclosures that follow from it. -/

/-- The constant `1 + 2^-10`. -/
def F64.onePlus : F64 := F64.ofRatio 1025 1024

/-- The constant `1 - 2^-10`. -/
def F64.oneMinus : F64 := F64.ofRatio 1023 1024

/-- Half of one degree in radians, as `haversine` computes `Δφ/2` when the
latitudes differ by `1`: `((1 * π) / 180) / 2`. -/
def halfDegree : F64 :=
  F64.div (F64.div (F64.mul F64.one F64.pi) (F64.ofInt 180)) (F64.ofInt 2)

/-- The value `a` of `haversine` for one degree of latitude on a meridian:
the square of `Sin(Δφ/2)`. -/
def haversineA (M : FloatMath) : F64 := F64.mul (M.Sin halfDegree) (M.Sin halfDegree)

/-- The quotient `Sqrt(a) / Sqrt(1 - a)` whose arc tangent `Atan2` returns. -/
def haversineT (M : FloatMath) : F64 :=
  F64.div (M.Sqrt (haversineA M)) (M.Sqrt (F64.sub F64.one (haversineA M)))

/-- The behaviour of package `math` at the calls `haversine` makes for one
degree of latitude on a meridian.  `Sin(+0) = +0`, `Sin(-x) = -Sin(x)` at
`x = halfDegree` and the range of the cosine are as in `MathLaws`; each other
line is, at the argument passed, a bound that holds for the mathematical
function with a margin far above the error of a library:
`x - x^3 <= sin x <= x`; `sqrt a` is non-negative and its square is within one
part in 1024 of `a`; and `t - t^3 <= atan2(y, x) <= t * (1 + 2^-10)` for
`t = y / x`. -/
structure OneDegreeAccuracy (M : FloatMath) : Prop where
  sin_zero : M.Sin F64.zero = F64.zero
  sin_neg : M.Sin (F64.neg halfDegree) = F64.neg (M.Sin halfDegree)
  cos_le_one : ∀ x, F64.isFinite x = true → F64.le (F64.abs (M.Cos x)) F64.one = true
  sin_le : F64.le (M.Sin halfDegree) halfDegree = true
  sin_ge : F64.le
    (F64.sub halfDegree (F64.mul (F64.mul halfDegree halfDegree) halfDegree))
    (M.Sin halfDegree) = true
  sqrt_a_nonneg : F64.le F64.zero (M.Sqrt (haversineA M)) = true
  sqrt_a_le : F64.le (F64.mul (M.Sqrt (haversineA M)) (M.Sqrt (haversineA M)))
    (F64.mul (haversineA M) F64.onePlus) = true
  sqrt_a_ge : F64.le (F64.mul (haversineA M) F64.oneMinus)
    (F64.mul (M.Sqrt (haversineA M)) (M.Sqrt (haversineA M))) = true
  sqrt_b_nonneg : F64.le F64.zero (M.Sqrt (F64.sub F64.one (haversineA M))) = true
  sqrt_b_le : F64.le
    (F64.mul (M.Sqrt (F64.sub F64.one (haversineA M)))
      (M.Sqrt (F64.sub F64.one (haversineA M))))
    (F64.mul (F64.sub F64.one (haversineA M)) F64.onePlus) = true
  sqrt_b_ge : F64.le (F64.mul (F64.sub F64.one (haversineA M)) F64.oneMinus)
    (F64.mul (M.Sqrt (F64.sub F64.one (haversineA M)))
      (M.Sqrt (F64.sub F64.one (haversineA M)))) = true
  atan2_le : F64.le
    (M.Atan2 (M.Sqrt (haversineA M)) (M.Sqrt (F64.sub F64.one (haversineA M))))
    (F64.mul (haversineT M) F64.onePlus) = true
  atan2_ge : F64.le
    (F64.sub (haversineT M) (F64.mul (F64.mul (haversineT M) (haversineT M)) (haversineT M)))
    (M.Atan2 (M.Sqrt (haversineA M)) (M.Sqrt (F64.sub F64.one (haversineA M)))) = true

namespace OneDegree

/-- Lower bound of `Sin(halfDegree)`. -/
def sinLo : F64 :=
  F64.sub halfDegree (F64.mul (F64.mul halfDegree halfDegree) halfDegree)

/-- Bounds of `a`. -/
def aLo : F64 := F64.mul sinLo sinLo

def aHi : F64 := F64.mul halfDegree halfDegree

/-- Bounds of `Sqrt(a)`: the squares of the factors lie beyond `1 -+ 2^-10`. -/
def r1Lo : F64 := F64.mul sinLo (F64.ofRatio 1048063 1048576)

def r1Hi : F64 := F64.mul halfDegree (F64.ofRatio 2049 2048)

/-- Bounds of `Sqrt(1 - a)`. -/
def r2Lo : F64 := F64.ofRatio 1047000 1048576

def r2Hi : F64 := F64.ofRatio 2049 2048

/-- Bounds of the quotient `Sqrt(a) / Sqrt(1 - a)`. -/
def tLo : F64 := F64.div r1Lo r2Hi

def tHi : F64 := F64.div r1Hi r2Lo

/-- Bounds of the result of `Atan2`. -/
def angleLo : F64 := F64.sub tLo (F64.mul (F64.mul tHi tHi) tHi)

def angleHi : F64 := F64.mul tHi F64.onePlus

end OneDegree

/-- The values package `math` returns at the arguments `haversine` passes for
the points (0, 0) and (1, 0), in either order, which are the correctly rounded
values of the sine, cosine, square root and arc tangent there; at every other
argument the functions of `standInMath`. -/
def oneDegreeTable : FloatMath where
  Sin := fun x =>
    if x = F64.fin false (0x11df46a2529d39 <<< 1015) then
      F64.fin false (0x11df37c4954c21 <<< 1015)
    else if x = F64.fin true (0x11df46a2529d39 <<< 1015) then
      F64.fin true (0x11df37c4954c21 <<< 1015)
    else x
  Cos := fun x =>
    if x = F64.fin false (0x11df46a2529d39 <<< 1016) then
      F64.fin false (0x1ffec097f5af8a <<< 1021)
    else if F64.isFinite x then F64.one else F64.nan
  Sqrt := fun x =>
    if x = F64.fin false (0x13f680a5076462 <<< 1008) then
      F64.fin false (0x11df37c4954c21 <<< 1015)
    else if x = F64.fin false (0x1fff604bfad7c5 <<< 1021) then
      F64.fin false (0x1fffb02599c9cd <<< 1021)
    else x
  Atan2 := fun y x =>
    if y = F64.fin false (0x11df37c4954c21 <<< 1015) ∧
        x = F64.fin false (0x1fffb02599c9cd <<< 1021) then
      F64.fin false (0x11df46a2529d39 <<< 1015)
    else y

/-! ## Order facts about `float64` comparison -/

namespace F64

theorem lt_irrefl (a : F64) : lt a a = false := by
  cases a <;> simp [lt]

theorem lt_trans {a b c : F64} (h1 : lt a b = true) (h2 : lt b c = true) : lt a c = true := by
  cases a <;> cases b <;> cases c <;> simp_all [lt]
  all_goals omega

theorem lt_asymm {a b : F64} (h : lt a b = true) : lt b a = false := by
  cases a <;> cases b <;> simp_all [lt]
  all_goals omega

theorem lt_of_lt_of_not_lt {d m d0 : F64} (h1 : lt d m = true) (h2 : lt d0 m = false)
    (h3 : isNaN d0 = false) : lt d d0 = true := by
  cases d <;> cases m <;> cases d0 <;> simp_all [lt, isNaN]
  all_goals omega

theorem le_of_not_lt {a b : F64} (h : lt b a = false) (ha : isNaN a = false)
    (hb : isNaN b = false) : le a b = true := by
  cases a <;> cases b <;> simp_all [lt, le, isNaN]
  rename_i s t
  revert h
  cases s <;> cases t <;> decide

theorem isNaN_of_lt_left {a b : F64} (h : lt a b = true) : isNaN a = false := by
  cases a <;> cases b <;> simp_all [lt, isNaN]

theorem isNaN_of_lt_right {a b : F64} (h : lt a b = true) : isNaN b = false := by
  cases a <;> cases b <;> simp_all [lt, isNaN]

end F64

/-! ## The first-minimum scan -/

/-- Outcome of `firstMin`: either nothing was accepted and the state is the
initial one, or the state is the candidate at some position `j` whose key is
below the initial key, not above any other key, and strictly below every
earlier key that is not NaN. -/
theorem firstMin_spec {β : Type} (keys : List (Option F64 × β)) (m : F64) (x : β) :
    (firstMin keys (m, x) = (m, x) ∧
      ∀ d b, (some d, b) ∈ keys → F64.lt d m = false) ∨
    (∃ (j : Nat) (d : F64) (b : β), keys[j]? = some (some d, b) ∧
      firstMin keys (m, x) = (d, b) ∧ F64.lt d m = true ∧
      ∀ (j' : Nat) (d' : F64) (b' : β), keys[j']? = some (some d', b') →
        F64.lt d' d = false ∧ (j' < j → F64.isNaN d' = false → F64.lt d d' = true)) := by
  induction keys generalizing m x with
  | nil => exact Or.inl ⟨rfl, by simp⟩
  | cons hd rest ih =>
    obtain ⟨k, b0⟩ := hd
    have hcase : (firstMin ((k, b0) :: rest) (m, x) = firstMin rest (m, x) ∧
          ∀ d0, k = some d0 → F64.lt d0 m = false) ∨
        (∃ d0, k = some d0 ∧ F64.lt d0 m = true ∧
          firstMin ((k, b0) :: rest) (m, x) = firstMin rest (d0, b0)) := by
      cases k with
      | none => exact Or.inl ⟨rfl, fun _ h => by cases h⟩
      | some d0 =>
        by_cases hacc : F64.lt d0 m = true
        · exact Or.inr ⟨d0, rfl, hacc, by simp [firstMin, hacc]⟩
        · simp only [Bool.not_eq_true] at hacc
          exact Or.inl ⟨by simp [firstMin, hacc], fun d h => by cases h; exact hacc⟩
    rcases hcase with ⟨heq, hk⟩ | ⟨d0, rfl, hacc, heq⟩
    · -- the head is not accepted: the scan continues from the same state
      rcases ih m x with ⟨he, hall⟩ | ⟨j, d, b, hj, he, hlt, hmin⟩
      · left
        refine ⟨heq.trans he, ?_⟩
        intro d' b' hmem
        rcases List.mem_cons.1 hmem with h | h
        · cases h
          exact hk d' rfl
        · exact hall d' b' h
      · right
        refine ⟨j + 1, d, b, by simpa using hj, heq.trans he, hlt, ?_⟩
        intro j' d' b' hj'
        cases j' with
        | zero =>
          simp only [List.getElem?_cons_zero, Option.some.injEq, Prod.mk.injEq] at hj'
          obtain ⟨rfl, rfl⟩ := hj'
          have h0 := hk d' rfl
          by_cases hn : F64.isNaN d' = true
          · refine ⟨?_, fun _ hn' => absurd hn (by simp [hn'])⟩
            cases d' <;> simp_all [F64.lt, F64.isNaN]
          · simp only [Bool.not_eq_true] at hn
            have := F64.lt_of_lt_of_not_lt hlt h0 hn
            exact ⟨F64.lt_asymm this, fun _ _ => this⟩
        | succ j'' =>
          have := hmin j'' d' b' (by simpa using hj')
          exact ⟨this.1, fun hlt' => this.2 (by omega)⟩
    · -- the head is accepted: the scan continues from it
      right
      rcases ih d0 b0 with ⟨he, hall⟩ | ⟨j, d, b, hj, he, hlt, hmin⟩
      · refine ⟨0, d0, b0, by simp, heq.trans he, hacc, ?_⟩
        intro j' d' b' hj'
        cases j' with
        | zero =>
          simp only [List.getElem?_cons_zero, Option.some.injEq, Prod.mk.injEq] at hj'
          obtain ⟨h1, -⟩ := hj'
          cases h1
          exact ⟨F64.lt_irrefl _, fun h => absurd h (by omega)⟩
        | succ j'' =>
          refine ⟨hall d' b' ?_, fun h => absurd h (by omega)⟩
          exact List.getElem?_mem (by simpa using hj')
      · refine ⟨j + 1, d, b, by simpa using hj, heq.trans he, F64.lt_trans hlt hacc, ?_⟩
        intro j' d' b' hj'
        cases j' with
        | zero =>
          simp only [List.getElem?_cons_zero, Option.some.injEq, Prod.mk.injEq] at hj'
          obtain ⟨h1, -⟩ := hj'
          cases h1
          exact ⟨F64.lt_asymm hlt, fun _ _ => hlt⟩
        | succ j'' =>
          have := hmin j'' d' b' (by simpa using hj')
          exact ⟨this.1, fun hlt' => this.2 (by omega)⟩

/-! ## Facts about rounding and the arithmetic operators -/

namespace F64

theorem ilog2Aux_spec (steps : List Nat) (n acc : Nat) (hn : n ≠ 0) :
    ∃ q, ilog2Aux steps n acc = acc + q ∧ 2 ^ q ≤ n := by
  induction steps generalizing n acc with
  | nil => exact ⟨0, rfl, by simpa using Nat.pos_of_ne_zero hn⟩
  | cons s ss ih =>
    by_cases h : n >>> s ≠ 0
    · obtain ⟨q, hq, hle⟩ := ih (n >>> s) (acc + s) h
      refine ⟨s + q, ?_, ?_⟩
      · rw [ilog2Aux, if_pos h, hq, Nat.add_assoc]
      · rw [Nat.shiftRight_eq_div_pow] at hle
        calc 2 ^ (s + q) = 2 ^ s * 2 ^ q := Nat.pow_add 2 s q
          _ ≤ 2 ^ s * (n / 2 ^ s) := Nat.mul_le_mul_left _ hle
          _ ≤ n := Nat.mul_div_le n (2 ^ s)
    · obtain ⟨q, hq, hle⟩ := ih n acc hn
      exact ⟨q, by rw [ilog2Aux, if_neg h, hq], hle⟩

theorem two_pow_ilog2_le (n : Nat) (hn : n ≠ 0) : 2 ^ ilog2 n ≤ n := by
  obtain ⟨q, hq, hle⟩ := ilog2Aux_spec
    [8192, 4096, 2048, 1024, 512, 256, 128, 64, 32, 16, 8, 4, 2, 1] n 0 hn
  unfold ilog2
  rw [hq, Nat.zero_add]
  exact hle

theorem le_roundHalfEven (n d : Nat) : n / d ≤ roundHalfEven n d := by
  unfold roundHalfEven
  dsimp only
  split <;> omega

theorem isNaN_round (neg : Bool) (n d : Nat) : isNaN (round neg n d) = false := by
  unfold round
  dsimp only
  split <;> rfl

/-- Rounding a non-zero integer number of units never gives a zero. -/
theorem round_one_ne_zero (neg s : Bool) (n : Nat) (hn : n ≠ 0) : round neg n 1 ≠ fin s 0 := by
  unfold round
  dsimp only
  have hs : 2 ^ (ilog2 (n / 1) - 52) ≤ n := by
    rw [Nat.div_one]
    exact le_trans (Nat.pow_le_pow_right (by norm_num) (Nat.sub_le _ _)) (two_pow_ilog2_le n hn)
  generalize ilog2 (n / 1) - 52 = t at hs
  have hk0 : 1 ≤ roundHalfEven n (1 <<< t) := by
    refine le_trans ?_ (le_roundHalfEven n (1 <<< t))
    rw [Nat.shiftLeft_eq, Nat.one_mul]
    exact (Nat.one_le_div_iff (Nat.two_pow_pos t)).2 hs
  split
  · intro h
    injection h with _ hk
    rw [Nat.shiftLeft_eq] at hk
    have h2 : 0 < 2 ^ t := Nat.two_pow_pos t
    rcases Nat.mul_eq_zero.1 hk with h0 | h0 <;> omega
  · intro h
    cases h

theorem isNaN_ofInt (n : Int) : isNaN (ofInt n) = false := isNaN_round _ _ _

theorem ofInt_ne_zero (n : Int) (hn : n ≠ 0) (s : Bool) : ofInt n ≠ fin s 0 := by
  unfold ofInt
  apply round_one_ne_zero
  rw [Nat.shiftLeft_eq]
  have : n.natAbs ≠ 0 := by omega
  positivity

theorem roundHalfEven_le (n d : Nat) : roundHalfEven n d ≤ n / d + 1 := by
  unfold roundHalfEven
  dsimp only
  split <;> omega

theorem ilog2_zero : ilog2 0 = 0 := by decide

/-- The shift chosen by `round` for a quotient `q`: at most `q` itself. -/
theorem two_pow_shift_le (q : Nat) : 2 ^ (ilog2 q - 52) ≤ q + 1 := by
  by_cases hq : q = 0
  · subst hq
    rw [ilog2_zero]
    decide
  · exact le_trans (Nat.pow_le_pow_right (by norm_num) (Nat.sub_le _ _))
      (le_trans (two_pow_ilog2_le q hq) (Nat.le_succ q))

/-- The magnitude produced by `round` is at most twice the quotient plus one. -/
theorem round_units_le (n d : Nat) :
    roundHalfEven n (d <<< (ilog2 (n / d) - 52)) <<< (ilog2 (n / d) - 52)
      ≤ 2 * (n / d) + 1 := by
  have hs := two_pow_shift_le (n / d)
  generalize ilog2 (n / d) - 52 = t at hs
  rw [Nat.shiftLeft_eq, Nat.shiftLeft_eq]
  have h1 := roundHalfEven_le n (d * 2 ^ t)
  have h2 : n / (d * 2 ^ t) * 2 ^ t ≤ n / d := by
    rw [← Nat.div_div_eq_div_mul]
    exact Nat.div_mul_le_self _ _
  calc roundHalfEven n (d * 2 ^ t) * 2 ^ t
      ≤ (n / (d * 2 ^ t) + 1) * 2 ^ t := Nat.mul_le_mul_right _ h1
    _ = n / (d * 2 ^ t) * 2 ^ t + 2 ^ t := by ring
    _ ≤ n / d + (n / d + 1) := Nat.add_le_add h2 hs
    _ = 2 * (n / d) + 1 := by ring

theorem round_eq_fin (neg : Bool) (n d : Nat) (h : 2 * (n / d) + 1 < 1 <<< 2098) :
    round neg n d =
      fin neg (roundHalfEven n (d <<< (ilog2 (n / d) - 52)) <<< (ilog2 (n / d) - 52)) := by
  unfold round
  dsimp only
  rw [if_pos (lt_of_le_of_lt (round_units_le n d) h)]

/-- Rounding an integer number of units loses less than half of it. -/
theorem le_two_mul_round_one (n : Nat) :
    n ≤ 2 * (roundHalfEven n (1 <<< (ilog2 (n / 1) - 52)) <<< (ilog2 (n / 1) - 52)) := by
  rw [Nat.div_one]
  by_cases hn : n = 0
  · subst hn
    exact Nat.zero_le _
  have hlog := two_pow_ilog2_le n hn
  have hs : 2 ^ (ilog2 n - 52) ≤ n :=
    le_trans (Nat.pow_le_pow_right (by norm_num) (Nat.sub_le _ _)) hlog
  have hs2 : 0 < ilog2 n - 52 → 2 * 2 ^ (ilog2 n - 52) ≤ n := by
    intro hpos
    refine le_trans ?_ hlog
    rw [← Nat.pow_succ']
    exact Nat.pow_le_pow_right (by norm_num) (by omega)
  generalize ilog2 n - 52 = t at hs hs2
  rw [Nat.shiftLeft_eq, Nat.shiftLeft_eq, Nat.one_mul]
  have h1 := le_roundHalfEven n (2 ^ t)
  have hpos : 0 < 2 ^ t := Nat.two_pow_pos t
  have hmod := Nat.mod_lt n hpos
  have hdm := Nat.div_add_mod n (2 ^ t)
  have h3 : n / 2 ^ t * 2 ^ t ≤ roundHalfEven n (2 ^ t) * 2 ^ t := Nat.mul_le_mul_right _ h1
  have h4 : 2 ^ t * (n / 2 ^ t) = n / 2 ^ t * 2 ^ t := Nat.mul_comm _ _
  by_cases ht : t = 0
  · subst ht
    simp at *
    omega
  · have := hs2 (Nat.pos_of_ne_zero ht)
    omega

theorem shiftLeft_mono {a b : Nat} (h : a ≤ b) (s : Nat) : a <<< s ≤ b <<< s := by
  rw [Nat.shiftLeft_eq, Nat.shiftLeft_eq]
  exact Nat.mul_le_mul_right _ h

/-- Conversion of a non-zero 64-bit integer: a finite value of magnitude between
`2^1073` and `2^1138 + 1` units, that is between `1/2` and about `2^64`. -/
theorem ofInt_eq_fin (n : Int) (hn : n.natAbs ≤ 1 <<< 63) (hn0 : n ≠ 0) :
    ∃ k, ofInt n = fin (decide (n < 0)) k ∧ 1 <<< 1073 ≤ k ∧ k ≤ (1 <<< 1138) + 1 := by
  have hpos : 1 ≤ n.natAbs := by omega
  have hN : n.natAbs <<< 1074 ≤ (1 <<< 63) <<< 1074 := shiftLeft_mono hn 1074
  have hN1 : 1 <<< 1074 ≤ n.natAbs <<< 1074 := shiftLeft_mono hpos 1074
  have c1 : 2 * ((1 <<< 63) <<< 1074) + 1 = (1 <<< 1138) + 1 := by decide
  have c2 : (1 <<< 1138) + 1 < 1 <<< 2098 := by decide
  have c3 : (1 : Nat) <<< 1074 = 2 * (1 <<< 1073) := by decide
  have hlo := le_two_mul_round_one (n.natAbs <<< 1074)
  have hhi := round_units_le (n.natAbs <<< 1074) 1
  rw [Nat.div_one] at hhi hlo
  refine ⟨_, round_eq_fin _ _ 1 ?_, ?_, ?_⟩
  · rw [Nat.div_one]
    omega
  · rw [Nat.div_one]
    omega
  · rw [Nat.div_one]
    omega

/-- The ratio of two 64-bit integers, the divisor non-zero, is a finite value. -/
theorem isFinite_div_ofInt (a b : Int) (ha : a.natAbs ≤ 1 <<< 63) (hb : b.natAbs ≤ 1 <<< 63)
    (hb0 : b ≠ 0) : isFinite (div (ofInt a) (ofInt b)) = true := by
  obtain ⟨y, hy, hylo, -⟩ := ofInt_eq_fin b hb hb0
  have hy0 : y ≠ 0 := by
    have : 0 < (1 : Nat) <<< 1073 := by decide
    omega
  by_cases ha0 : a = 0
  · subst ha0
    have h0 : ofInt 0 = fin false 0 := by decide
    rw [h0, hy]
    simp only [div, if_neg hy0]
    rw [round_eq_fin]
    · rfl
    · simp only [Nat.zero_shiftLeft, Nat.zero_div]
      decide
  · obtain ⟨x, hx, -, hxhi⟩ := ofInt_eq_fin a ha ha0
    rw [hx, hy]
    simp only [div, if_neg hy0]
    rw [round_eq_fin]
    · rfl
    · have h1 : x <<< 1074 / y ≤ (((1 <<< 1138) + 1) <<< 1074) / (1 <<< 1073) := by
        apply Nat.div_le_div
        · exact shiftLeft_mono hxhi 1074
        · exact hylo
        · decide
      have c : 2 * ((((1 <<< 1138) + 1) <<< 1074) / (1 <<< 1073)) + 1 < 1 <<< 2098 := by
        decide
      omega

theorem abs_fin_of_lt {x m : F64} (h : lt (abs x) m = true) : isFinite x = true := by
  cases x <;> cases m <;> simp_all [lt, abs, isFinite]

theorem isFinite_of_add {a b : F64} (h : isFinite (add a b) = true) :
    isFinite a = true ∧ isFinite b = true := by
  cases a with
  | nan => cases b <;> simp [add, isFinite] at h
  | inf sa =>
    cases b with
    | nan => simp [add, isFinite] at h
    | inf sb => by_cases e : sa = sb <;> simp [add, e, isFinite] at h
    | fin sb y => simp [add, isFinite] at h
  | fin sa x =>
    cases b with
    | nan => simp [add, isFinite] at h
    | inf sb => simp [add, isFinite] at h
    | fin sb y => exact ⟨rfl, rfl⟩

theorem isFinite_neg (a : F64) : isFinite (neg a) = isFinite a := by
  cases a <;> rfl

theorem isFinite_of_sub {a b : F64} (h : isFinite (sub a b) = true) :
    isFinite a = true ∧ isFinite b = true := by
  have := isFinite_of_add h
  rw [isFinite_neg] at this
  exact this

theorem isNaN_add_fin {a b : F64} (ha : isNaN a = false) (hb : isFinite b = true) :
    isNaN (add a b) = false := by
  cases b with
  | nan => cases hb
  | inf _ => cases hb
  | fin sb y =>
    cases a with
    | nan => cases ha
    | inf sa => rfl
    | fin sa x =>
      by_cases e : sgn sa x + sgn sb y = 0
      · simp [add, e, isNaN]
      · simp only [add, if_neg e]
        exact isNaN_round _ _ _

theorem isNaN_abs (a : F64) : isNaN (abs a) = isNaN a := by
  cases a <;> rfl

theorem isNaN_abs_sub_fin {a b : F64} (ha : isNaN a = false) (hb : isFinite b = true) :
    isNaN (abs (sub a b)) = false := by
  rw [isNaN_abs]
  exact isNaN_add_fin ha (by rw [isFinite_neg]; exact hb)

theorem isFinite_of_div {a b : F64} (h : isFinite (div a b) = true) : isFinite a = true := by
  cases a <;> cases b <;> simp_all [div, isFinite]

theorem isNaN_div {a b : F64} (ha : isFinite a = true) (hb : isNaN b = false)
    (hb0 : ∀ s, b ≠ fin s 0) : isNaN (div a b) = false := by
  cases a with
  | nan => cases ha
  | inf _ => cases ha
  | fin sa x =>
    cases b with
    | nan => cases hb
    | inf _ => rfl
    | fin sb y =>
      have hy : y ≠ 0 := fun h => hb0 sb (by rw [h])
      simp only [div, if_neg hy]
      exact isNaN_round _ _ _

theorem sgn_not (a : Bool) (x : Nat) : sgn (!a) x = -sgn a x := by
  cases a <;> simp [sgn]

/-- A value subtracted from a finite value it is `==` to leaves difference `+0`. -/
theorem abs_sub_eq_zero {a b : F64} (h : eq a b = true) (hb : isFinite b = true) :
    abs (sub b a) = zero := by
  cases b with
  | nan => cases hb
  | inf _ => cases hb
  | fin sb y =>
    cases a with
    | nan => simp [eq] at h
    | inf _ => simp [eq] at h
    | fin sa x =>
      simp only [eq, decide_eq_true_eq] at h
      have hv : sgn sb y + sgn (!sa) x = 0 := by rw [sgn_not]; omega
      simp [sub, neg, add, hv, abs, zero]

/-- A zero difference means the two values are `==`. -/
theorem eq_of_abs_sub_eq_zero {a r : F64} (h : abs (sub a r) = zero) : eq a r = true := by
  have hfin : isFinite (sub a r) = true := by
    cases hs : sub a r <;> simp [hs, abs, zero] at h ⊢
    rfl
  obtain ⟨ha, hr⟩ := isFinite_of_sub hfin
  cases a with
  | nan => cases ha
  | inf _ => cases ha
  | fin sa x =>
    cases r with
    | nan => cases hr
    | inf _ => cases hr
    | fin sr y =>
      simp only [eq, decide_eq_true_eq]
      by_cases hv : sgn sa x + sgn (!sr) y = 0
      · rw [sgn_not] at hv
        omega
      · exfalso
        simp only [sub, neg, add, if_neg hv] at h
        have hne : (sgn sa x + sgn (!sr) y).natAbs ≠ 0 := by omega
        cases hro : round (decide (sgn sa x + sgn (!sr) y < 0))
            (sgn sa x + sgn (!sr) y).natAbs 1 with
        | nan => rw [hro] at h; simp [abs, zero] at h
        | inf _ => rw [hro] at h; simp [abs, zero] at h
        | fin s k =>
          rw [hro] at h
          simp only [abs, zero, fin.injEq, true_and] at h
          subst h
          exact round_one_ne_zero _ _ _ hne hro

theorem eq_trans {a b c : F64} (h1 : eq a b = true) (h2 : eq b c = true) : eq a c = true := by
  cases a <;> cases b <;> cases c <;> simp_all [eq]

theorem isNaN_of_eq_left {a b : F64} (h : eq a b = true) : isNaN a = false := by
  cases a <;> cases b <;> simp_all [eq, isNaN]

theorem isNaN_of_isFinite {a : F64} (h : isFinite a = true) : isNaN a = false := by
  cases a <;> simp_all [isFinite, isNaN]

/-- An absolute value that is not NaN and not above `+0` is `+0`. -/
theorem abs_eq_zero_of_not_lt {x : F64} (h1 : lt zero (abs x) = false)
    (h2 : isNaN (abs x) = false) : abs x = zero := by
  cases x with
  | nan => simp [abs, isNaN] at h2
  | inf _ => simp [abs, lt, zero] at h1
  | fin s k =>
    simp only [abs, lt, zero, sgn, decide_eq_false_iff_not] at h1
    simp only [abs, zero, fin.injEq, true_and]
    simp at h1
    omega

/-- The rounded quotient is within half a divisor of the dividend. -/
theorem roundHalfEven_near (n d : Nat) (hd : 0 < d) :
    2 * (roundHalfEven n d * d) ≤ 2 * n + d ∧ 2 * n ≤ 2 * (roundHalfEven n d * d) + d := by
  unfold roundHalfEven
  dsimp only
  have hdm := Nat.div_add_mod n d
  have hmod := Nat.mod_lt n hd
  have hmul : d * (n / d) = n / d * d := Nat.mul_comm _ _
  split
  · rename_i h
    have : (n / d + 1) * d = n / d * d + d := by ring
    rcases h with h | ⟨h, -⟩ <;> omega
  · rename_i h
    have h' : ¬ d < 2 * (n % d) := fun hh => h (Or.inl hh)
    omega

/-- Relative accuracy of `round` for a quotient of at least `2^52` units: the
magnitude `k` it produces satisfies `|k * d - n| * 2^53 ≤ n`. -/
theorem round_accuracy (n d : Nat) (hd : 0 < d) (hQ : 2 ^ 52 ≤ n / d) :
    2 ^ 53 * (roundHalfEven n (d <<< (ilog2 (n / d) - 52)) <<< (ilog2 (n / d) - 52) * d)
        ≤ (2 ^ 53 + 1) * n ∧
      (2 ^ 53 - 1) * n
        ≤ 2 ^ 53 * (roundHalfEven n (d <<< (ilog2 (n / d) - 52)) <<< (ilog2 (n / d) - 52) * d) := by
  have hq0 : n / d ≠ 0 := by
    have : 0 < 2 ^ 52 := by norm_num
    omega
  have hlog := two_pow_ilog2_le (n / d) hq0
  have hB : 2 ^ (ilog2 (n / d) - 52) * 2 ^ 52 ≤ n / d := by
    by_cases ht : ilog2 (n / d) - 52 = 0
    · rw [ht]
      simpa using hQ
    · rw [← Nat.pow_add]
      have : ilog2 (n / d) - 52 + 52 = ilog2 (n / d) := by omega
      rw [this]
      exact hlog
  generalize ilog2 (n / d) - 52 = t at hB
  rw [Nat.shiftLeft_eq, Nat.shiftLeft_eq]
  have hdd : 0 < d * 2 ^ t := Nat.mul_pos hd (Nat.two_pow_pos t)
  obtain ⟨h1, h2⟩ := roundHalfEven_near n (d * 2 ^ t) hdd
  have hk : roundHalfEven n (d * 2 ^ t) * 2 ^ t * d = roundHalfEven n (d * 2 ^ t) * (d * 2 ^ t) := by
    ring
  rw [hk]
  have hB2 : 2 ^ 52 * (d * 2 ^ t) ≤ n := by
    calc 2 ^ 52 * (d * 2 ^ t) = d * (2 ^ t * 2 ^ 52) := by ring
      _ ≤ d * (n / d) := Nat.mul_le_mul_left _ hB
      _ ≤ n := Nat.mul_div_le n d
  generalize roundHalfEven n (d * 2 ^ t) * (d * 2 ^ t) = P at h1 h2
  generalize d * 2 ^ t = dd at h1 h2 hB2
  norm_num at hB2 ⊢
  omega

/-- If one magnitude `k` approximates both `x / (a * u)` and `x / yb` to
relative accuracy `2^-53` while `yb` exceeds `a * u` by at least `u`, then
`a` is at least `2^52`. -/
theorem same_round_large (x k u a yb : Nat) (hx : 0 < x)
    (h1 : (2 ^ 53 - 1) * x ≤ 2 ^ 53 * (k * (a * u)))
    (h2 : 2 ^ 53 * (k * yb) ≤ (2 ^ 53 + 1) * x)
    (hy : a * u + u ≤ yb) : 2 ^ 52 ≤ a := by
  by_contra hlt
  push_neg at hlt
  have h3 : k * (a * u) + k * u ≤ k * yb := by
    calc k * (a * u) + k * u = k * (a * u + u) := by ring
      _ ≤ k * yb := Nat.mul_le_mul_left _ hy
  have h4 : 2 ^ 53 * (k * u) ≤ 2 * x := by
    have : 2 ^ 53 * (k * (a * u)) + 2 ^ 53 * (k * u) ≤ (2 ^ 53 + 1) * x := by
      calc 2 ^ 53 * (k * (a * u)) + 2 ^ 53 * (k * u)
          = 2 ^ 53 * (k * (a * u) + k * u) := by ring
        _ ≤ 2 ^ 53 * (k * yb) := Nat.mul_le_mul_left _ h3
        _ ≤ _ := h2
    omega
  have h5 : 2 ^ 53 * (k * (a * u)) ≤ a * (2 * x) := by
    calc 2 ^ 53 * (k * (a * u)) = a * (2 ^ 53 * (k * u)) := by ring
      _ ≤ a * (2 * x) := Nat.mul_le_mul_left _ h4
  have h6 : (2 ^ 53 - 1) * x ≤ (2 * a) * x := by
    calc (2 ^ 53 - 1) * x ≤ 2 ^ 53 * (k * (a * u)) := h1
      _ ≤ a * (2 * x) := h5
      _ = (2 * a) * x := by ring
  have h7 : 2 ^ 53 - 1 ≤ 2 * a := Nat.le_of_mul_le_mul_right h6 hx
  omega

theorem roundHalfEven_mul (q d : Nat) (hd : 0 < d) : roundHalfEven (q * d) d = q := by
  unfold roundHalfEven
  dsimp only
  rw [Nat.mul_mod_left, Nat.mul_div_cancel _ hd]
  rw [if_neg]
  omega

theorem two_mul_lt_one_shiftLeft (m e b : Nat) (hm : m < 2 ^ 53) (hb : e + 54 ≤ b) :
    2 * (m * 2 ^ e) + 1 < 1 <<< b := by
  rw [Nat.one_shiftLeft]
  have h1 : m * 2 ^ e + 2 ^ e ≤ 2 ^ 53 * 2 ^ e := by
    calc m * 2 ^ e + 2 ^ e = (m + 1) * 2 ^ e := by ring
      _ ≤ 2 ^ 53 * 2 ^ e := Nat.mul_le_mul_right _ hm
  have h2 : 2 ^ 53 * 2 ^ e * 2 ≤ 2 ^ b := by
    calc 2 ^ 53 * 2 ^ e * 2 = 2 ^ (e + 54) := by ring
      _ ≤ 2 ^ b := Nat.pow_le_pow_right (by norm_num) hb
  have h3 : 0 < 2 ^ e := Nat.two_pow_pos e
  generalize 2 ^ b = x at h2
  generalize 2 ^ 53 * 2 ^ e = y at h1 h2
  generalize m * 2 ^ e = z at h1
  omega

/-- A number of at most 53 significant bits is not changed by rounding. -/
theorem round_exact (neg : Bool) (m e : Nat) (hm : m < 2 ^ 53) (he : e + 54 ≤ 2098) :
    round neg (m <<< e) 1 = fin neg (m <<< e) := by
  rw [Nat.shiftLeft_eq]
  have hb : 2 * (m * 2 ^ e / 1) + 1 < 1 <<< 2098 := by
    rw [Nat.div_one]
    exact two_mul_lt_one_shiftLeft m e 2098 hm he
  by_cases h0 : m = 0
  · subst h0
    rw [Nat.zero_mul]
    cases neg <;> decide
  have hN0 : m * 2 ^ e ≠ 0 := Nat.mul_ne_zero h0 (Nat.pos_iff_ne_zero.1 (Nat.two_pow_pos _))
  have hNlt : m * 2 ^ e < 2 ^ (53 + e) := by
    rw [Nat.pow_add]
    exact Nat.mul_lt_mul_of_pos_right hm (Nat.two_pow_pos _)
  have hlt : ilog2 (m * 2 ^ e) < 53 + e :=
    (Nat.pow_lt_pow_iff_right (by norm_num)).1
      (lt_of_le_of_lt (two_pow_ilog2_le _ hN0) hNlt)
  rw [round_eq_fin _ _ _ hb, Nat.div_one]
  congr 1
  have hs : ilog2 (m * 2 ^ e) - 52 ≤ e := by
    generalize ilog2 (m * 2 ^ e) = l at hlt
    omega
  generalize ilog2 (m * 2 ^ e) - 52 = t at hs
  rw [Nat.shiftLeft_eq, Nat.shiftLeft_eq, Nat.one_mul]
  have hsplit : m * 2 ^ e = m * 2 ^ (e - t) * 2 ^ t := by
    rw [Nat.mul_assoc, ← Nat.pow_add]
    congr 2
    omega
  rw [hsplit, roundHalfEven_mul _ _ (Nat.two_pow_pos t)]

/-- Conversion of an integer of magnitude below `2^53` is exact. -/
theorem ofInt_exact (n : Int) (hn : n.natAbs < 2 ^ 53) :
    ofInt n = fin (decide (n < 0)) (n.natAbs <<< 1074) :=
  round_exact _ _ 1074 hn (by norm_num)

/-- Rounding the quotient of `c` by `a` (in units: `c * u * u` over `a * u`,
with `u = 2^e` the size of 1) for small `c` and `a`: a finite non-zero value
whose magnitude approximates the exact quotient to relative accuracy `2^-53`. -/
theorem round_div_accuracy (neg : Bool) (c a e : Nat) (hc0 : 0 < c) (hc : c < 2 ^ 53)
    (ha0 : 0 < a) (ha : a < 2 ^ 52) (he : 104 ≤ e) (he2 : e + 54 ≤ 2098) :
    ∃ k, round neg ((c <<< e) <<< e) (a <<< e) = fin neg k ∧ 0 < k ∧
      2 ^ 53 * (k * (a * 2 ^ e)) ≤ (2 ^ 53 + 1) * (c * 2 ^ e * 2 ^ e) ∧
      (2 ^ 53 - 1) * (c * 2 ^ e * 2 ^ e) ≤ 2 ^ 53 * (k * (a * 2 ^ e)) := by
  rw [Nat.shiftLeft_eq, Nat.shiftLeft_eq, Nat.shiftLeft_eq]
  have hU : 0 < 2 ^ e := Nat.two_pow_pos e
  have hU2 : 2 ^ 52 * 2 ^ 52 ≤ 2 ^ e := by
    rw [← Nat.pow_add]
    exact Nat.pow_le_pow_right (by norm_num) (by omega)
  have hd : 0 < a * 2 ^ e := Nat.mul_pos ha0 hU
  have hX : 0 < c * 2 ^ e * 2 ^ e := Nat.mul_pos (Nat.mul_pos hc0 hU) hU
  have hq : c * 2 ^ e * 2 ^ e / (a * 2 ^ e) = c * 2 ^ e / a := by
    rw [Nat.mul_div_mul_right _ _ hU]
  have hqlo : 2 ^ 52 ≤ c * 2 ^ e * 2 ^ e / (a * 2 ^ e) := by
    rw [hq, Nat.le_div_iff_mul_le ha0]
    calc 2 ^ 52 * a ≤ 2 ^ 52 * 2 ^ 52 := Nat.mul_le_mul_left _ (le_of_lt ha)
      _ ≤ 2 ^ e := hU2
      _ ≤ c * 2 ^ e := Nat.le_mul_of_pos_left _ hc0
  have hbound : 2 * (c * 2 ^ e * 2 ^ e / (a * 2 ^ e)) + 1 < 1 <<< 2098 := by
    rw [hq]
    exact lt_of_le_of_lt
      (Nat.add_le_add_right (Nat.mul_le_mul_left 2 (Nat.div_le_self _ _)) 1)
      (two_mul_lt_one_shiftLeft c e 2098 hc he2)
  rw [round_eq_fin _ _ _ hbound]
  obtain ⟨h1, h2⟩ := round_accuracy _ _ hd hqlo
  refine ⟨_, rfl, ?_, h1, h2⟩
  rcases Nat.eq_zero_or_pos
    (roundHalfEven (c * 2 ^ e * 2 ^ e)
      ((a * 2 ^ e) <<< (ilog2 (c * 2 ^ e * 2 ^ e / (a * 2 ^ e)) - 52))
      <<< (ilog2 (c * 2 ^ e * 2 ^ e / (a * 2 ^ e)) - 52)) with h | h
  · exfalso
    rw [h] at h2
    generalize c * 2 ^ e * 2 ^ e = x at h2 hX
    norm_num at h2
    omega
  · exact h

/-- Rounding the quotients of `c` by two distinct small numbers `a`, `b` gives
two non-zero magnitudes that differ. -/
theorem round_div_ne (s1 s2 : Bool) (c a b e : Nat) (hc0 : 0 < c) (hc : c < 2 ^ 53)
    (ha0 : 0 < a) (ha : a < 2 ^ 52) (hb0 : 0 < b) (hb : b < 2 ^ 52) (he : 104 ≤ e)
    (he2 : e + 54 ≤ 2098) :
    ∃ ka kb, round s1 ((c <<< e) <<< e) (a <<< e) = fin s1 ka ∧
      round s2 ((c <<< e) <<< e) (b <<< e) = fin s2 kb ∧ 0 < ka ∧ 0 < kb ∧
      (a ≠ b → ka ≠ kb) := by
  obtain ⟨ka, hka, hka0, ha1, ha2⟩ := round_div_accuracy s1 c a e hc0 hc ha0 ha he he2
  obtain ⟨kb, hkb, hkb0, hb1, hb2⟩ := round_div_accuracy s2 c b e hc0 hc hb0 hb he he2
  refine ⟨ka, kb, hka, hkb, hka0, hkb0, ?_⟩
  intro hne hk
  subst hk
  have hU : 0 < 2 ^ e := Nat.two_pow_pos e
  have hX : 0 < c * 2 ^ e * 2 ^ e := Nat.mul_pos (Nat.mul_pos hc0 hU) hU
  generalize 2 ^ e = u at ha1 ha2 hb1 hb2 hU hX
  generalize c * u * u = x at ha1 ha2 hb1 hb2 hX
  rcases Nat.lt_or_gt_of_ne hne with hlt | hlt
  · have hy : a * u + u ≤ b * u := by
      calc a * u + u = (a + 1) * u := by ring
        _ ≤ b * u := Nat.mul_le_mul_right _ hlt
    have := same_round_large x ka u a (b * u) hX ha2 hb1 hy
    omega
  · have hy : b * u + u ≤ a * u := by
      calc b * u + u = (b + 1) * u := by ring
        _ ≤ a * u := Nat.mul_le_mul_right _ hlt
    have := same_round_large x ka u b (a * u) hX hb2 ha1 hy
    omega

/-- Distinct non-zero tooth counts of magnitude below `2^52` give distinct
`float64` ratios with a non-zero chainring of magnitude below `2^53`. -/
theorem div_ofInt_ne (c a b : Int) (hc : c.natAbs < 2 ^ 53) (hc0 : c ≠ 0)
    (ha : a.natAbs < 2 ^ 52) (ha0 : a ≠ 0) (hb : b.natAbs < 2 ^ 52) (hb0 : b ≠ 0)
    (hab : a ≠ b) :
    eq (div (ofInt c) (ofInt a)) (div (ofInt c) (ofInt b)) = false := by
  have ha' : a.natAbs < 2 ^ 53 := Nat.lt_trans ha (by norm_num)
  have hb' : b.natAbs < 2 ^ 53 := Nat.lt_trans hb (by norm_num)
  have hA : 0 < a.natAbs := by omega
  have hB : 0 < b.natAbs := by omega
  have hC : 0 < c.natAbs := by omega
  have hdiv : ∀ (sx sy : Bool) (x y : Nat), 0 < y →
      div (fin sx x) (fin sy (y <<< 1074)) = round (xor sx sy) (x <<< 1074) (y <<< 1074) := by
    intro sx sy x y hy
    have hy0 : y <<< 1074 ≠ 0 := by
      have := shiftLeft_mono hy 1074
      have h1 : 0 < (1 : Nat) <<< 1074 := by decide
      omega
    simp only [div, if_neg hy0]
  obtain ⟨ka, kb, hka, hkb, hka0, hkb0, hne⟩ :=
    round_div_ne (xor (decide (c < 0)) (decide (a < 0))) (xor (decide (c < 0)) (decide (b < 0)))
      c.natAbs a.natAbs b.natAbs 1074 hC hc hA ha hB hb (by norm_num) (by norm_num)
  rw [ofInt_exact c hc, ofInt_exact a ha', ofInt_exact b hb', hdiv _ _ _ _ hA,
    hdiv _ _ _ _ hB, hka, hkb]
  simp only [eq, decide_eq_false_iff_not]
  intro hsg
  by_cases hsign : decide (a < 0) = decide (b < 0)
  · rw [hsign] at hsg
    have hk : ka = kb := by
      revert hsg
      cases xor (decide (c < 0)) (decide (b < 0)) <;> simp only [sgn] <;> intro h <;> omega
    refine hne ?_ hk
    intro h
    have hs : (a < 0) ↔ (b < 0) := by simpa using hsign
    omega
  · revert hsg hsign
    cases decide (c < 0) <;> cases decide (a < 0) <;> cases decide (b < 0) <;>
      simp [sgn] <;> omega

end F64

/-! ## The cassette scan of `calculateGear` -/

theorem gearLoop_eq_firstMin (speed cadence : F64) (chainring : Int) (tyre : F64)
    (cassette : List Int) (i : Nat) (st : F64 × Gear) :
    gearLoop speed cadence chainring tyre cassette i st =
      firstMin (gearKeys speed cadence chainring tyre cassette i) st := by
  induction cassette generalizing i st with
  | nil => rfl
  | cons cog rest ih =>
    obtain ⟨m, g⟩ := st
    rw [gearLoop, gearKeys]
    unfold cogDifference ratioDifference requiredRatio
    by_cases h1 : (F64.eq cadence F64.zero || chainring == 0 || cog == 0) = true
    · rw [if_pos h1, if_pos h1]
      exact ih (i + 1) (m, g)
    · rw [if_neg h1, if_neg h1]
      by_cases h2 : (F64.isNaN (F64.div (F64.ofInt chainring) (F64.ofInt cog)) ||
          F64.isNaN (F64.div speed
            (F64.div (F64.mul cadence tyre) (F64.ofInt (1000 * 60))))) = true
      · dsimp only
        rw [if_pos h2, if_pos h2]
        exact ih (i + 1) (m, g)
      · dsimp only
        rw [if_neg h2, if_neg h2]
        simp only [firstMin]
        split
        · exact ih (i + 1) _
        · exact ih (i + 1) _

theorem gearKeys_getElem? (speed cadence : F64) (chainring : Int) (tyre : F64)
    (cassette : List Int) (i j : Nat) :
    (gearKeys speed cadence chainring tyre cassette i)[j]? =
      (cassette[j]?).map (fun cog =>
        (cogDifference speed cadence chainring tyre cog,
          (⟨((i + j : Nat) : Int), chainring, cog, speed, cadence, F64.zero⟩ : Gear))) := by
  induction cassette generalizing i j with
  | nil => simp [gearKeys]
  | cons cog rest ih =>
    cases j with
    | zero => simp [gearKeys]
    | succ j =>
      simp only [gearKeys, List.getElem?_cons_succ]
      rw [ih (i + 1) j]
      have : i + 1 + j = i + (j + 1) := by omega
      rw [this]

/-- Outcome of the cassette scan started as `calculateGear` starts it: either
no cog was accepted and the gear is the zero value, or the gear records a
position `j` of the cassette whose difference is below `MaxFloat64`, not above
the difference of any other unskipped cog, and strictly below that of every
earlier unskipped cog whose difference is not NaN. -/
theorem gearLoop_cases (speed cadence : F64) (chainring : Int) (tyre : F64)
    (cassette : List Int) :
    ((gearLoop speed cadence chainring tyre cassette 0 (F64.maxFloat64, Gear.zero)).2
        = Gear.zero ∧
      ∀ cog d, cog ∈ cassette → cogDifference speed cadence chainring tyre cog = some d →
        F64.lt d F64.maxFloat64 = false) ∨
    (∃ (j : Nat) (cog : Int) (d : F64), cassette[j]? = some cog ∧
      cogDifference speed cadence chainring tyre cog = some d ∧
      (gearLoop speed cadence chainring tyre cassette 0 (F64.maxFloat64, Gear.zero)).2
        = ⟨(j : Int), chainring, cog, speed, cadence, F64.zero⟩ ∧
      F64.lt d F64.maxFloat64 = true ∧
      ∀ (j' : Nat) (cog' : Int) (d' : F64), cassette[j']? = some cog' →
        cogDifference speed cadence chainring tyre cog' = some d' →
        F64.lt d' d = false ∧ (j' < j → F64.isNaN d' = false → F64.lt d d' = true)) := by
  rw [gearLoop_eq_firstMin]
  rcases firstMin_spec (gearKeys speed cadence chainring tyre cassette 0) F64.maxFloat64
    Gear.zero with ⟨he, hall⟩ | ⟨j, d, g, hj, he, hlt, hmin⟩
  · left
    refine ⟨by rw [he], ?_⟩
    intro cog d hmem hd
    obtain ⟨n, hn⟩ := List.mem_iff_getElem?.1 hmem
    refine hall d ⟨((0 + n : Nat) : Int), chainring, cog, speed, cadence, F64.zero⟩ ?_
    apply List.getElem?_mem (n := n)
    rw [gearKeys_getElem?, hn, ← hd]
    rfl
  · right
    rw [gearKeys_getElem?] at hj
    rcases hc : cassette[j]? with _ | cog
    · rw [hc] at hj
      cases hj
    · rw [hc] at hj
      simp only [Option.map_some', Option.some.injEq, Prod.mk.injEq, Nat.zero_add] at hj
      obtain ⟨hd, hg⟩ := hj
      refine ⟨j, cog, d, hc, hd, by rw [he, ← hg], hlt, ?_⟩
      intro j' cog' d' hj' hd'
      refine hmin j' d' ⟨((0 + j' : Nat) : Int), chainring, cog', speed, cadence, F64.zero⟩ ?_
      rw [gearKeys_getElem?, hj', ← hd']
      rfl


/-! ## Properties of `calculatePowerLoss` -/

theorem index_eq_some {α : Type} (s : List α) (i : Int) (h0 : 0 ≤ i)
    (h1 : i.toNat < s.length) : index s i = some s[i.toNat] := by
  unfold index
  rw [if_neg (by omega)]
  exact List.getElem?_eq_getElem h1

theorem zoneCoefficient_eq_find (power : F64) (zones : List FTPZone) :
    zoneCoefficient power zones =
      match zones.find? (fun z => F64.ge power z.Min && F64.lt power z.Max) with
      | some z => z.Coefficient
      | none => F64.zero := by
  induction zones with
  | nil => rfl
  | cons z zs ih =>
    by_cases h : (F64.ge power z.Min && F64.lt power z.Max) = true
    · simp [zoneCoefficient, List.find?, h]
    · simp only [Bool.not_eq_true] at h
      simp only [zoneCoefficient, List.find?, h, ih]
      simp

/-- C3: for a gear whose index lies within the power-loss table and a power
that is not NaN, `calculatePowerLoss` returns `(entry.Power * entry.BadGearFactor) * c`
where `entry` is the table entry at the gear's index and `c` is the coefficient
of the first zone in list order with `Min <= power < Max`, or `0` when no zone
matches. -/
theorem calculatePowerLoss_first_zone (gear : Gear) (power : F64)
    (chainringPowerLoss : List ChainringPowerLoss) (ftpZones : List FTPZone)
    (h0 : 0 ≤ gear.GearNumber) (h1 : gear.GearNumber.toNat < chainringPowerLoss.length)
    (hnan : F64.isNaN power = false) :
    calculatePowerLoss gear power chainringPowerLoss ftpZones =
      some (F64.mul
        (F64.mul chainringPowerLoss[gear.GearNumber.toNat].Power
          chainringPowerLoss[gear.GearNumber.toNat].BadGearFactor)
        (match ftpZones.find? (fun z => F64.ge power z.Min && F64.lt power z.Max) with
          | some z => z.Coefficient
          | none => F64.zero)) := by
  unfold calculatePowerLoss
  rw [index_eq_some _ _ h0 h1]
  simp only [hnan, zoneCoefficient_eq_find]
  simp

/-- C3 at a concrete input: gear index 1 of the `main2` table, power 200 W
(zone "Endurance", coefficient 0.5): the loss is `(8.2 * 1.35) * 0.5`. -/
theorem calculatePowerLoss_first_zone_witness :
    ((0 : Int) ≤ (⟨1, 34, 12, F64.zero, F64.zero, F64.zero⟩ : Gear).GearNumber ∧
      (⟨1, 34, 12, F64.zero, F64.zero, F64.zero⟩ : Gear).GearNumber.toNat
        < main2PowerLoss.length ∧
      F64.isNaN (F64.ofInt 200) = false) ∧
    calculatePowerLoss ⟨1, 34, 12, F64.zero, F64.zero, F64.zero⟩ (F64.ofInt 200)
        main2PowerLoss main2Zones =
      some (F64.mul (F64.mul (F64.ofRatio 82 10) (F64.ofRatio 135 100)) (F64.ofRatio 5 10)) :=
  ⟨⟨by decide, by decide, by decide⟩,
    (calculatePowerLoss_first_zone ⟨1, 34, 12, F64.zero, F64.zero, F64.zero⟩ (F64.ofInt 200)
      main2PowerLoss main2Zones (by decide) (by decide) (by decide)).trans (by decide)⟩

theorem calculatePowerLoss_of_isNaN (gear : Gear) (power : F64)
    (chainringPowerLoss : List ChainringPowerLoss) (ftpZones : List FTPZone)
    (h0 : 0 ≤ gear.GearNumber) (h1 : gear.GearNumber.toNat < chainringPowerLoss.length)
    (hp : F64.isNaN power = true) :
    calculatePowerLoss gear power chainringPowerLoss ftpZones = some F64.zero := by
  unfold calculatePowerLoss
  rw [index_eq_some _ _ h0 h1]
  simp [hp]

/-- C8: for a gear whose index lies within the power-loss table,
`calculatePowerLoss` with `power = NaN` returns `0`, whatever the table entry,
the zone list and the zone coefficients are. -/
theorem calculatePowerLoss_nan (gear : Gear)
    (chainringPowerLoss : List ChainringPowerLoss) (ftpZones : List FTPZone)
    (h0 : 0 ≤ gear.GearNumber) (h1 : gear.GearNumber.toNat < chainringPowerLoss.length) :
    calculatePowerLoss gear F64.nan chainringPowerLoss ftpZones = some F64.zero :=
  calculatePowerLoss_of_isNaN gear F64.nan chainringPowerLoss ftpZones h0 h1 rfl

/-- C8 at a concrete input: NaN power against the `main2` tables, a zone list
whose first zone would otherwise be scanned. -/
theorem calculatePowerLoss_nan_witness :
    ((0 : Int) ≤ (⟨3, 34, 14, F64.zero, F64.zero, F64.zero⟩ : Gear).GearNumber ∧
      (⟨3, 34, 14, F64.zero, F64.zero, F64.zero⟩ : Gear).GearNumber.toNat
        < main2PowerLoss.length) ∧
    calculatePowerLoss ⟨3, 34, 14, F64.zero, F64.zero, F64.zero⟩ F64.nan
        main2PowerLoss main2Zones = some F64.zero :=
  ⟨⟨by decide, by decide⟩,
    calculatePowerLoss_nan ⟨3, 34, 14, F64.zero, F64.zero, F64.zero⟩
      main2PowerLoss main2Zones (by decide) (by decide)⟩

/-! ## Properties of `calculateGear` -/

theorem gearLoop_all_skipped (speed cadence : F64) (chainring : Int) (tyre : F64)
    (h : F64.eq cadence F64.zero = true ∨ chainring = 0) (cassette : List Int) (i : Nat)
    (st : F64 × Gear) :
    gearLoop speed cadence chainring tyre cassette i st = st := by
  induction cassette generalizing i with
  | nil => rfl
  | cons cog rest ih =>
    obtain ⟨m, g⟩ := st
    have hs : (F64.eq cadence F64.zero || chainring == 0 || cog == 0) = true := by
      rcases h with h | h
      · simp [h]
      · simp [h]
    rw [gearLoop, if_pos hs]
    exact ih (i + 1)

theorem powerProxy_zero : powerProxy Gear.zero = F64.nan := by decide

/-- C9: for every speed, cassette, tyre circumference, zone list and non-empty
power-loss table, `calculateGear` called with `cadence == 0` (either zero) or
`chainring = 0` returns, without a panic, the zero-valued `Gear`
(GearNumber 0, Chainring 0, Cog 0, Speed 0, Cadence 0, PowerLoss 0). -/
theorem calculateGear_zero_cadence_or_chainring (speed cadence : F64) (chainring : Int)
    (cassette : List Int) (tyre : F64) (chainRingPowerLoss : List ChainringPowerLoss)
    (ftpZones : List FTPZone) (htbl : chainRingPowerLoss ≠ [])
    (h : F64.eq cadence F64.zero = true ∨ chainring = 0) :
    calculateGear speed cadence chainring cassette tyre chainRingPowerLoss ftpZones =
      some ⟨0, 0, 0, F64.zero, F64.zero, F64.zero⟩ := by
  unfold calculateGear
  simp only [gearLoop_all_skipped _ _ _ _ h, powerProxy_zero]
  have hlen : (Gear.zero).GearNumber.toNat < chainRingPowerLoss.length := by
    cases chainRingPowerLoss with
    | nil => exact absurd rfl htbl
    | cons a l => simp [Gear.zero]
  rw [calculatePowerLoss_of_isNaN Gear.zero F64.nan chainRingPowerLoss ftpZones (by decide)
    hlen rfl]
  rfl

/-- C9 at a concrete input: cadence 0 with chainring 34 on the `main2`
configuration at 30 km/h. -/
theorem calculateGear_zero_cadence_or_chainring_witness :
    (main2PowerLoss ≠ [] ∧ (F64.eq (F64.ofInt 0) F64.zero = true ∨ (34 : Int) = 0)) ∧
    calculateGear (F64.ofInt 30) (F64.ofInt 0) 34 main2Cassette main2Tyre main2PowerLoss
        main2Zones = some ⟨0, 0, 0, F64.zero, F64.zero, F64.zero⟩ :=
  ⟨⟨by decide, Or.inl (by decide)⟩,
    calculateGear_zero_cadence_or_chainring (F64.ofInt 30) (F64.ofInt 0) 34 main2Cassette
      main2Tyre main2PowerLoss main2Zones (by decide) (Or.inl (by decide))⟩

theorem calculatePowerLoss_isSome (gear : Gear) (power : F64)
    (chainringPowerLoss : List ChainringPowerLoss) (ftpZones : List FTPZone)
    (h0 : 0 ≤ gear.GearNumber) (h1 : gear.GearNumber.toNat < chainringPowerLoss.length) :
    ∃ v, calculatePowerLoss gear power chainringPowerLoss ftpZones = some v := by
  unfold calculatePowerLoss
  rw [index_eq_some _ _ h0 h1]
  dsimp only
  split
  · exact ⟨_, rfl⟩
  · exact ⟨_, rfl⟩

/-- The gear chosen by the cassette scan indexes a non-empty cassette. -/
theorem gearLoop_gearNumber_lt (speed cadence : F64) (chainring : Int) (tyre : F64)
    (cassette : List Int) (hne : cassette ≠ []) :
    0 ≤ (gearLoop speed cadence chainring tyre cassette 0
        (F64.maxFloat64, Gear.zero)).2.GearNumber ∧
      (gearLoop speed cadence chainring tyre cassette 0
        (F64.maxFloat64, Gear.zero)).2.GearNumber.toNat < cassette.length := by
  rcases gearLoop_cases speed cadence chainring tyre cassette with
    ⟨he, -⟩ | ⟨j, cog, d, hj, -, he, -, -⟩
  · rw [he]
    exact ⟨by decide, List.length_pos.2 hne⟩
  · rw [he]
    obtain ⟨hlt, -⟩ := List.getElem?_eq_some.1 hj
    exact ⟨by simp, by simpa using hlt⟩

theorem calculateGear_some {speed cadence : F64} {chainring : Int} {cassette : List Int}
    {tyre : F64} {chainRingPowerLoss : List ChainringPowerLoss} {ftpZones : List FTPZone}
    {g : Gear}
    (h : calculateGear speed cadence chainring cassette tyre chainRingPowerLoss ftpZones
      = some g) :
    ∃ v, g = { (gearLoop (F64.div speed F64.c3_6) cadence chainring tyre cassette 0
      (F64.maxFloat64, Gear.zero)).2 with PowerLoss := v } := by
  unfold calculateGear at h
  dsimp only at h
  split at h
  · cases h
  · rename_i v _
    exact ⟨v, (Option.some.inj h).symm⟩

theorem calculateGear_isSome (speed cadence : F64) (chainring : Int)
    (cassette : List Int) (tyre : F64) (chainRingPowerLoss : List ChainringPowerLoss)
    (ftpZones : List FTPZone) (hne : cassette ≠ [])
    (hlen : chainRingPowerLoss.length = cassette.length) :
    ∃ g, calculateGear speed cadence chainring cassette tyre chainRingPowerLoss ftpZones
      = some g := by
  unfold calculateGear
  dsimp only
  obtain ⟨h0, h1⟩ := gearLoop_gearNumber_lt (F64.div speed F64.c3_6) cadence chainring tyre
    cassette hne
  obtain ⟨v, hv⟩ := calculatePowerLoss_isSome _
    (powerProxy (gearLoop (F64.div speed F64.c3_6) cadence chainring tyre cassette 0
      (F64.maxFloat64, Gear.zero)).2) chainRingPowerLoss ftpZones h0 (hlen ▸ h1)
  rw [hv]
  exact ⟨_, rfl⟩

/-- C7 (amended): for every speed, cadence, chainring, tyre circumference, zone
list and every NON-EMPTY cassette, if the power-loss table length equals the
cassette length then `calculateGear` performs no out-of-range lookup in the
power-loss table and returns a gear, also when every cog is skipped. -/
theorem calculateGear_no_panic (speed cadence : F64) (chainring : Int)
    (cassette : List Int) (tyre : F64) (chainRingPowerLoss : List ChainringPowerLoss)
    (ftpZones : List FTPZone) (hne : cassette ≠ [])
    (hlen : chainRingPowerLoss.length = cassette.length) :
    ∃ g, calculateGear speed cadence chainring cassette tyre chainRingPowerLoss ftpZones
        = some g ∧ 0 ≤ g.GearNumber ∧ g.GearNumber.toNat < chainRingPowerLoss.length := by
  obtain ⟨g, hg⟩ := calculateGear_isSome speed cadence chainring cassette tyre
    chainRingPowerLoss ftpZones hne hlen
  obtain ⟨v, hv⟩ := calculateGear_some hg
  obtain ⟨h0, h1⟩ := gearLoop_gearNumber_lt (F64.div speed F64.c3_6) cadence chainring tyre
    cassette hne
  refine ⟨g, hg, ?_, ?_⟩
  · rw [hv]
    exact h0
  · rw [hv, hlen]
    exact h1

/-- C7 (amended) at a concrete input: the `main2` cassette and table with
cadence 0, so that every cog is skipped. -/
theorem calculateGear_no_panic_witness :
    (main2Cassette ≠ [] ∧ main2PowerLoss.length = main2Cassette.length) ∧
    ∃ g, calculateGear (F64.ofInt 30) (F64.ofInt 0) 34 main2Cassette main2Tyre
        main2PowerLoss main2Zones = some g ∧
      0 ≤ g.GearNumber ∧ g.GearNumber.toNat < main2PowerLoss.length :=
  ⟨⟨by decide, by decide⟩,
    calculateGear_no_panic (F64.ofInt 30) (F64.ofInt 0) 34 main2Cassette main2Tyre
      main2PowerLoss main2Zones (by decide) (by decide)⟩

/-- C7 as stated fails: with an empty cassette and an empty power-loss table
(equal lengths) the lookup `chainringPowerLoss[0]` of line 172 is out of range. -/
theorem calculateGear_empty_cassette_panics :
    ([] : List ChainringPowerLoss).length = ([] : List Int).length ∧
    calculateGear (F64.ofInt 30) (F64.ofInt 90) 34 [] main2Tyre [] main2Zones = none :=
  ⟨rfl, by decide⟩

theorem cogDifference_eq_some {speed cadence : F64} {chainring : Int} {tyre : F64}
    {cog : Int} {d : F64} (h : cogDifference speed cadence chainring tyre cog = some d) :
    F64.eq cadence F64.zero = false ∧ chainring ≠ 0 ∧ cog ≠ 0 ∧
      F64.isNaN (F64.div (F64.ofInt chainring) (F64.ofInt cog)) = false ∧
      F64.isNaN (requiredRatio speed cadence tyre) = false ∧
      d = ratioDifference speed cadence chainring tyre cog := by
  unfold cogDifference at h
  split at h
  · cases h
  · rename_i h1
    split at h
    · cases h
    · rename_i h2
      simp only [Bool.or_eq_true, not_or, Bool.not_eq_true, beq_iff_eq] at h1 h2
      exact ⟨h1.1.1, h1.1.2, h1.2, h2.1, h2.2, (Option.some.inj h).symm⟩

theorem cogDifference_of_ok {speed cadence : F64} {chainring : Int} {tyre : F64}
    {cog : Int} (h1 : F64.eq cadence F64.zero = false) (h2 : chainring ≠ 0) (h3 : cog ≠ 0)
    (h4 : F64.isNaN (F64.div (F64.ofInt chainring) (F64.ofInt cog)) = false)
    (h5 : F64.isNaN (requiredRatio speed cadence tyre) = false) :
    cogDifference speed cadence chainring tyre cog =
      some (ratioDifference speed cadence chainring tyre cog) := by
  unfold cogDifference
  simp [h1, h2, h3, h4, h5]

/-- When the scan accepted cog `cog` with difference `d < MaxFloat64`, every
non-zero cog of the cassette is compared (none is skipped) and its difference is
not NaN. -/
theorem cogDifference_total {speed cadence : F64} {chainring : Int} {tyre : F64}
    {cog : Int} {d : F64} (hd : cogDifference speed cadence chainring tyre cog = some d)
    (hlt : F64.lt d F64.maxFloat64 = true) (cog' : Int) (hcog' : cog' ≠ 0) :
    cogDifference speed cadence chainring tyre cog' =
        some (ratioDifference speed cadence chainring tyre cog') ∧
      F64.isNaN (ratioDifference speed cadence chainring tyre cog') = false := by
  obtain ⟨h1, h2, -, -, h5, rfl⟩ := cogDifference_eq_some hd
  have hfin := F64.isFinite_of_sub (F64.abs_fin_of_lt hlt)
  have hch : F64.isFinite (F64.ofInt chainring) = true := F64.isFinite_of_div hfin.1
  have hgr : F64.isNaN (F64.div (F64.ofInt chainring) (F64.ofInt cog')) = false :=
    F64.isNaN_div hch (F64.isNaN_ofInt cog') (fun s => F64.ofInt_ne_zero cog' hcog' s)
  exact ⟨cogDifference_of_ok h1 h2 hcog' hgr h5, F64.isNaN_abs_sub_fin hgr hfin.2⟩

/-- The selection made by `calculateGear` when it returns a gear with a
non-zero cog: the position, the cog, and the minimality of its difference. -/
theorem calculateGear_selected {speed cadence : F64} {chainring : Int}
    {cassette : List Int} {tyre : F64} {chainRingPowerLoss : List ChainringPowerLoss}
    {ftpZones : List FTPZone} {g : Gear}
    (hres : calculateGear speed cadence chainring cassette tyre chainRingPowerLoss ftpZones
      = some g) (hsel : g.Cog ≠ 0) :
    ∃ (i : Nat) (v : F64), cassette[i]? = some g.Cog ∧
      g = ⟨(i : Int), chainring, g.Cog, F64.div speed F64.c3_6, cadence, v⟩ ∧
      F64.lt (ratioDifference (F64.div speed F64.c3_6) cadence chainring tyre g.Cog)
        F64.maxFloat64 = true ∧
      cogDifference (F64.div speed F64.c3_6) cadence chainring tyre g.Cog =
        some (ratioDifference (F64.div speed F64.c3_6) cadence chainring tyre g.Cog) ∧
      ∀ (j : Nat) (cog : Int), cassette[j]? = some cog → cog ≠ 0 →
        F64.le (ratioDifference (F64.div speed F64.c3_6) cadence chainring tyre g.Cog)
            (ratioDifference (F64.div speed F64.c3_6) cadence chainring tyre cog) = true ∧
          (j < i →
            F64.lt (ratioDifference (F64.div speed F64.c3_6) cadence chainring tyre g.Cog)
              (ratioDifference (F64.div speed F64.c3_6) cadence chainring tyre cog) = true) := by
  obtain ⟨v, hg⟩ := calculateGear_some hres
  rcases gearLoop_cases (F64.div speed F64.c3_6) cadence chainring tyre cassette with
    ⟨he, -⟩ | ⟨i, cog, d, hi, hd, he, hlt, hmin⟩
  · rw [he] at hg
    rw [hg] at hsel
    exact absurd rfl hsel
  · rw [he] at hg
    have hcog : g.Cog = cog := by rw [hg]
    obtain ⟨-, -, -, -, -, hdd⟩ := cogDifference_eq_some hd
    subst hdd
    rw [hcog]
    refine ⟨i, v, hi, hg, hlt, hd, ?_⟩
    intro j cog' hj hcog'
    obtain ⟨hd', hnan'⟩ := cogDifference_total hd hlt cog' hcog'
    obtain ⟨hnl, hlt'⟩ := hmin j cog' _ hj hd'
    exact ⟨F64.le_of_not_lt hnl (F64.isNaN_of_lt_left hlt) hnan', fun hji => hlt' hji hnan'⟩

/-- C2: for every cassette, chainring and cadence (non-zero, as they are
whenever a cog is selected), when `calculateGear` selects a cog - it returns a
gear with `Cog ≠ 0` - that cog sits at position `GearNumber` of the cassette
and minimises `abs(chainring/cog - required_ratio)` over all non-zero cogs of
the cassette, with `required_ratio = (speed_kmh/3.6) / (cadence *
tyreCircumference / 60000)`, and every non-zero cog at a lower index has a
strictly larger difference (ties keep the first index). -/
theorem calculateGear_selects_nearest (speed cadence : F64) (chainring : Int)
    (cassette : List Int) (tyre : F64) (chainRingPowerLoss : List ChainringPowerLoss)
    (ftpZones : List FTPZone) (g : Gear)
    (hres : calculateGear speed cadence chainring cassette tyre chainRingPowerLoss ftpZones
      = some g) (hsel : g.Cog ≠ 0) :
    ∃ i : Nat, g.GearNumber = (i : Int) ∧ cassette[i]? = some g.Cog ∧
      ∀ (j : Nat) (cog : Int), cassette[j]? = some cog → cog ≠ 0 →
        F64.le
            (F64.abs (F64.sub (F64.div (F64.ofInt chainring) (F64.ofInt g.Cog))
              (F64.div (F64.div speed F64.c3_6)
                (F64.div (F64.mul cadence tyre) (F64.ofInt 60000)))))
            (F64.abs (F64.sub (F64.div (F64.ofInt chainring) (F64.ofInt cog))
              (F64.div (F64.div speed F64.c3_6)
                (F64.div (F64.mul cadence tyre) (F64.ofInt 60000))))) = true ∧
          (j < i →
            F64.lt
              (F64.abs (F64.sub (F64.div (F64.ofInt chainring) (F64.ofInt g.Cog))
                (F64.div (F64.div speed F64.c3_6)
                  (F64.div (F64.mul cadence tyre) (F64.ofInt 60000)))))
              (F64.abs (F64.sub (F64.div (F64.ofInt chainring) (F64.ofInt cog))
                (F64.div (F64.div speed F64.c3_6)
                  (F64.div (F64.mul cadence tyre) (F64.ofInt 60000))))) = true) := by
  obtain ⟨i, v, hi, hg, -, -, hmin⟩ := calculateGear_selected hres hsel
  exact ⟨i, by rw [hg], hi, hmin⟩

/-- C2 at a concrete input: 30 km/h at cadence 90 on chainring 34 with the
`main2` configuration selects cog 13 at position 2. -/
theorem calculateGear_selects_nearest_witness :
    (calculateGear (F64.ofInt 30) (F64.ofInt 90) 34 main2Cassette main2Tyre main2PowerLoss
        main2Zones
        = some ⟨2, 34, 13, F64.div (F64.ofInt 30) F64.c3_6, F64.ofInt 90, F64.zero⟩ ∧
      (⟨2, 34, 13, F64.div (F64.ofInt 30) F64.c3_6, F64.ofInt 90, F64.zero⟩ : Gear).Cog ≠ 0) ∧
    ∃ i : Nat, ((2 : Int) = (i : Int)) ∧ main2Cassette[i]? = some 13 ∧
      ∀ (j : Nat) (cog : Int), main2Cassette[j]? = some cog → cog ≠ 0 →
        F64.le
            (F64.abs (F64.sub (F64.div (F64.ofInt 34) (F64.ofInt 13))
              (F64.div (F64.div (F64.ofInt 30) F64.c3_6)
                (F64.div (F64.mul (F64.ofInt 90) main2Tyre) (F64.ofInt 60000)))))
            (F64.abs (F64.sub (F64.div (F64.ofInt 34) (F64.ofInt cog))
              (F64.div (F64.div (F64.ofInt 30) F64.c3_6)
                (F64.div (F64.mul (F64.ofInt 90) main2Tyre) (F64.ofInt 60000))))) = true ∧
          (j < i →
            F64.lt
              (F64.abs (F64.sub (F64.div (F64.ofInt 34) (F64.ofInt 13))
                (F64.div (F64.div (F64.ofInt 30) F64.c3_6)
                  (F64.div (F64.mul (F64.ofInt 90) main2Tyre) (F64.ofInt 60000)))))
              (F64.abs (F64.sub (F64.div (F64.ofInt 34) (F64.ofInt cog))
                (F64.div (F64.div (F64.ofInt 30) F64.c3_6)
                  (F64.div (F64.mul (F64.ofInt 90) main2Tyre) (F64.ofInt 60000))))) = true) :=
  ⟨⟨by decide, by decide⟩,
    calculateGear_selects_nearest (F64.ofInt 30) (F64.ofInt 90) 34 main2Cassette main2Tyre
      main2PowerLoss main2Zones
      ⟨2, 34, 13, F64.div (F64.ofInt 30) F64.c3_6, F64.ofInt 90, F64.zero⟩
      (by decide) (by decide)⟩

/-- Exact match at position `j` of the cassette, a non-zero 64-bit cog: when
no cog at a lower index has the same `float64` ratio, `calculateGear` returns
position `j`, with difference `0`. -/
theorem calculateGear_exact_match_of_first (speed cadence : F64) (chainring : Int)
    (cassette : List Int) (tyre : F64) (chainRingPowerLoss : List ChainringPowerLoss)
    (ftpZones : List FTPZone) (j : Nat) (cogj : Int)
    (hj : cassette[j]? = some cogj) (hcog : cogj ≠ 0) (hch : chainring ≠ 0)
    (hcad : F64.eq cadence F64.zero = false)
    (hchr : chainring.natAbs ≤ 1 <<< 63) (hcogr : cogj.natAbs ≤ 1 <<< 63)
    (hlen : chainRingPowerLoss.length = cassette.length)
    (hexact : F64.eq
      (F64.div (F64.div speed F64.c3_6) (F64.div (F64.mul cadence tyre) (F64.ofInt 60000)))
      (F64.div (F64.ofInt chainring) (F64.ofInt cogj)) = true)
    (hfirst : ∀ (j' : Nat) (cog' : Int), j' < j → cassette[j']? = some cog' →
      F64.eq (F64.div (F64.ofInt chainring) (F64.ofInt cog'))
        (F64.div (F64.ofInt chainring) (F64.ofInt cogj)) = false) :
    ∃ g, calculateGear speed cadence chainring cassette tyre chainRingPowerLoss ftpZones
        = some g ∧ g.GearNumber = (j : Int) ∧ g.Cog = cogj ∧
      F64.abs (F64.sub (F64.div (F64.ofInt chainring) (F64.ofInt g.Cog))
        (F64.div (F64.div speed F64.c3_6)
          (F64.div (F64.mul cadence tyre) (F64.ofInt 60000)))) = F64.zero := by
  have hne : cassette ≠ [] := by
    intro h
    rw [h] at hj
    cases hj
  obtain ⟨g, hg⟩ := calculateGear_isSome speed cadence chainring cassette tyre
    chainRingPowerLoss ftpZones hne hlen
  obtain ⟨v, hgv⟩ := calculateGear_some hg
  have hgrfin := F64.isFinite_div_ofInt chainring cogj hchr hcogr hcog
  have hzero : ratioDifference (F64.div speed F64.c3_6) cadence chainring tyre cogj
      = F64.zero := F64.abs_sub_eq_zero hexact hgrfin
  have hdj : cogDifference (F64.div speed F64.c3_6) cadence chainring tyre cogj
      = some F64.zero := by
    rw [← hzero]
    exact cogDifference_of_ok hcad hch hcog (F64.isNaN_of_isFinite hgrfin)
      (F64.isNaN_of_eq_left hexact)
  rcases gearLoop_cases (F64.div speed F64.c3_6) cadence chainring tyre cassette with
    ⟨-, hall⟩ | ⟨i, cog, d, hi, hd, he, hlt, hmin⟩
  · have := hall cogj F64.zero (List.getElem?_mem hj) hdj
    exact absurd this (by decide)
  · obtain ⟨hnl, hbefore⟩ := hmin j cogj F64.zero hj hdj
    obtain ⟨-, -, -, -, -, hdd⟩ := cogDifference_eq_some hd
    have hd0 : d = F64.zero := by
      rw [hdd] at hnl hlt ⊢
      exact F64.abs_eq_zero_of_not_lt hnl (F64.isNaN_of_lt_left hlt)
    have hij : i = j := by
      rcases Nat.lt_trichotomy i j with h | h | h
      · exfalso
        have hne' := hfirst i cog h hi
        have heq1 : F64.eq (F64.div (F64.ofInt chainring) (F64.ofInt cog))
            (requiredRatio (F64.div speed F64.c3_6) cadence tyre) = true :=
          F64.eq_of_abs_sub_eq_zero (hdd.symm.trans hd0)
        rw [F64.eq_trans heq1 hexact] at hne'
        cases hne'
      · exact h
      · exfalso
        have := hbefore h rfl
        rw [hd0] at this
        cases this
    subst hij
    have hcc : cog = cogj := Option.some.inj (hi.symm.trans hj)
    subst hcc
    rw [he] at hgv
    refine ⟨g, hg, by rw [hgv], by rw [hgv], ?_⟩
    rw [hgv]
    exact hzero

/-- Exact match on a cassette of distinct small cogs: distinct tooth counts
below `2^52` give distinct `float64` ratios, so the matching position is the
first one with difference `0`. -/
theorem calculateGear_exact_of_nodup (speed cadence : F64) (chainring : Int)
    (cassette : List Int) (tyre : F64) (chainRingPowerLoss : List ChainringPowerLoss)
    (ftpZones : List FTPZone) (j : Nat) (cogj : Int)
    (hnodup : cassette.Nodup)
    (hcogs : ∀ cog ∈ cassette, cog ≠ 0 ∧ cog.natAbs < 2 ^ 52)
    (hch : chainring ≠ 0) (hchr : chainring.natAbs < 2 ^ 53)
    (hcad : F64.eq cadence F64.zero = false)
    (hlen : chainRingPowerLoss.length = cassette.length)
    (hj : cassette[j]? = some cogj)
    (hexact : F64.eq
      (F64.div (F64.div speed F64.c3_6) (F64.div (F64.mul cadence tyre) (F64.ofInt 60000)))
      (F64.div (F64.ofInt chainring) (F64.ofInt cogj)) = true) :
    ∃ g, calculateGear speed cadence chainring cassette tyre chainRingPowerLoss ftpZones
        = some g ∧ g.GearNumber = (j : Int) ∧ g.Cog = cogj ∧
      F64.abs (F64.sub (F64.div (F64.ofInt chainring) (F64.ofInt g.Cog))
        (F64.div (F64.div speed F64.c3_6)
          (F64.div (F64.mul cadence tyre) (F64.ofInt 60000)))) = F64.zero := by
  obtain ⟨hcog0, hcogb⟩ := hcogs cogj (List.getElem?_mem hj)
  have h63 : (2 : Nat) ^ 53 ≤ 1 <<< 63 := by decide
  have h52 : (2 : Nat) ^ 52 ≤ 1 <<< 63 := by decide
  refine calculateGear_exact_match_of_first speed cadence chainring cassette tyre
    chainRingPowerLoss ftpZones j cogj hj hcog0 hch hcad (by omega) (by omega) hlen hexact ?_
  intro j' cog' hlt hj'
  obtain ⟨hcog0', hcogb'⟩ := hcogs cog' (List.getElem?_mem hj')
  refine F64.div_ofInt_ne chainring cog' cogj hchr hch hcogb' hcog0' hcogb hcog0 ?_
  intro hEq
  subst hEq
  obtain ⟨h1, e1⟩ := List.getElem?_eq_some.1 hj'
  obtain ⟨h2, e2⟩ := List.getElem?_eq_some.1 hj
  have := (List.Nodup.getElem_inj_iff hnodup).1 (e1.trans e2.symm)
  omega

/-- C10 (amended): for a cassette of distinct non-zero cogs with tooth counts
of magnitude below `2^52` (e.g. chainring 34, cogs 11..30, tyre circumference
2171 mm), non-zero cadence, a non-zero chainring of magnitude below `2^53` and
a power-loss table as long as the cassette: if the required ratio
`(speed/3.6) / (cadence * tyre / 60000)` is `==` to `chainring / cassette[j]`
for an index `j`, then `calculateGear` returns `GearNumber = j` and
`Cog = cassette[j]`, the cog with difference `0`. -/
theorem calculateGear_exact_match (speed cadence : F64) (chainring : Int)
    (cassette : List Int) (tyre : F64) (chainRingPowerLoss : List ChainringPowerLoss)
    (ftpZones : List FTPZone) (j : Nat) (cogj : Int)
    (hnodup : cassette.Nodup)
    (hcogs : ∀ cog ∈ cassette, cog ≠ 0 ∧ cog.natAbs < 2 ^ 52)
    (hch : chainring ≠ 0) (hchr : chainring.natAbs < 2 ^ 53)
    (hcad : F64.eq cadence F64.zero = false)
    (hlen : chainRingPowerLoss.length = cassette.length)
    (hj : cassette[j]? = some cogj)
    (hexact : F64.eq
      (F64.div (F64.div speed F64.c3_6) (F64.div (F64.mul cadence tyre) (F64.ofInt 60000)))
      (F64.div (F64.ofInt chainring) (F64.ofInt cogj)) = true) :
    ∃ g, calculateGear speed cadence chainring cassette tyre chainRingPowerLoss ftpZones
        = some g ∧ g.GearNumber = (j : Int) ∧ g.Cog = cogj ∧
      F64.abs (F64.sub (F64.div (F64.ofInt chainring) (F64.ofInt g.Cog))
        (F64.div (F64.div speed F64.c3_6)
          (F64.div (F64.mul cadence tyre) (F64.ofInt 60000)))) = F64.zero :=
  calculateGear_exact_of_nodup speed cadence chainring cassette tyre chainRingPowerLoss
    ftpZones j cogj hnodup hcogs hch hchr hcad hlen hj hexact

/-- C10 (amended) at a concrete input: chainring 34 on the `main2` cassette and
tyre (2171 mm), cadence 90, the speed whose required ratio is exactly `34/13`:
cog 13 at position 2 is returned. -/
theorem calculateGear_exact_match_witness :
    (main2Cassette.Nodup ∧ (∀ cog ∈ main2Cassette, cog ≠ 0 ∧ cog.natAbs < 2 ^ 52) ∧
      (34 : Int) ≠ 0 ∧ (34 : Int).natAbs < 2 ^ 53 ∧
      F64.eq (F64.ofInt 90) F64.zero = false ∧
      main2PowerLoss.length = main2Cassette.length ∧
      main2Cassette[2]? = some 13 ∧
      F64.eq
        (F64.div (F64.div speedFor34x13 F64.c3_6)
          (F64.div (F64.mul (F64.ofInt 90) main2Tyre) (F64.ofInt 60000)))
        (F64.div (F64.ofInt 34) (F64.ofInt 13)) = true) ∧
    ∃ g, calculateGear speedFor34x13 (F64.ofInt 90) 34 main2Cassette main2Tyre
        main2PowerLoss main2Zones = some g ∧ g.GearNumber = ((2 : Nat) : Int) ∧ g.Cog = 13 ∧
      F64.abs (F64.sub (F64.div (F64.ofInt 34) (F64.ofInt g.Cog))
        (F64.div (F64.div speedFor34x13 F64.c3_6)
          (F64.div (F64.mul (F64.ofInt 90) main2Tyre) (F64.ofInt 60000)))) = F64.zero :=
  ⟨⟨by decide, by decide, by decide, by decide, by decide, by decide, by decide, by decide⟩,
    calculateGear_exact_match speedFor34x13 (F64.ofInt 90) 34 main2Cassette main2Tyre
      main2PowerLoss main2Zones 2 13 (by decide) (by decide) (by decide) (by decide)
      (by decide) (by decide) (by decide) (by decide)⟩

/-- C10 as stated fails: in the cassette `[2^60, 2^60 + 1]` the cogs are
distinct and non-zero, and the required ratio equals `34 / cassette[1]`
exactly, yet `calculateGear` returns position 0 with cog `2^60`, because both
tooth counts convert to the same `float64` and the first zero difference wins. -/
theorem calculateGear_exact_match_counterexample :
    hugeCassette.Nodup ∧ (∀ c ∈ hugeCassette, c ≠ 0) ∧
    hugeCassette[1]? = some 1152921504606846977 ∧
    F64.eq
      (F64.div (F64.div hugeSpeed F64.c3_6)
        (F64.div (F64.mul (F64.ofInt 1) (F64.ofInt 60000)) (F64.ofInt 60000)))
      (F64.div (F64.ofInt 34) (F64.ofInt 1152921504606846977)) = true ∧
    (calculateGear hugeSpeed (F64.ofInt 1) 34 hugeCassette (F64.ofInt 60000)
        (main2PowerLoss.take 2) main2Zones).map (fun g => (g.GearNumber, g.Cog))
      = some (0, 1152921504606846976) :=
  ⟨by decide, by decide, by decide, by decide, by decide⟩

/-! ## Properties of `calculateOptimalChainring` -/

theorem isGoodGear_eq (cog : Int) (goodGears : List Int) :
    isGoodGear cog goodGears = decide (cog ∈ goodGears) := by
  induction goodGears with
  | nil => simp [isGoodGear]
  | cons a l ih =>
    by_cases h : cog = a
    · simp [isGoodGear, h]
    · simp [isGoodGear, h, ih]

/-- The sample loop adds up, over the scored samples in order, the power loss of
the selected gears and counts those whose cog is a good gear. -/
theorem sampleLoop_eq (chainring : Int) (cassette : List Int) (tyre : F64)
    (chainringPowerLoss : List ChainringPowerLoss) (ftpZones : List FTPZone)
    (goodGears : List Int) (dataPoints : List DataPoint) (t : F64) (n : Int) :
    sampleLoop chainring cassette tyre chainringPowerLoss ftpZones goodGears dataPoints (t, n)
      = (scoredGears dataPoints chainring cassette tyre chainringPowerLoss ftpZones).map
          (fun gears =>
            ((gears.map (fun g => g.PowerLoss)).foldl F64.add t,
              n + ((gears.countP (fun g => decide (g.Cog ∈ goodGears)) : Nat) : Int))) := by
  induction dataPoints generalizing t n with
  | nil =>
    simp only [sampleLoop, scoredGears, List.filter_nil, List.mapM_nil]
    simp
  | cons p ps ih =>
    unfold scoredGears at ih ⊢
    by_cases hs : (F64.eq p.Power F64.zero || F64.isNaN p.Power) = true
    · have hsc : scored p = false := by simp [scored, hs]
      rw [sampleLoop, if_pos hs, ih, List.filter_cons_of_neg (by simp [hsc])]
    · have hsc : scored p = true := by
        simp only [Bool.not_eq_true] at hs
        simp [scored, hs]
      rw [sampleLoop, if_neg hs, List.filter_cons_of_pos hsc, List.mapM_cons]
      cases hg : calculateGear p.Speed (F64.ofInt p.Cad) chainring cassette tyre
          chainringPowerLoss ftpZones with
      | none => rfl
      | some g =>
        dsimp only
        rw [ih]
        cases hm : List.mapM (fun point => calculateGear point.Speed (F64.ofInt point.Cad)
            chainring cassette tyre chainringPowerLoss ftpZones) (List.filter scored ps) with
        | none => rfl
        | some gs =>
          simp only [Option.map_some', Option.some_bind, Option.pure_def, Option.bind_eq_bind,
            List.map_cons, List.foldl_cons, List.countP_cons, isGoodGear_eq]
          by_cases hgood : g.Cog ∈ goodGears
          · simp [hgood]
            omega
          · simp [hgood]

theorem weightedLoss_eq_specScore (dataPoints : List DataPoint) (chainring : Int)
    (cassette : List Int) (tyre : F64) (chainringPowerLoss : List ChainringPowerLoss)
    (ftpZones : List FTPZone) (goodGears : List Int) (weight : F64) :
    weightedLoss dataPoints chainring cassette tyre chainringPowerLoss ftpZones goodGears
        weight
      = specScore dataPoints chainring cassette tyre chainringPowerLoss ftpZones goodGears
        weight := by
  unfold weightedLoss specScore
  rw [sampleLoop_eq]
  cases scoredGears dataPoints chainring cassette tyre chainringPowerLoss ftpZones with
  | none => rfl
  | some gears => simp

theorem chainringLoop_eq_firstMin (dataPoints : List DataPoint) (cassette : List Int)
    (tyre : F64) (chainringPowerLoss : List ChainringPowerLoss) (ftpZones : List FTPZone)
    (goodGears : List Int) (weight : F64) (chainrings : List Int)
    (h : ∀ c ∈ chainrings, ∃ w, weightedLoss dataPoints c cassette tyre chainringPowerLoss
      ftpZones goodGears weight = some w) (st : Int × F64) :
    chainringLoop dataPoints cassette tyre chainringPowerLoss ftpZones goodGears weight
        chainrings st
      = some ((firstMin (chainrings.map (fun c =>
          (weightedLoss dataPoints c cassette tyre chainringPowerLoss ftpZones goodGears
            weight, c))) (st.2, st.1)).2,
        (firstMin (chainrings.map (fun c =>
          (weightedLoss dataPoints c cassette tyre chainringPowerLoss ftpZones goodGears
            weight, c))) (st.2, st.1)).1) := by
  induction chainrings generalizing st with
  | nil => rfl
  | cons c cs ih =>
    obtain ⟨opt, m⟩ := st
    obtain ⟨w, hw⟩ := h c (List.mem_cons_self c cs)
    have ih' := fun st => ih (fun c' hc' => h c' (List.mem_cons_of_mem c hc')) st
    simp only [chainringLoop, hw, List.map_cons, firstMin]
    by_cases hlt : F64.lt w m = true
    · rw [if_pos hlt, if_pos hlt]
      exact ih' (c, w)
    · rw [if_neg hlt, if_neg hlt]
      exact ih' (opt, m)

/-- The optimiser returns the first candidate of minimal `weightedLoss`, when every
candidate has one below `MaxFloat64`. -/
theorem calculateOptimalChainring_argmin (dataPoints : List DataPoint)
    (possibleChainrings : List Int) (cassette : List Int) (tyre : F64)
    (chainringPowerLoss : List ChainringPowerLoss) (ftpZones : List FTPZone)
    (goodGears : List Int) (weight : F64) (hc : possibleChainrings ≠ [])
    (hscore : ∀ c ∈ possibleChainrings, ∃ w,
      weightedLoss dataPoints c cassette tyre chainringPowerLoss ftpZones goodGears weight
        = some w ∧ F64.lt w F64.maxFloat64 = true) :
    ∃ (i : Nat) (c : Int) (w : F64), possibleChainrings[i]? = some c ∧
      calculateOptimalChainring dataPoints possibleChainrings cassette tyre
        chainringPowerLoss ftpZones goodGears weight = some c ∧
      weightedLoss dataPoints c cassette tyre chainringPowerLoss ftpZones goodGears weight
        = some w ∧
      ∀ (j : Nat) (c' : Int) (w' : F64), possibleChainrings[j]? = some c' →
        weightedLoss dataPoints c' cassette tyre chainringPowerLoss ftpZones goodGears weight
          = some w' →
        F64.le w w' = true ∧ (j < i → F64.lt w w' = true) := by
  have hsome : ∀ c ∈ possibleChainrings, ∃ w, weightedLoss dataPoints c cassette tyre
      chainringPowerLoss ftpZones goodGears weight = some w :=
    fun c hmem => (hscore c hmem).imp fun _ h => h.1
  unfold calculateOptimalChainring
  rw [chainringLoop_eq_firstMin _ _ _ _ _ _ _ _ hsome]
  dsimp only
  rcases firstMin_spec (possibleChainrings.map (fun c =>
      (weightedLoss dataPoints c cassette tyre chainringPowerLoss ftpZones goodGears weight,
        c))) F64.maxFloat64 0 with ⟨-, hall⟩ | ⟨i, w, c, hi, he, hlt, hmin⟩
  · exfalso
    obtain ⟨c, cs, rfl⟩ := List.exists_cons_of_ne_nil hc
    obtain ⟨w, hw, hlt⟩ := hscore c (List.mem_cons_self c cs)
    have := hall w c (by simp [hw])
    rw [hlt] at this
    cases this
  · rw [List.getElem?_map] at hi
    rcases hci : possibleChainrings[i]? with _ | c0
    · rw [hci] at hi
      cases hi
    · rw [hci] at hi
      simp only [Option.map_some', Option.some.injEq, Prod.mk.injEq] at hi
      obtain ⟨hw, rfl⟩ := hi
      refine ⟨i, c0, w, hci, by rw [he], hw, ?_⟩
      intro j c' w' hj hw'
      have hj' : (possibleChainrings.map (fun c =>
          (weightedLoss dataPoints c cassette tyre chainringPowerLoss ftpZones goodGears
            weight, c)))[j]? = some (some w', c') := by
        rw [List.getElem?_map, hj, Option.map_some', hw']
      obtain ⟨hnl, hbefore⟩ := hmin j w' c' hj'
      obtain ⟨w'', hw'', hlt''⟩ := hscore c' (List.getElem?_mem hj)
      have hnan' : F64.isNaN w' = false := by
        rw [hw'] at hw''
        cases hw''
        exact F64.isNaN_of_lt_left hlt''
      exact ⟨F64.le_of_not_lt hnl (F64.isNaN_of_lt_left hlt) hnan',
        fun hji => hbefore hji hnan'⟩

/-- C1: for every non-empty candidate list and non-empty sample list in which
every candidate's score is below the initial sentinel `MaxFloat64`,
`calculateOptimalChainring` returns the first candidate, in the given order,
whose score is minimal over all candidates (its score is `<=` every score and
`<` the score of every earlier candidate), the score being
`total_power_loss - weight * (goodGearCount / len(dataPoints))` as spelled out
by `specScore`. -/
theorem calculateOptimalChainring_first_min (dataPoints : List DataPoint)
    (possibleChainrings : List Int) (cassette : List Int) (tyre : F64)
    (chainringPowerLoss : List ChainringPowerLoss) (ftpZones : List FTPZone)
    (goodGears : List Int) (weight : F64) (hc : possibleChainrings ≠ [])
    (_hd : dataPoints ≠ [])
    (hscore : ∀ c ∈ possibleChainrings, ∃ w,
      specScore dataPoints c cassette tyre chainringPowerLoss ftpZones goodGears weight
        = some w ∧ F64.lt w F64.maxFloat64 = true) :
    ∃ (i : Nat) (c : Int) (w : F64), possibleChainrings[i]? = some c ∧
      calculateOptimalChainring dataPoints possibleChainrings cassette tyre
        chainringPowerLoss ftpZones goodGears weight = some c ∧
      specScore dataPoints c cassette tyre chainringPowerLoss ftpZones goodGears weight
        = some w ∧
      ∀ (j : Nat) (c' : Int) (w' : F64), possibleChainrings[j]? = some c' →
        specScore dataPoints c' cassette tyre chainringPowerLoss ftpZones goodGears weight
          = some w' →
        F64.le w w' = true ∧ (j < i → F64.lt w w' = true) := by
  simp only [← weightedLoss_eq_specScore] at hscore ⊢
  exact calculateOptimalChainring_argmin dataPoints possibleChainrings cassette tyre
    chainringPowerLoss ftpZones goodGears weight hc hscore

/-- C1 at a concrete input: on `exampleRide` with candidates `[50, 34]` and the
`main2` configuration the scores are 27 and about 13.17, and 34 is returned. -/
theorem calculateOptimalChainring_first_min_witness :
    (([50, 34] : List Int) ≠ [] ∧ exampleRide ≠ [] ∧
      ∀ c ∈ ([50, 34] : List Int), ∃ w,
        specScore exampleRide c main2Cassette main2Tyre main2PowerLoss main2Zones
          main2GoodGears (F64.ofInt 1) = some w ∧ F64.lt w F64.maxFloat64 = true) ∧
    ∃ (i : Nat) (c : Int) (w : F64), ([50, 34] : List Int)[i]? = some c ∧
      calculateOptimalChainring exampleRide [50, 34] main2Cassette main2Tyre
        main2PowerLoss main2Zones main2GoodGears (F64.ofInt 1) = some c ∧
      specScore exampleRide c main2Cassette main2Tyre main2PowerLoss main2Zones
        main2GoodGears (F64.ofInt 1) = some w ∧
      ∀ (j : Nat) (c' : Int) (w' : F64), ([50, 34] : List Int)[j]? = some c' →
        specScore exampleRide c' main2Cassette main2Tyre main2PowerLoss main2Zones
          main2GoodGears (F64.ofInt 1) = some w' →
        F64.le w w' = true ∧ (j < i → F64.lt w w' = true) :=
  have hscore : ∀ c ∈ ([50, 34] : List Int), ∃ w,
      specScore exampleRide c main2Cassette main2Tyre main2PowerLoss main2Zones
        main2GoodGears (F64.ofInt 1) = some w ∧ F64.lt w F64.maxFloat64 = true := by
    intro c hc
    simp only [List.mem_cons, List.mem_singleton, List.not_mem_nil, or_false] at hc
    rcases hc with rfl | rfl
    · exact ⟨_, rfl, by decide⟩
    · exact ⟨_, rfl, by decide⟩
  ⟨⟨by decide, by decide, hscore⟩,
    calculateOptimalChainring_first_min exampleRide [50, 34] main2Cassette main2Tyre
      main2PowerLoss main2Zones main2GoodGears (F64.ofInt 1) (by decide) (by decide) hscore⟩

/-- C6, evaluated: with an empty sample list the fraction is `0/0 = NaN`, no
score is below the sentinel, and the function returns its initial `0`, which is
not one of the candidates `[34, 50]` (table and cassette have equal length).
A ride of one sample that the loop skips (power 0) scores no sample either,
and there the first candidate is returned. -/
theorem calculateOptimalChainring_empty_ride :
    main2PowerLoss.length = main2Cassette.length ∧
    calculateOptimalChainring [] [34, 50] main2Cassette main2Tyre main2PowerLoss main2Zones
      main2GoodGears (F64.ofInt 1) = some 0 ∧
    (0 : Int) ∉ ([34, 50] : List Int) ∧
    calculateOptimalChainring [sampleWithPower F64.zero] [34, 50] main2Cassette main2Tyre
      main2PowerLoss main2Zones main2GoodGears (F64.ofInt 1) = some 34 :=
  ⟨by decide, by decide, by decide, by decide⟩

theorem sampleLoop_append (chainring : Int) (cassette : List Int) (tyre : F64)
    (chainringPowerLoss : List ChainringPowerLoss) (ftpZones : List FTPZone)
    (goodGears : List Int) (l1 l2 : List DataPoint) (acc : F64 × Int) :
    sampleLoop chainring cassette tyre chainringPowerLoss ftpZones goodGears (l1 ++ l2) acc
      = (sampleLoop chainring cassette tyre chainringPowerLoss ftpZones goodGears l1 acc).bind
          (fun a =>
            sampleLoop chainring cassette tyre chainringPowerLoss ftpZones goodGears l2 a) := by
  induction l1 generalizing acc with
  | nil => rfl
  | cons p ps ih =>
    obtain ⟨t, n⟩ := acc
    simp only [List.cons_append, sampleLoop]
    split
    · exact ih _
    · split
      · rfl
      · exact ih _

/-- C4 (amended): in the sample loop of `calculateOptimalChainring` a sample, at
any position of the list and for every candidate chainring, is skipped - the
accumulators `(totalPowerLoss, goodGearCount)` pass it unchanged and
`calculateGear` is not called - exactly when its power is `== 0` or NaN;
every other sample (negative and infinite powers included) adds the
`PowerLoss` of its gear to the total and counts towards the preferred gears
when its cog is one. -/
theorem sampleLoop_contribution (chainring : Int) (cassette : List Int) (tyre : F64)
    (chainringPowerLoss : List ChainringPowerLoss) (ftpZones : List FTPZone)
    (goodGears : List Int) (pre post : List DataPoint) (point : DataPoint)
    (acc : F64 × Int) :
    sampleLoop chainring cassette tyre chainringPowerLoss ftpZones goodGears
        (pre ++ point :: post) acc
      = if F64.eq point.Power F64.zero = true ∨ F64.isNaN point.Power = true then
          sampleLoop chainring cassette tyre chainringPowerLoss ftpZones goodGears
            (pre ++ post) acc
        else
          (sampleLoop chainring cassette tyre chainringPowerLoss ftpZones goodGears pre
              acc).bind (fun a =>
            (calculateGear point.Speed (F64.ofInt point.Cad) chainring cassette tyre
                chainringPowerLoss ftpZones).bind (fun gear =>
              sampleLoop chainring cassette tyre chainringPowerLoss ftpZones goodGears post
                (F64.add a.1 gear.PowerLoss,
                  if gear.Cog ∈ goodGears then a.2 + 1 else a.2))) := by
  rw [sampleLoop_append, sampleLoop_append]
  by_cases hs : (F64.eq point.Power F64.zero || F64.isNaN point.Power) = true
  · rw [if_pos (by simpa using hs)]
    congr 1
    funext a
    obtain ⟨t, n⟩ := a
    rw [sampleLoop, if_pos hs]
  · rw [if_neg (by simpa using hs)]
    congr 1
    funext a
    obtain ⟨t, n⟩ := a
    rw [sampleLoop, if_neg hs]
    cases calculateGear point.Speed (F64.ofInt point.Cad) chainring cassette tyre
        chainringPowerLoss ftpZones with
    | none => rfl
    | some g => simp [isGoodGear_eq]

/-- C4 as stated fails: a sample with negative power (-100 W) and a sample with
infinite power are not skipped.  Each, alone in the list, raises the total
power loss of chainring 34 from `0` to `13.5`, although its power is not
"greater than 0 and finite". -/
theorem sampleLoop_scores_negative_and_infinite_power :
    (F64.lt F64.zero (F64.ofInt (-100)) && F64.isFinite (F64.ofInt (-100))) = false ∧
    sampleLoop 34 main2Cassette main2Tyre main2PowerLoss main2Zones main2GoodGears
      [sampleWithPower (F64.ofInt (-100))] (F64.zero, 0) = some (F64.ofRatio 135 10, 0) ∧
    (F64.lt F64.zero (F64.inf false) && F64.isFinite (F64.inf false)) = false ∧
    sampleLoop 34 main2Cassette main2Tyre main2PowerLoss main2Zones main2GoodGears
      [sampleWithPower (F64.inf false)] (F64.zero, 0) = some (F64.ofRatio 135 10, 0) ∧
    sampleLoop 34 main2Cassette main2Tyre main2PowerLoss main2Zones main2GoodGears
      [] (F64.zero, 0) = some (F64.zero, 0) :=
  ⟨by decide, by decide, by decide, by decide, by decide⟩

/-! ## Properties of the enrichment loop -/

theorem parseLayout_samples :
    parseLayout "2023-01-01T00:00:10Z" = some 63808128010000000000 ∧
    parseLayout "1970-01-01T00:00:00Z" = some 62135596800000000000 ∧
    parseLayout "2024-02-29T23:59:59.5Z" = some 63844847999500000000 ∧
    parseLayout "2023-02-29T23:59:59Z" = none ∧
    parseLayout "2023-01-01T00:00:10+02:00" = none ∧
    parseLayout "not a time" = none ∧
    parseLayout "" = none := by decide

theorem enrichLoop_eq (M : FloatMath) (parse : String → Option Int) (rest : List Point)
    (dataPoints : List DataPoint) :
    enrichLoop M parse rest dataPoints.length dataPoints
      = some (dataPoints ++ enrichFrom M parse dataPoints.getLast? rest) := by
  induction rest generalizing dataPoints with
  | nil => simp [enrichLoop, enrichFrom]
  | cons point rest ih =>
    have hlen : ∀ dp : DataPoint, (dataPoints ++ [dp]).length = dataPoints.length + 1 := by
      intro dp
      simp
    have hlast : ∀ dp : DataPoint, (dataPoints ++ [dp]).getLast? = some dp := by
      intro dp
      simp
    rw [enrichLoop]
    dsimp only
    by_cases hpos : dataPoints.length > 0
    · rw [if_pos hpos, ← List.getLast?_eq_getElem?]
      obtain ⟨prev, hprev⟩ : ∃ prev, dataPoints.getLast? = some prev := by
        cases hl : dataPoints.getLast? with
        | none =>
          rw [List.getLast?_eq_none_iff] at hl
          rw [hl] at hpos
          simp at hpos
        | some prev => exact ⟨prev, rfl⟩
      rw [hprev]
      dsimp only
      by_cases hne : F64.ne (elapsedSeconds parse prev.Time point.Time) F64.zero = true
      · rw [if_pos hne, ← hlen, ih, hlast]
        simp [enrichFrom, pairSpeed, baseDataPoint, hne]
      · rw [if_neg hne, ← hlen, ih, hlast]
        simp [enrichFrom, pairSpeed, baseDataPoint, hne]
    · rw [if_neg hpos]
      have hnil : dataPoints = [] := by
        cases dataPoints with
        | nil => rfl
        | cons a l => simp at hpos
      subst hnil
      have := ih [baseDataPoint point F64.zero]
      simp only [List.length_singleton] at this
      simpa [enrichFrom, baseDataPoint] using this

theorem enrichFrom_getElem?_succ (M : FloatMath) (parse : String → Option Int)
    (points : List Point) (prev : Option DataPoint) (k : Nat) (p q : Point)
    (hp : points[k]? = some p) (hq : points[k + 1]? = some q) :
    (enrichFrom M parse prev points)[k + 1]?
      = some (baseDataPoint q (pairSpeed M parse p.Lat p.Lon p.Time q)) := by
  induction points generalizing prev k with
  | nil => simp at hp
  | cons a rest ih =>
    cases k with
    | zero =>
      simp only [List.getElem?_cons_zero, Option.some.injEq] at hp
      subst hp
      cases rest with
      | nil => simp at hq
      | cons b rest' =>
        simp only [Nat.zero_add, List.getElem?_cons_succ, List.getElem?_cons_zero,
          Option.some.injEq] at hq
        subst hq
        simp [enrichFrom, baseDataPoint]
    | succ k' =>
      simp only [List.getElem?_cons_succ] at hp hq
      simp only [enrichFrom, List.getElem?_cons_succ]
      exact ih _ k' hp hq

/-- C20: whenever `calculateGear` selects a cog (the returned `Cog` is
non-zero), the returned `GearNumber` is a valid index of the cassette,
`Cog` equals `cassette[GearNumber]`, `Chainring` equals the chainring
argument, `Cadence` equals the cadence argument and `Speed` equals the input
speed divided by 3.6. -/
theorem calculateGear_selected_fields (speed cadence : F64) (chainring : Int)
    (cassette : List Int) (tyre : F64) (chainRingPowerLoss : List ChainringPowerLoss)
    (ftpZones : List FTPZone) (g : Gear)
    (hres : calculateGear speed cadence chainring cassette tyre chainRingPowerLoss ftpZones
      = some g) (hsel : g.Cog ≠ 0) :
    0 ≤ g.GearNumber ∧ g.GearNumber.toNat < cassette.length ∧
      cassette[g.GearNumber.toNat]? = some g.Cog ∧
      g.Chainring = chainring ∧ g.Cadence = cadence ∧
      g.Speed = F64.div speed F64.c3_6 := by
  obtain ⟨i, v, hi, hg, -, -, -⟩ := calculateGear_selected hres hsel
  have hnum : g.GearNumber = (i : Int) := by rw [hg]
  have hlt : i < cassette.length := (List.getElem?_eq_some.1 hi).1
  refine ⟨by omega, by rw [hnum]; simpa using hlt, by rw [hnum]; simpa using hi,
    by rw [hg], by rw [hg], by rw [hg]⟩

/-- C20 at a concrete input: 30 km/h at cadence 90 on chainring 34 with the
`main2` configuration. -/
theorem calculateGear_selected_fields_witness :
    (calculateGear (F64.ofInt 30) (F64.ofInt 90) 34 main2Cassette main2Tyre main2PowerLoss
        main2Zones
        = some ⟨2, 34, 13, F64.div (F64.ofInt 30) F64.c3_6, F64.ofInt 90, F64.zero⟩ ∧
      (⟨2, 34, 13, F64.div (F64.ofInt 30) F64.c3_6, F64.ofInt 90, F64.zero⟩ : Gear).Cog ≠ 0) ∧
    (0 : Int) ≤ 2 ∧ (2 : Int).toNat < main2Cassette.length ∧
      main2Cassette[(2 : Int).toNat]? = some 13 ∧ (34 : Int) = 34 ∧
      F64.ofInt 90 = F64.ofInt 90 ∧
      F64.div (F64.ofInt 30) F64.c3_6 = F64.div (F64.ofInt 30) F64.c3_6 :=
  ⟨⟨by decide, by decide⟩,
    calculateGear_selected_fields (F64.ofInt 30) (F64.ofInt 90) 34 main2Cassette main2Tyre
      main2PowerLoss main2Zones
      ⟨2, 34, 13, F64.div (F64.ofInt 30) F64.c3_6, F64.ofInt 90, F64.zero⟩
      (by decide) (by decide)⟩

theorem sampleLoop_skip_cons (chainring : Int) (cassette : List Int) (tyre : F64)
    (chainringPowerLoss : List ChainringPowerLoss) (ftpZones : List FTPZone)
    (goodGears : List Int) (point : DataPoint) (rest : List DataPoint) (acc : F64 × Int)
    (h : (F64.eq point.Power F64.zero || F64.isNaN point.Power) = true) :
    sampleLoop chainring cassette tyre chainringPowerLoss ftpZones goodGears
        (point :: rest) acc
      = sampleLoop chainring cassette tyre chainringPowerLoss ftpZones goodGears rest acc := by
  obtain ⟨t, n⟩ := acc
  rw [sampleLoop, if_pos h]

/-- C17: for every candidate chainring, inserting a sample with power `== 0`
at any position of the sample list (or removing it) leaves the candidate's
`(totalPowerLoss, goodGearCount)` unchanged; in particular a sample list
consisting of a single power-0 sample gives total power loss 0 (and count 0). -/
theorem sampleLoop_zero_power_frame (chainring : Int) (cassette : List Int) (tyre : F64)
    (chainringPowerLoss : List ChainringPowerLoss) (ftpZones : List FTPZone)
    (goodGears : List Int) (pre post : List DataPoint) (point : DataPoint)
    (acc : F64 × Int) (h : F64.eq point.Power F64.zero = true) :
    sampleLoop chainring cassette tyre chainringPowerLoss ftpZones goodGears
        (pre ++ point :: post) acc
      = sampleLoop chainring cassette tyre chainringPowerLoss ftpZones goodGears
        (pre ++ post) acc ∧
    sampleLoop chainring cassette tyre chainringPowerLoss ftpZones goodGears [point]
      (F64.zero, 0) = some (F64.zero, 0) := by
  have hs : (F64.eq point.Power F64.zero || F64.isNaN point.Power) = true := by simp [h]
  constructor
  · rw [sampleLoop_append, sampleLoop_append]
    congr 1
    funext a
    exact sampleLoop_skip_cons _ _ _ _ _ _ _ _ _ hs
  · rw [sampleLoop_skip_cons _ _ _ _ _ _ _ _ _ hs]
    rfl

/-- C17 at a concrete input: the coasting sample of `exampleRide` (power 0)
dropped from the ride, chainring 34 on the `main2` configuration. -/
theorem sampleLoop_zero_power_frame_witness :
    F64.eq (sampleWithPower F64.zero).Power F64.zero = true ∧
    sampleLoop 34 main2Cassette main2Tyre main2PowerLoss main2Zones main2GoodGears
        (exampleRide.take 1 ++ sampleWithPower F64.zero :: exampleRide.drop 2) (F64.zero, 0)
      = sampleLoop 34 main2Cassette main2Tyre main2PowerLoss main2Zones main2GoodGears
        (exampleRide.take 1 ++ exampleRide.drop 2) (F64.zero, 0) ∧
    sampleLoop 34 main2Cassette main2Tyre main2PowerLoss main2Zones main2GoodGears
      [sampleWithPower F64.zero] (F64.zero, 0) = some (F64.zero, 0) :=
  ⟨by decide,
    sampleLoop_zero_power_frame 34 main2Cassette main2Tyre main2PowerLoss main2Zones
      main2GoodGears (exampleRide.take 1) (exampleRide.drop 2) (sampleWithPower F64.zero)
      (F64.zero, 0) (by decide)⟩

/-- C18 fails as stated: in the zone table of `main2` the zone "Tempo" ends at
286 and the next zone "Sweet Spot" starts at 279; their bounds differ, a power
of 280 W lies in both zones, and the first match gives it the coefficient 0.75
of "Tempo". -/
theorem main2Zones_overlap :
    (main2Zones.map (fun z => (z.Min, z.Max)))
      = [(F64.ofInt 0, F64.ofInt 174), (F64.ofInt 174, F64.ofInt 241),
         (F64.ofInt 241, F64.ofInt 286), (F64.ofInt 279, F64.ofInt 333),
         (F64.ofInt 333, F64.ofInt 381), (F64.ofInt 381, F64.ofInt 477),
         (F64.ofInt 477, F64.ofInt 2000)] ∧
    F64.eq (F64.ofInt 279) (F64.ofInt 286) = false ∧
    (main2Zones.filter (fun z => F64.ge (F64.ofInt 280) z.Min && F64.lt (F64.ofInt 280) z.Max)).map
      (fun z => z.Zone) = ["Tempo", "Sweet Spot"] ∧
    zoneCoefficient (F64.ofInt 280) main2Zones = F64.ofRatio 75 100 :=
  ⟨by decide, by decide, by decide, by decide⟩

/-! ## Independence of the recorded power -/

theorem sampleLoop_samePowerPattern (chainring : Int) (cassette : List Int) (tyre : F64)
    (chainringPowerLoss : List ChainringPowerLoss) (ftpZones : List FTPZone)
    (goodGears : List Int) (l l' : List DataPoint)
    (h : List.Forall₂ samePowerPattern l l') (acc : F64 × Int) :
    sampleLoop chainring cassette tyre chainringPowerLoss ftpZones goodGears l' acc
      = sampleLoop chainring cassette tyre chainringPowerLoss ftpZones goodGears l acc := by
  induction h generalizing acc with
  | nil => rfl
  | cons hpq _ ih =>
    obtain ⟨t, n⟩ := acc
    obtain ⟨-, -, -, hsp, hcad, -, hskip⟩ := hpq
    simp only [sampleLoop, hskip, hsp, hcad]
    split
    · exact ih _
    · split
      · rfl
      · exact ih _

theorem weightedLoss_samePowerPattern (l l' : List DataPoint)
    (h : List.Forall₂ samePowerPattern l l') (chainring : Int) (cassette : List Int)
    (tyre : F64) (chainringPowerLoss : List ChainringPowerLoss) (ftpZones : List FTPZone)
    (goodGears : List Int) (weight : F64) :
    weightedLoss l' chainring cassette tyre chainringPowerLoss ftpZones goodGears weight
      = weightedLoss l chainring cassette tyre chainringPowerLoss ftpZones goodGears weight := by
  unfold weightedLoss
  rw [sampleLoop_samePowerPattern _ _ _ _ _ _ l l' h, h.length_eq]

/-- Two sample lists with the same `weightedLoss` for every chainring give the
same run of the candidate loop. -/
theorem chainringLoop_congr (l l' : List DataPoint) (cassette : List Int) (tyre : F64)
    (chainringPowerLoss : List ChainringPowerLoss) (ftpZones : List FTPZone)
    (goodGears goodGears' : List Int) (weight : F64)
    (h : ∀ c, weightedLoss l' c cassette tyre chainringPowerLoss ftpZones goodGears' weight
      = weightedLoss l c cassette tyre chainringPowerLoss ftpZones goodGears weight)
    (chainrings : List Int) (st : Int × F64) :
    chainringLoop l' cassette tyre chainringPowerLoss ftpZones goodGears' weight chainrings st
      = chainringLoop l cassette tyre chainringPowerLoss ftpZones goodGears weight
        chainrings st := by
  induction chainrings generalizing st with
  | nil => rfl
  | cons c cs ih =>
    obtain ⟨opt, m⟩ := st
    simp only [chainringLoop, h c]
    split
    · rfl
    · split
      · exact ih _
      · exact ih _

/-- C19: the result of `calculateOptimalChainring` does not depend on the
magnitude of the recorded power: for two sample lists that are equal except
for the `Power` of their samples, where each sample's power is `== 0` or NaN in
one list exactly when it is in the other, the optimiser returns the same
chainring (or panics in both), for every configuration. -/
theorem calculateOptimalChainring_power_independent (dataPoints dataPoints' : List DataPoint)
    (possibleChainrings : List Int) (cassette : List Int) (tyre : F64)
    (chainringPowerLoss : List ChainringPowerLoss) (ftpZones : List FTPZone)
    (goodGears : List Int) (weight : F64)
    (h : List.Forall₂ samePowerPattern dataPoints dataPoints') :
    calculateOptimalChainring dataPoints' possibleChainrings cassette tyre
        chainringPowerLoss ftpZones goodGears weight
      = calculateOptimalChainring dataPoints possibleChainrings cassette tyre
        chainringPowerLoss ftpZones goodGears weight := by
  unfold calculateOptimalChainring
  rw [chainringLoop_congr dataPoints dataPoints' cassette tyre chainringPowerLoss ftpZones
    goodGears goodGears weight
    (fun c => weightedLoss_samePowerPattern _ _ h c _ _ _ _ _ _)]

/-- C19 at a concrete input: `exampleRide` and the same ride with powers 50 W,
NaN and 999 W in place of 200 W, 0 W and 150 W. -/
theorem calculateOptimalChainring_power_independent_witness :
    List.Forall₂ samePowerPattern exampleRide exampleRideOtherPower ∧
    calculateOptimalChainring exampleRideOtherPower main2Chainrings main2Cassette main2Tyre
        main2PowerLoss main2Zones main2GoodGears (F64.ofInt 1)
      = calculateOptimalChainring exampleRide main2Chainrings main2Cassette main2Tyre
        main2PowerLoss main2Zones main2GoodGears (F64.ofInt 1) :=
  have h : List.Forall₂ samePowerPattern exampleRide exampleRideOtherPower :=
    List.Forall₂.cons ⟨rfl, rfl, rfl, rfl, rfl, rfl, by decide⟩
      (List.Forall₂.cons ⟨rfl, rfl, rfl, rfl, rfl, rfl, by decide⟩
        (List.Forall₂.cons ⟨rfl, rfl, rfl, rfl, rfl, rfl, by decide⟩ List.Forall₂.nil))
  ⟨h, calculateOptimalChainring_power_independent exampleRide exampleRideOtherPower
    main2Chainrings main2Cassette main2Tyre main2PowerLoss main2Zones main2GoodGears
    (F64.ofInt 1) h⟩

/-! ## The enrichment loop as a whole -/

theorem enrichFrom_length (M : FloatMath) (parse : String → Option Int)
    (prev : Option DataPoint) (points : List Point) :
    (enrichFrom M parse prev points).length = points.length := by
  induction points generalizing prev with
  | nil => rfl
  | cons p rest ih => simp [enrichFrom, ih]

theorem enrich_eq_enrichFrom (M : FloatMath) (parse : String → Option Int)
    (points : List Point) : enrich M parse points = some (enrichFrom M parse none points) := by
  have := enrichLoop_eq M parse points []
  simpa [enrich] using this

/-- C13: the enrichment loop of `parseGPX` maps every sequence of raw points to
a sequence of data points of equal length and order, in which sample 0 has
speed 0 and sample `i + 1` has speed
`(haversine(point[i], point[i+1]) / elapsed) * 3.6` when the elapsed seconds
between the two timestamps are non-zero and speed 0 when they are zero, with
lat, lon, elevation, time, power and cadence copied unchanged.  (The loop never
panics; a timestamp that does not parse counts as the zero time.) -/
theorem enrich_spec (M : FloatMath) (parse : String → Option Int) (points : List Point) :
    ∃ dataPoints, enrich M parse points = some dataPoints ∧
      dataPoints.length = points.length ∧
      (∀ p, points[0]? = some p →
        dataPoints[0]? = some ⟨p.Lat, p.Lon, p.Ele, p.Ext.Power, F64.zero, p.Ext.TPX.Cad,
          p.Time⟩) ∧
      (∀ (i : Nat) (p q : Point), points[i]? = some p → points[i + 1]? = some q →
        dataPoints[i + 1]? = some ⟨q.Lat, q.Lon, q.Ele, q.Ext.Power,
          (if F64.ne (elapsedSeconds parse p.Time q.Time) F64.zero = true then
            F64.mul
              (F64.div (haversine M p.Lat p.Lon q.Lat q.Lon)
                (elapsedSeconds parse p.Time q.Time)) F64.c3_6
          else F64.zero), q.Ext.TPX.Cad, q.Time⟩) := by
  refine ⟨enrichFrom M parse none points, enrich_eq_enrichFrom M parse points,
    enrichFrom_length M parse none points, ?_, ?_⟩
  · intro p hp
    cases points with
    | nil => simp at hp
    | cons a rest =>
      simp only [List.getElem?_cons_zero, Option.some.injEq] at hp
      subst hp
      simp [enrichFrom, baseDataPoint]
  · intro i p q hp hq
    rw [enrichFrom_getElem?_succ M parse points none i p q hp hq]
    rfl

/-! ## Properties of `haversine` -/

namespace F64

theorem neg_neg (x : F64) : neg (neg x) = x := by
  cases x <;> simp [neg]

theorem neg_round (s : Bool) (n d : Nat) : neg (round s n d) = round (!s) n d := by
  unfold round
  dsimp only
  split <;> rfl

theorem mul_neg_left (x y : F64) : mul (neg x) y = neg (mul x y) := by
  cases x with
  | nan => cases y <;> rfl
  | inf a =>
    cases y with
    | nan => rfl
    | inf b => cases a <;> cases b <;> rfl
    | fin b k =>
      by_cases hk : k = 0
      · simp [mul, neg, hk]
      · cases a <;> cases b <;> simp [mul, neg, hk]
  | fin a x =>
    cases y with
    | nan => rfl
    | inf b =>
      by_cases hx : x = 0
      · simp [mul, neg, hx]
      · cases a <;> cases b <;> simp [mul, neg, hx]
    | fin b y =>
      show round (xor (!a) b) (x * y) (1 <<< 1074)
        = neg (round (xor a b) (x * y) (1 <<< 1074))
      rw [neg_round]
      cases a <;> cases b <;> rfl

theorem mul_comm (x y : F64) : mul x y = mul y x := by
  cases x with
  | nan => cases y <;> rfl
  | inf a =>
    cases y with
    | nan => rfl
    | inf b => simp [mul, Bool.xor_comm]
    | fin b k => simp [mul, Bool.xor_comm]
  | fin a x =>
    cases y with
    | nan => rfl
    | inf b => simp [mul, Bool.xor_comm]
    | fin b y => simp only [mul, Bool.xor_comm a b, Nat.mul_comm x y]

theorem mul_neg_right (x y : F64) : mul x (neg y) = neg (mul x y) := by
  rw [mul_comm, mul_neg_left, mul_comm]

theorem div_neg_left (x y : F64) : div (neg x) y = neg (div x y) := by
  cases x with
  | nan => cases y <;> rfl
  | inf a =>
    cases y with
    | nan => rfl
    | inf b => rfl
    | fin b k => cases a <;> cases b <;> rfl
  | fin a x =>
    cases y with
    | nan => rfl
    | inf b => cases a <;> cases b <;> rfl
    | fin b y =>
      by_cases hy : y = 0
      · by_cases hx : x = 0
        · simp [div, neg, hy, hx]
        · cases a <;> cases b <;> simp [div, neg, hy, hx]
      · show (if y = 0 then (if x = 0 then nan else inf (xor (!a) b))
            else round (xor (!a) b) (x <<< 1074) y)
          = neg (if y = 0 then (if x = 0 then nan else inf (xor a b))
            else round (xor a b) (x <<< 1074) y)
        rw [if_neg hy, if_neg hy, neg_round]
        cases a <;> cases b <;> rfl

/-- Swapping the operands of a subtraction negates the result, except that the
difference of two equal values is `+0` either way. -/
theorem sub_swap (x y : F64) : sub y x = neg (sub x y) ∨ sub y x = sub x y := by
  cases x with
  | nan => cases y <;> simp [sub, add, neg]
  | inf a =>
    cases y with
    | nan => simp [sub, add, neg]
    | inf b => cases a <;> cases b <;> simp [sub, add, neg]
    | fin b y => simp [sub, add, neg]
  | fin a x =>
    cases y with
    | nan => simp [sub, add, neg]
    | inf b => simp [sub, add, neg]
    | fin b y =>
      show (if sgn b y + sgn (!a) x = 0 then fin (b && !a) 0
            else round (decide (sgn b y + sgn (!a) x < 0)) (sgn b y + sgn (!a) x).natAbs 1)
          = neg (if sgn a x + sgn (!b) y = 0 then fin (a && !b) 0
            else round (decide (sgn a x + sgn (!b) y < 0))
              (sgn a x + sgn (!b) y).natAbs 1)
          ∨ (if sgn b y + sgn (!a) x = 0 then fin (b && !a) 0
            else round (decide (sgn b y + sgn (!a) x < 0)) (sgn b y + sgn (!a) x).natAbs 1)
          = (if sgn a x + sgn (!b) y = 0 then fin (a && !b) 0
            else round (decide (sgn a x + sgn (!b) y < 0))
              (sgn a x + sgn (!b) y).natAbs 1)
      rw [sgn_not, sgn_not]
      by_cases hv : sgn b y + -sgn a x = 0
      · have hv' : sgn a x + -sgn b y = 0 := by omega
        rw [if_pos hv, if_pos hv']
        cases a <;> cases b <;> simp [neg]
      · have hv' : ¬ sgn a x + -sgn b y = 0 := by omega
        rw [if_neg hv, if_neg hv']
        left
        rw [neg_round]
        have h1 : (sgn b y + -sgn a x).natAbs = (sgn a x + -sgn b y).natAbs := by omega
        have h2 : decide (sgn b y + -sgn a x < 0) = !decide (sgn a x + -sgn b y < 0) := by
          by_cases h : sgn a x + -sgn b y < 0
          · have : ¬ sgn b y + -sgn a x < 0 := by omega
            simp [h, this]
          · have : sgn b y + -sgn a x < 0 := by omega
            simp [h, this]
        rw [h1, h2]

end F64

/-- The term `sin(Δ/2) * sin(Δ/2)` of `haversine` for a coordinate difference
`d` in degrees. -/
theorem haversine_half_sine_neg (M : FloatMath)
    (hodd : ∀ x, M.Sin (F64.neg x) = F64.neg (M.Sin x)) (d : F64) :
    M.Sin (F64.div (F64.div (F64.mul (F64.neg d) F64.pi) (F64.ofInt 180)) (F64.ofInt 2))
      = F64.neg
        (M.Sin (F64.div (F64.div (F64.mul d F64.pi) (F64.ofInt 180)) (F64.ofInt 2))) := by
  rw [F64.mul_neg_left, F64.div_neg_left, F64.div_neg_left, hodd]

theorem haversine_symm_of_odd (M : FloatMath)
    (hodd : ∀ x, M.Sin (F64.neg x) = F64.neg (M.Sin x)) (lat1 lon1 lat2 lon2 : F64) :
    haversine M lat1 lon1 lat2 lon2 = haversine M lat2 lon2 lat1 lon1 := by
  unfold haversine
  dsimp only
  have hsq : ∀ d e : F64, (e = F64.neg d ∨ e = d) →
      F64.mul
          (M.Sin (F64.div (F64.div (F64.mul e F64.pi) (F64.ofInt 180)) (F64.ofInt 2)))
          (M.Sin (F64.div (F64.div (F64.mul e F64.pi) (F64.ofInt 180)) (F64.ofInt 2)))
        = F64.mul
          (M.Sin (F64.div (F64.div (F64.mul d F64.pi) (F64.ofInt 180)) (F64.ofInt 2)))
          (M.Sin (F64.div (F64.div (F64.mul d F64.pi) (F64.ofInt 180)) (F64.ofInt 2))) := by
    intro d e h
    rcases h with rfl | rfl
    · rw [haversine_half_sine_neg M hodd, F64.mul_neg_left, F64.mul_neg_right, F64.neg_neg]
    · rfl
  have hpr : ∀ (c : F64) (d e : F64), (e = F64.neg d ∨ e = d) →
      F64.mul
          (F64.mul c
            (M.Sin (F64.div (F64.div (F64.mul e F64.pi) (F64.ofInt 180)) (F64.ofInt 2))))
          (M.Sin (F64.div (F64.div (F64.mul e F64.pi) (F64.ofInt 180)) (F64.ofInt 2)))
        = F64.mul
          (F64.mul c
            (M.Sin (F64.div (F64.div (F64.mul d F64.pi) (F64.ofInt 180)) (F64.ofInt 2))))
          (M.Sin (F64.div (F64.div (F64.mul d F64.pi) (F64.ofInt 180)) (F64.ofInt 2))) := by
    intro c d e h
    rcases h with rfl | rfl
    · rw [haversine_half_sine_neg M hodd, F64.mul_neg_right, F64.mul_neg_right,
        F64.mul_neg_left, F64.neg_neg]
    · rfl
  rw [hsq (F64.sub lat1 lat2) (F64.sub lat2 lat1) (F64.sub_swap lat1 lat2),
    hpr _ (F64.sub lon1 lon2) (F64.sub lon2 lon1) (F64.sub_swap lon1 lon2),
    F64.mul_comm (M.Cos (F64.div (F64.mul lat1 F64.pi) (F64.ofInt 180)))]

/-- C14: for all coordinates, `haversine(lat1, lon1, lat2, lon2)` equals
`haversine(lat2, lon2, lat1, lon1)`, for every implementation of package
`math` whose `Sin` is an odd function (as `math.Sin` is). -/
theorem haversine_symmetric (M : FloatMath)
    (hodd : ∀ x, M.Sin (F64.neg x) = F64.neg (M.Sin x)) (lat1 lon1 lat2 lon2 : F64) :
    haversine M lat1 lon1 lat2 lon2 = haversine M lat2 lon2 lat1 lon1 :=
  haversine_symm_of_odd M hodd lat1 lon1 lat2 lon2

/-- C14 at a concrete input: Tallinn and Tartu with the stand-in functions. -/
theorem haversine_symmetric_witness :
    (∀ x, standInMath.Sin (F64.neg x) = F64.neg (standInMath.Sin x)) ∧
    haversine standInMath (F64.ofRatio 5944 100) (F64.ofRatio 2475 100)
        (F64.ofRatio 5838 100) (F64.ofRatio 2672 100)
      = haversine standInMath (F64.ofRatio 5838 100) (F64.ofRatio 2672 100)
        (F64.ofRatio 5944 100) (F64.ofRatio 2475 100) :=
  ⟨fun _ => rfl,
    haversine_symmetric standInMath (fun _ => rfl) (F64.ofRatio 5944 100)
      (F64.ofRatio 2475 100) (F64.ofRatio 5838 100) (F64.ofRatio 2672 100)⟩

/-! ### A point and itself -/

namespace F64

theorem round_zero (s : Bool) (d : Nat) : round s 0 d = fin s 0 := by
  unfold round
  dsimp only
  rw [Nat.zero_div, ilog2_zero]
  have h : roundHalfEven 0 (d <<< (0 - 52)) <<< (0 - 52) = 0 := by
    unfold roundHalfEven
    simp
  rw [h, if_pos (by decide)]

theorem round_fin_lt {s a : Bool} {n d k : Nat} (h : round s n d = fin a k) :
    k < 1 <<< 2098 := by
  unfold round at h
  dsimp only at h
  split at h
  · injection h with _ hk
    rw [← hk]
    assumption
  · cases h

theorem add_nan_right (x : F64) : add x nan = nan := by
  cases x <;> rfl

theorem mul_nan_right (x : F64) : mul x nan = nan := by
  cases x <;> rfl

theorem sub_self_of_isFinite {x : F64} (h : isFinite x = true) : sub x x = zero := by
  cases x with
  | nan => cases h
  | inf a => cases h
  | fin a k =>
    show (if sgn a k + sgn (!a) k = 0 then fin (a && !a) 0
      else round (decide (sgn a k + sgn (!a) k < 0)) (sgn a k + sgn (!a) k).natAbs 1) = zero
    rw [sgn_not, if_pos (by omega)]
    cases a <;> rfl

theorem mul_fin_zero (s : Bool) (k : Nat) : mul (fin s k) zero = fin s 0 := by
  show round (xor s false) (k * 0) (1 <<< 1074) = fin s 0
  rw [Nat.mul_zero, round_zero]
  cases s <;> rfl

theorem add_zero_signed_zero (s : Bool) : add zero (fin s 0) = zero := by
  cases s <;> rfl

/-- The product of two finite values of magnitude at most 1 is finite. -/
theorem mul_fin_of_le_one {x y : F64} (hx : le (abs x) one = true)
    (hy : le (abs y) one = true) : ∃ s k, mul x y = fin s k := by
  have hone : one = fin false (1 <<< 1074) := by decide
  rw [hone] at hx hy
  cases x with
  | nan => cases hx
  | inf a => cases hx
  | fin a u =>
    cases y with
    | nan => cases hy
    | inf b => cases hy
    | fin b v =>
      have hu : u ≤ 1 <<< 1074 := by
        simpa [abs, le, sgn] using hx
      have hv : v ≤ 1 <<< 1074 := by
        simpa [abs, le, sgn] using hy
      refine ⟨xor a b, _, round_eq_fin _ _ _ ?_⟩
      have hq : u * v / (1 <<< 1074) ≤ 1 <<< 1074 :=
        Nat.div_le_of_le_mul (Nat.mul_le_mul hu hv)
      have c : 2 * (1 <<< 1074) + 1 < 1 <<< 2098 := by decide
      omega

theorem shiftLeft_div_shiftLeft (a b e : Nat) : a <<< e / (b <<< e) = a / b := by
  rw [Nat.shiftLeft_eq, Nat.shiftLeft_eq]
  exact Nat.mul_div_mul_right _ _ (Nat.two_pow_pos e)

theorem mul_nan_left (x : F64) : mul nan x = nan := by
  cases x <;> rfl

/-- Dividing a finite value by 180 gives a finite value. -/
theorem isFinite_div_180 {s a : Bool} {n d : Nat} {k : Nat} (h : round s n d = fin a k) :
    isFinite (div (fin a k) (ofInt 180)) = true := by
  have hk := round_fin_lt h
  have h180 : ofInt 180 = fin false (180 <<< 1074) := by decide
  have hne : (180 <<< 1074 : Nat) ≠ 0 := by decide
  rw [h180]
  show isFinite (if 180 <<< 1074 = 0 then (if k = 0 then nan else inf (xor a false))
    else round (xor a false) (k <<< 1074) (180 <<< 1074)) = true
  rw [if_neg hne, round_eq_fin]
  · rfl
  · rw [shiftLeft_div_shiftLeft]
    have c : 2 ≤ 1 <<< 2098 := by decide
    generalize 1 <<< 2098 = B at hk c
    omega

end F64

theorem standInMath_laws : MathLaws standInMath where
  sin_zero := rfl
  cos_le_one := by
    intro x hx
    show F64.le (F64.abs (if F64.isFinite x then F64.one else F64.nan)) F64.one = true
    rw [hx, if_pos rfl]
    decide
  sqrt_zero := rfl
  sqrt_one := rfl
  atan2_zero_one := rfl

theorem standInMath_nanLaws : MathNaNLaws standInMath where
  cos_inf := by decide
  sqrt_nan := rfl
  atan2_nan := rfl

/-- Every latitude of at most 90 degrees in magnitude, times `π`, is finite. -/
theorem isFinite_mul_pi {lat : F64} (h : F64.le (F64.abs lat) (F64.ofInt 90) = true) :
    F64.isFinite (F64.mul lat F64.pi) = true := by
  have h90 : F64.ofInt 90 = F64.fin false (90 <<< 1074) := by decide
  have hpi : F64.isFinite F64.pi = true ∧ F64.le (F64.abs F64.pi) (F64.ofInt 4) = true := by
    decide
  have h4 : F64.ofInt 4 = F64.fin false (4 <<< 1074) := by decide
  rw [h90] at h
  rw [h4] at hpi
  cases lat with
  | nan => cases h
  | inf a => cases h
  | fin a x =>
    cases hp : F64.pi with
    | nan => rw [hp] at hpi; cases hpi.1
    | inf b => rw [hp] at hpi; cases hpi.1
    | fin b k =>
      rw [hp] at hpi
      have hx : x ≤ 90 <<< 1074 := by
        simpa [F64.abs, F64.le, F64.sgn] using h
      have hk : k ≤ 4 <<< 1074 := by
        simpa [F64.abs, F64.le, F64.sgn] using hpi.2
      have e : F64.mul (F64.fin a x) (F64.fin b k)
          = F64.round (xor a b) (x * k) (1 <<< 1074) := rfl
      rw [e, F64.round_eq_fin]
      · rfl
      · have hq : x * k / (1 <<< 1074) ≤ (90 <<< 1074) * (4 <<< 1074) / (1 <<< 1074) :=
          Nat.div_le_div_right (Nat.mul_le_mul hx hk)
        have c : 2 * ((90 <<< 1074) * (4 <<< 1074) / (1 <<< 1074)) + 1 < 1 <<< 2098 := by
          decide
        omega

theorem haversine_self_of_laws (M : FloatMath) (hM : MathLaws M) (lat lon : F64)
    (hlat : F64.isFinite (F64.mul lat F64.pi) = true) (hlon : F64.isFinite lon = true) :
    haversine M lat lon lat lon = F64.zero := by
  have hpi : F64.isFinite F64.pi = true ∧ F64.pi ≠ F64.fin false 0 ∧ F64.pi ≠ F64.fin true 0 := by
    decide
  have hlatf : F64.isFinite lat = true := by
    cases lat with
    | nan => cases hlat
    | inf a =>
      cases hp : F64.pi with
      | nan => rw [hp] at hpi; cases hpi.1
      | inf b => rw [hp] at hpi; cases hpi.1
      | fin b k =>
        rw [hp] at hlat hpi
        have hk : k ≠ 0 := by
          rintro rfl
          cases b
          · exact hpi.2.1 rfl
          · exact hpi.2.2 rfl
        simp [F64.mul, hk, F64.isFinite] at hlat
    | fin a k => rfl
  have hφ : F64.isFinite (F64.div (F64.mul lat F64.pi) (F64.ofInt 180)) = true := by
    cases lat with
    | nan => cases hlatf
    | inf a => cases hlatf
    | fin a k =>
      cases hp : F64.pi with
      | nan => rw [hp] at hpi; cases hpi.1
      | inf b => rw [hp] at hpi; cases hpi.1
      | fin b j =>
        rw [hp] at hlat
        cases hr : F64.round (xor a b) (k * j) (1 <<< 1074) with
        | nan =>
          have := F64.isNaN_round (xor a b) (k * j) (1 <<< 1074)
          rw [hr] at this
          cases this
        | inf c =>
          have h2 : F64.mul (F64.fin a k) (F64.fin b j) = F64.inf c := hr
          rw [h2] at hlat
          cases hlat
        | fin c u =>
          have h2 : F64.mul (F64.fin a k) (F64.fin b j) = F64.fin c u := hr
          rw [h2]
          exact F64.isFinite_div_180 hr
  have hcos := hM.cos_le_one _ hφ
  obtain ⟨s, k, hcc⟩ := F64.mul_fin_of_le_one hcos hcos
  have hd : ∀ x : F64, F64.isFinite x = true →
      M.Sin (F64.div (F64.div (F64.mul (F64.sub x x) F64.pi) (F64.ofInt 180)) (F64.ofInt 2))
        = F64.zero := by
    intro x hx
    rw [F64.sub_self_of_isFinite hx]
    have : F64.div (F64.div (F64.mul F64.zero F64.pi) (F64.ofInt 180)) (F64.ofInt 2)
        = F64.zero := by decide
    rw [this, hM.sin_zero]
  unfold haversine
  dsimp only
  rw [hd lat hlatf, hd lon hlon, hcc, F64.mul_fin_zero, F64.mul_fin_zero]
  have h1 : F64.mul F64.zero F64.zero = F64.zero := by decide
  have h2 : F64.sub (F64.ofInt 1) F64.zero = F64.one := by decide
  rw [h1, F64.add_zero_signed_zero, hM.sqrt_zero, h2, hM.sqrt_one, hM.atan2_zero_one]
  decide

/-- C16 (as amended): for every point whose longitude is finite and whose
latitude is small enough for `lat * π` not to overflow (every latitude between
-90 and 90 degrees is, by `isFinite_mul_pi`), `haversine(lat, lon, lat, lon)`
is `0`, for every implementation of package `math` that obeys `MathLaws`. -/
theorem haversine_same_point (M : FloatMath) (hM : MathLaws M) (lat lon : F64)
    (hlat : F64.isFinite (F64.mul lat F64.pi) = true) (hlon : F64.isFinite lon = true) :
    haversine M lat lon lat lon = F64.zero :=
  haversine_self_of_laws M hM lat lon hlat hlon

/-- C16 at a concrete input: Tallinn, with the stand-in functions. -/
theorem haversine_same_point_witness :
    F64.isFinite (F64.mul (F64.ofRatio 5944 100) F64.pi) = true ∧
    F64.isFinite (F64.ofRatio 2475 100) = true ∧
    haversine standInMath (F64.ofRatio 5944 100) (F64.ofRatio 2475 100)
        (F64.ofRatio 5944 100) (F64.ofRatio 2475 100) = F64.zero :=
  ⟨by decide, by decide,
    haversine_same_point standInMath standInMath_laws (F64.ofRatio 5944 100)
      (F64.ofRatio 2475 100) (by decide) (by decide)⟩

/-- C16 fails as stated: at latitude `math.MaxFloat64`, a finite `float64`,
`lat * π` overflows to `+Inf`, `Cos(+Inf)` is NaN and the distance from the
point to itself is NaN, for every `math` that obeys `MathNaNLaws` (the
stand-in obeys them and `MathLaws`). -/
theorem haversine_same_point_overflow :
    MathLaws standInMath ∧ MathNaNLaws standInMath ∧
    F64.isFinite F64.maxFloat64 = true ∧ F64.eq F64.nan F64.zero = false ∧
    ∀ M : FloatMath, MathNaNLaws M →
      haversine M F64.maxFloat64 F64.zero F64.maxFloat64 F64.zero = F64.nan := by
  refine ⟨standInMath_laws, standInMath_nanLaws, by decide, by decide, ?_⟩
  intro M hM
  have h1 : F64.div (F64.mul F64.maxFloat64 F64.pi) (F64.ofInt 180) = F64.inf false := by
    decide
  unfold haversine
  dsimp only
  rw [h1, hM.cos_inf]
  rw [F64.mul_nan_left, F64.mul_nan_left, F64.mul_nan_left, F64.add_nan_right, hM.sqrt_nan]
  have h3 : F64.sub (F64.ofInt 1) F64.nan = F64.nan := by decide
  rw [h3, hM.sqrt_nan, hM.atan2_nan, F64.mul_nan_right, F64.mul_nan_right]

/-! ## Rounding: results are binary64 numbers, and rounding is monotone -/

namespace F64

theorem ilog2Aux_lt (steps : List Nat) (n acc : Nat) (hn : n ≠ 0) (hok : halving steps)
    (hlt : n < 2 ^ (steps.sum + 1)) :
    ∃ q, ilog2Aux steps n acc = acc + q ∧ 2 ^ q ≤ n ∧ n < 2 ^ (q + 1) := by
  induction steps generalizing n acc with
  | nil =>
    refine ⟨0, rfl, ?_, ?_⟩
    · simpa using Nat.pos_of_ne_zero hn
    · simpa using hlt
  | cons s ss ih =>
    obtain ⟨hs, hss⟩ := hok
    by_cases h : n >>> s ≠ 0
    · have hlt' : n >>> s < 2 ^ (ss.sum + 1) := by
        rw [Nat.shiftRight_eq_div_pow]
        apply Nat.div_lt_of_lt_mul
        rw [← Nat.pow_add]
        have : s + (ss.sum + 1) = (s :: ss).sum + 1 := by
          rw [List.sum_cons]
          omega
        rw [this]
        exact hlt
      obtain ⟨q, hq, hle, hup⟩ := ih (n >>> s) (acc + s) h hss hlt'
      refine ⟨s + q, ?_, ?_, ?_⟩
      · rw [ilog2Aux, if_pos h, hq, Nat.add_assoc]
      · rw [Nat.shiftRight_eq_div_pow] at hle
        calc 2 ^ (s + q) = 2 ^ s * 2 ^ q := Nat.pow_add 2 s q
          _ ≤ 2 ^ s * (n / 2 ^ s) := Nat.mul_le_mul_left _ hle
          _ ≤ n := Nat.mul_div_le n (2 ^ s)
      · rw [Nat.shiftRight_eq_div_pow] at hup
        calc n < 2 ^ s * (n / 2 ^ s + 1) := Nat.lt_mul_div_succ n (Nat.two_pow_pos s)
          _ ≤ 2 ^ s * 2 ^ (q + 1) := Nat.mul_le_mul_left _ hup
          _ = 2 ^ (s + q + 1) := by rw [← Nat.pow_add, Nat.add_assoc]
    · have h0 : n / 2 ^ s = 0 := by
        rw [← Nat.shiftRight_eq_div_pow]
        exact not_not.1 h
      have hns : n < 2 ^ s := by
        by_contra hge
        have : 1 ≤ n / 2 ^ s := (Nat.one_le_div_iff (Nat.two_pow_pos s)).2 (not_lt.1 hge)
        omega
      have hlt' : n < 2 ^ (ss.sum + 1) :=
        lt_of_lt_of_le hns (Nat.pow_le_pow_right (by norm_num) hs)
      obtain ⟨q, hq, hle, hup⟩ := ih n acc hn hss hlt'
      exact ⟨q, by rw [ilog2Aux, if_neg h, hq], hle, hup⟩

/-- Below `2^16384` the result of `ilog2` is the position of the highest set
bit. -/
theorem lt_two_pow_ilog2 (n : Nat) (hn : n ≠ 0) (hlt : n < 1 <<< 16384) :
    n < 2 ^ (ilog2 n + 1) := by
  have e : (16384 : Nat)
      = ([8192, 4096, 2048, 1024, 512, 256, 128, 64, 32, 16, 8, 4, 2, 1] : List Nat).sum + 1 := by
    decide
  have hok : halving [8192, 4096, 2048, 1024, 512, 256, 128, 64, 32, 16, 8, 4, 2, 1] := by
    simp [halving]
  rw [e, Nat.one_shiftLeft] at hlt
  obtain ⟨q, hq, -, hup⟩ := ilog2Aux_lt _ n 0 hn hok hlt
  unfold ilog2
  rw [hq, Nat.zero_add]
  exact hup

/-- The quotient kept by `round` has at most 53 bits. -/
theorem quotient_lt (q : Nat) (hlt : q < 1 <<< 16384) : q / 2 ^ (ilog2 q - 52) < 2 ^ 53 := by
  apply Nat.div_lt_of_lt_mul
  rw [← Nat.pow_add]
  by_cases hq : q = 0
  · subst hq
    exact Nat.two_pow_pos _
  · refine lt_of_lt_of_le (lt_two_pow_ilog2 q hq hlt) (Nat.pow_le_pow_right (by norm_num) ?_)
    omega

/-- A quotient of `2^16384` or more rounds to at least half of it. -/
theorem half_le_truncate (q t : Nat) (ht : 2 ^ t ≤ q) : q < 2 * (q / 2 ^ t * 2 ^ t) := by
  have hpos : 0 < 2 ^ t := Nat.two_pow_pos t
  have h1 : 1 ≤ q / 2 ^ t := (Nat.one_le_div_iff hpos).2 ht
  have h2 := Nat.div_add_mod q (2 ^ t)
  have h3 := Nat.mod_lt q hpos
  have h4 : 2 ^ t * (q / 2 ^ t) = q / 2 ^ t * 2 ^ t := Nat.mul_comm _ _
  have h5 : 2 ^ t * 1 ≤ 2 ^ t * (q / 2 ^ t) := Nat.mul_le_mul_left _ h1
  omega

/-- What `round` returns as a finite value has at most 53 significant bits. -/
theorem representable_round {s a : Bool} {n d k : Nat} (h : round s n d = fin a k) :
    representable k := by
  have hk := round_fin_lt h
  unfold round at h
  dsimp only at h
  split at h
  swap
  · cases h
  injection h with _ hkk
  rw [← hkk] at hk ⊢
  have hq : n / d < 1 <<< 16384 := by
    by_contra hge
    have hge' : 1 <<< 16384 ≤ n / d := not_lt.1 hge
    have hq0 : n / d ≠ 0 := by
      have : 0 < 1 <<< 16384 := by decide
      omega
    have hs : 2 ^ (ilog2 (n / d) - 52) ≤ n / d :=
      le_trans (Nat.pow_le_pow_right (by norm_num) (Nat.sub_le _ _)) (two_pow_ilog2_le _ hq0)
    have h1 := half_le_truncate (n / d) _ hs
    have h2 : n / d / 2 ^ (ilog2 (n / d) - 52) * 2 ^ (ilog2 (n / d) - 52)
        ≤ roundHalfEven n (d <<< (ilog2 (n / d) - 52)) <<< (ilog2 (n / d) - 52) := by
      rw [Nat.shiftLeft_eq, Nat.shiftLeft_eq, Nat.div_div_eq_div_mul]
      exact Nat.mul_le_mul_right _ (le_roundHalfEven _ _)
    have c : 2 * (1 <<< 2098) ≤ 1 <<< 16384 := by decide
    generalize 1 <<< 16384 = A at hge' c
    generalize 1 <<< 2098 = B at hk c
    omega
  have h53 := quotient_lt (n / d) hq
  generalize ilog2 (n / d) - 52 = t at h53 hk ⊢
  rw [Nat.shiftLeft_eq, Nat.shiftLeft_eq]
  rw [Nat.div_div_eq_div_mul] at h53
  have hle := roundHalfEven_le n (d * 2 ^ t)
  by_cases hlt : roundHalfEven n (d * 2 ^ t) < 2 ^ 53
  · exact ⟨_, t, hlt, rfl⟩
  · have heq : roundHalfEven n (d * 2 ^ t) = 2 ^ 53 := by omega
    refine ⟨2 ^ 52, t + 1, by norm_num, ?_⟩
    rw [heq, Nat.pow_succ]
    ring

theorem valid_round (s : Bool) (n d : Nat) : valid (round s n d) := by
  cases h : round s n d with
  | nan => trivial
  | inf a => trivial
  | fin a k => exact ⟨representable_round h, round_fin_lt h⟩

theorem roundHalfEven_le_of_le_mul (N q d : Nat) (hd : 0 < d) (h : N ≤ q * d) :
    roundHalfEven N d ≤ q := by
  by_cases he : N = q * d
  · rw [he, roundHalfEven_mul _ _ hd]
  · have hlt : N / d < q := (Nat.div_lt_iff_lt_mul hd).2 (lt_of_le_of_ne h he)
    have := roundHalfEven_le N d
    omega

/-- A magnitude of at most 53 bits is a multiple of the unit that `round`
uses for any number near it; otherwise it lies below `2^52` units. -/
theorem representable_cases {K : Nat} (hr : representable K) (N : Nat) :
    (∃ q, K = q * 2 ^ (ilog2 N - 52)) ∨
      (K < 2 ^ 52 * 2 ^ (ilog2 N - 52) ∧ 2 ^ 52 * 2 ^ (ilog2 N - 52) ≤ N) := by
  obtain ⟨m, e, hm, rfl⟩ := hr
  by_cases hte : ilog2 N - 52 ≤ e
  · left
    refine ⟨m * 2 ^ (e - (ilog2 N - 52)), ?_⟩
    rw [Nat.mul_assoc, ← Nat.pow_add]
    congr 2
    omega
  · right
    have hN0 : N ≠ 0 := by
      rintro rfl
      rw [ilog2_zero] at hte
      omega
    have hlog := two_pow_ilog2_le N hN0
    have hL : 52 + (ilog2 N - 52) = ilog2 N := by omega
    constructor
    · calc m * 2 ^ e < 2 ^ 53 * 2 ^ e := Nat.mul_lt_mul_of_pos_right hm (Nat.two_pow_pos e)
        _ = 2 ^ (53 + e) := (Nat.pow_add 2 53 e).symm
        _ ≤ 2 ^ (52 + (ilog2 N - 52)) := Nat.pow_le_pow_right (by norm_num) (by omega)
        _ = 2 ^ 52 * 2 ^ (ilog2 N - 52) := Nat.pow_add 2 52 _
    · rw [← Nat.pow_add, hL]
      exact hlog

/-- Rounding does not cross a binary64 number from below. -/
theorem round_units_le_of_le {N K : Nat} (hr : representable K) (h : N ≤ K) :
    roundHalfEven N (1 <<< (ilog2 (N / 1) - 52)) <<< (ilog2 (N / 1) - 52) ≤ K := by
  rw [Nat.div_one, Nat.shiftLeft_eq, Nat.shiftLeft_eq, Nat.one_mul]
  rcases representable_cases hr N with ⟨q, hq⟩ | ⟨h1, h2⟩
  · rw [hq]
    exact Nat.mul_le_mul_right _
      (roundHalfEven_le_of_le_mul N q _ (Nat.two_pow_pos _) (hq ▸ h))
  · omega

/-- Rounding does not cross a binary64 number from above. -/
theorem le_round_units_of_le {N K : Nat} (hr : representable K) (h : K ≤ N) :
    K ≤ roundHalfEven N (1 <<< (ilog2 (N / 1) - 52)) <<< (ilog2 (N / 1) - 52) := by
  rw [Nat.div_one, Nat.shiftLeft_eq, Nat.shiftLeft_eq, Nat.one_mul]
  have hpos : 0 < 2 ^ (ilog2 N - 52) := Nat.two_pow_pos _
  rcases representable_cases hr N with ⟨q, hq⟩ | ⟨h1, h2⟩
  · rw [hq]
    refine Nat.mul_le_mul_right _ (le_trans ?_ (le_roundHalfEven N _))
    exact (Nat.le_div_iff_mul_le hpos).2 (hq ▸ h)
  · have h3 : 2 ^ 52 ≤ N / 2 ^ (ilog2 N - 52) := (Nat.le_div_iff_mul_le hpos).2 h2
    have h4 := le_roundHalfEven N (2 ^ (ilog2 N - 52))
    have h5 : 2 ^ 52 * 2 ^ (ilog2 N - 52)
        ≤ roundHalfEven N (2 ^ (ilog2 N - 52)) * 2 ^ (ilog2 N - 52) :=
      Nat.mul_le_mul_right _ (le_trans h3 h4)
    omega

/-- A binary64 number is not changed by rounding. -/
theorem round_of_representable (s : Bool) {k : Nat} (hr : representable k)
    (hk : k < 1 <<< 2098) : round s k 1 = fin s k := by
  have h1 := round_units_le_of_le hr (le_refl k)
  have h2 := le_round_units_of_le hr (le_refl k)
  unfold round
  dsimp only
  rw [le_antisymm h1 h2, if_pos hk]

end F64

/-! ## Sums of power losses and the subtraction of the reward -/

namespace F64

theorem valid_zero (s : Bool) : valid (fin s 0) :=
  ⟨⟨0, 0, by norm_num, by simp⟩, by decide⟩

theorem valid_add (x y : F64) : valid (add x y) := by
  cases x with
  | nan => cases y <;> trivial
  | inf a =>
    cases y with
    | nan => trivial
    | inf b =>
      show valid (if a = b then inf a else nan)
      split <;> trivial
    | fin b y => trivial
  | fin a x =>
    cases y with
    | nan => trivial
    | inf b => trivial
    | fin b y =>
      show valid (if sgn a x + sgn b y = 0 then fin (a && b) 0
        else round (decide (sgn a x + sgn b y < 0)) (sgn a x + sgn b y).natAbs 1)
      split
      · exact valid_zero _
      · exact valid_round _ _ _

theorem valid_foldl_add (l : List F64) (init : F64) (h : valid init) :
    valid (l.foldl add init) := by
  induction l generalizing init with
  | nil => exact h
  | cons x xs ih => exact ih _ (valid_add init x)

theorem same_refl (x : F64) : same x x := Or.inl rfl

theorem lt_congr {x x' y y' : F64} (h1 : same x x') (h2 : same y y') :
    lt x y = lt x' y' := by
  rcases h1 with rfl | ⟨a, b, rfl, rfl⟩ <;> rcases h2 with rfl | ⟨c, d, rfl, rfl⟩
  · rfl
  · cases x <;> cases c <;> cases d <;> simp [lt, sgn]
  · cases y <;> cases a <;> cases b <;> simp [lt, sgn]
  · cases a <;> cases b <;> cases c <;> cases d <;> simp [lt, sgn]

theorem le_congr {x x' y y' : F64} (h1 : same x x') (h2 : same y y') :
    le x y = le x' y' := by
  rcases h1 with rfl | ⟨a, b, rfl, rfl⟩ <;> rcases h2 with rfl | ⟨c, d, rfl, rfl⟩
  · rfl
  · cases x <;> cases c <;> cases d <;> simp [le, sgn]
  · cases y <;> cases a <;> cases b <;> simp [le, sgn]
  · cases a <;> cases b <;> cases c <;> cases d <;> simp [le, sgn]

theorem le_trans {a b c : F64} (h1 : le a b = true) (h2 : le b c = true) : le a c = true := by
  cases a with
  | nan => cases b <;> cases h1
  | inf a =>
    cases b with
    | nan => cases h1
    | inf b =>
      cases c with
      | nan => cases h2
      | inf c => revert h1 h2; cases a <;> cases b <;> cases c <;> decide
      | fin c z => revert h1 h2; cases a <;> cases b <;> simp [le]
    | fin b y =>
      cases c with
      | nan => cases h2
      | inf c => revert h1 h2; cases a <;> cases c <;> simp [le]
      | fin c z => exact h1
  | fin a x =>
    cases b with
    | nan => cases h1
    | inf b =>
      cases c with
      | nan => cases h2
      | inf c => revert h1 h2; cases b <;> cases c <;> simp [le]
      | fin c z => revert h1 h2; cases b <;> simp [le]
    | fin b y =>
      cases c with
      | nan => cases h2
      | inf c => exact h2
      | fin c z =>
        simp only [le, decide_eq_true_eq] at h1 h2 ⊢
        omega

theorem lt_of_le_of_lt {a b c : F64} (h1 : le a b = true) (h2 : lt b c = true) :
    lt a c = true := by
  cases a <;> cases b <;> cases c <;> simp_all [le, lt]
  all_goals omega

theorem not_lt_of_le {a b : F64} (h : le a b = true) : lt b a = false := by
  cases a with
  | nan => cases b <;> cases h
  | inf a =>
    cases b with
    | nan => cases h
    | inf b => revert h; cases a <;> cases b <;> decide
    | fin b y => revert h; cases a <;> simp [le, lt]
  | fin a x =>
    cases b with
    | nan => cases h
    | inf b => revert h; cases b <;> simp [le, lt]
    | fin b y =>
      simp only [le, lt, decide_eq_true_eq, decide_eq_false_iff_not] at h ⊢
      omega

/-- Subtracting a zero from a binary64 number gives the same value. -/
theorem sub_signed_zero {t : F64} (hv : valid t) (s : Bool) : same (sub t (fin s 0)) t := by
  cases t with
  | nan => exact Or.inl rfl
  | inf a => exact Or.inl rfl
  | fin a k =>
    have hs0 : sgn (!s) 0 = 0 := by cases s <;> rfl
    have hsub : sub (fin a k) (fin s 0)
        = if sgn a k + sgn (!s) 0 = 0 then fin (a && !s) 0
          else round (decide (sgn a k + sgn (!s) 0 < 0)) (sgn a k + sgn (!s) 0).natAbs 1 := rfl
    rw [hsub, hs0, Int.add_zero]
    by_cases hk : k = 0
    · subst hk
      right
      refine ⟨a && !s, a, ?_, rfl⟩
      rw [if_pos (by cases a <;> rfl)]
    · left
      have hne : sgn a k ≠ 0 := by
        cases a <;> simp [sgn, hk]
      rw [if_neg hne]
      have h1 : decide (sgn a k < 0) = a := by
        cases a <;> simp [sgn]
        all_goals omega
      have h2 : (sgn a k).natAbs = k := by
        cases a <;> simp [sgn]
      rw [h1, h2]
      exact round_of_representable a hv.1 hv.2

theorem round_fin_eq {s c : Bool} {n d k : Nat} (h : round s n d = fin c k) :
    c = s ∧ k = roundHalfEven n (d <<< (ilog2 (n / d) - 52)) <<< (ilog2 (n / d) - 52) := by
  unfold round at h
  dsimp only at h
  split at h
  · injection h with h1 h2
    exact ⟨h1.symm, h2.symm⟩
  · cases h

theorem round_inf_eq {s c : Bool} {n d : Nat} (h : round s n d = inf c) : c = s := by
  unfold round at h
  dsimp only at h
  split at h
  · cases h
  · injection h with h1
    exact h1.symm

/-- A quotient of at least 1 unit does not round to zero. -/
theorem round_ne_zero_of_le (s a : Bool) {n d : Nat} (hd : 0 < d) (h : d ≤ n) :
    round s n d ≠ fin a 0 := by
  intro hr
  obtain ⟨-, hk⟩ := round_fin_eq hr
  have hq : n / d ≠ 0 := by
    have := (Nat.one_le_div_iff hd).2 h
    omega
  have hs : 2 ^ (ilog2 (n / d) - 52) ≤ n / d :=
    Nat.le_trans (Nat.pow_le_pow_right (by norm_num) (Nat.sub_le _ _)) (two_pow_ilog2_le _ hq)
  generalize ilog2 (n / d) - 52 = t at hs hk
  rw [Nat.shiftLeft_eq, Nat.shiftLeft_eq] at hk
  have h1 : 1 ≤ n / (d * 2 ^ t) := by
    rw [← Nat.div_div_eq_div_mul]
    exact (Nat.one_le_div_iff (Nat.two_pow_pos t)).2 hs
  have h2 := le_roundHalfEven n (d * 2 ^ t)
  have h3 : 0 < 2 ^ t := Nat.two_pow_pos t
  rcases Nat.mul_eq_zero.1 hk.symm with h0 | h0 <;> omega

/-- The sign of a rounded value is the sign asked for. -/
theorem round_cases (s : Bool) (n d : Nat) :
    round s n d = inf s ∨ ∃ k, round s n d = fin s k := by
  unfold round
  dsimp only
  split
  · exact Or.inr ⟨_, rfl⟩
  · exact Or.inl rfl

theorem round_div_self (k e : Nat) (hk : 0 < k) (he : 52 ≤ e) (hlog : ilog2 (1 <<< e) = e)
    (hlt : 1 <<< e < 1 <<< 2098) : round false (k <<< e) k = fin false (1 <<< e) := by
  have hq : k <<< e / k = 1 <<< e := by
    rw [Nat.shiftLeft_eq, Nat.one_shiftLeft, Nat.mul_comm]
    exact Nat.mul_div_cancel _ hk
  unfold round
  dsimp only
  rw [hq, hlog]
  have h1 : k <<< e = 2 ^ 52 * (k <<< (e - 52)) := by
    rw [Nat.shiftLeft_eq, Nat.shiftLeft_eq]
    have : 2 ^ e = 2 ^ 52 * 2 ^ (e - 52) := by
      rw [← Nat.pow_add]
      congr 1
      omega
    rw [this]
    ring
  have hpos : 0 < k <<< (e - 52) := by
    rw [Nat.shiftLeft_eq]
    exact Nat.mul_pos hk (Nat.two_pow_pos _)
  have h2 : roundHalfEven (k <<< e) (k <<< (e - 52)) = 2 ^ 52 := by
    rw [h1]
    exact roundHalfEven_mul _ _ hpos
  have h3 : (2 ^ 52) <<< (e - 52) = 1 <<< e := by
    rw [Nat.shiftLeft_eq, Nat.one_shiftLeft, ← Nat.pow_add]
    congr 1
    omega
  rw [h2, h3, if_pos hlt]

/-- The quotient `n / n` of a positive 64-bit count is exactly 1. -/
theorem div_ofInt_self (n : Int) (h0 : 0 < n) (hn : n.natAbs ≤ 1 <<< 63) :
    div (ofInt n) (ofInt n) = one := by
  obtain ⟨k, hk, hlo, -⟩ := ofInt_eq_fin n hn (by omega)
  have hk0 : k ≠ 0 := by
    have : 0 < (1 : Nat) <<< 1073 := by decide
    omega
  have hone : one = fin false (1 <<< 1074) := by decide
  rw [hk, hone]
  show (if k = 0 then (if k = 0 then nan else inf (xor (decide (n < 0)) (decide (n < 0))))
    else round (xor (decide (n < 0)) (decide (n < 0))) (k <<< 1074) k) = _
  rw [if_neg hk0, Bool.xor_self]
  exact round_div_self k 1074 (Nat.pos_of_ne_zero hk0) (by norm_num) (by decide) (by decide)

end F64

/-! ## The optimiser with weight 0 -/

namespace F64

theorem eq_zero_iff {w : F64} (h : eq w zero = true) : ∃ s, w = fin s 0 := by
  cases w with
  | nan => cases h
  | inf a => cases h
  | fin a k =>
    refine ⟨a, ?_⟩
    have : sgn a k = sgn false 0 := by simpa [eq, zero] using h
    cases a <;> simp [sgn] at this <;> rw [this]

/-- The fraction of good gears: a count over a positive 64-bit count is a
finite value with sign `+`. -/
theorem div_count (cnt len : Nat) (hlen : 0 < len) (hb : len < 2 ^ 63) (hc : cnt ≤ len) :
    ∃ k, div (ofInt (cnt : Int)) (ofInt (len : Int)) = fin false k := by
  have c63 : (2 : Nat) ^ 63 = 1 <<< 63 := by decide
  have hfin := isFinite_div_ofInt (cnt : Int) (len : Int) (by simp; omega) (by simp; omega)
    (by omega)
  have hs1 : decide ((cnt : Int) < 0) = false := by simp
  have hs2 : decide ((len : Int) < 0) = false := by simp
  have h1 := round_cases (decide ((cnt : Int) < 0)) ((cnt : Int).natAbs <<< 1074) 1
  have h2 := round_cases (decide ((len : Int) < 0)) ((len : Int).natAbs <<< 1074) 1
  rw [hs1] at h1
  rw [hs2] at h2
  have e1 : ofInt (cnt : Int) = round (decide ((cnt : Int) < 0)) ((cnt : Int).natAbs <<< 1074) 1 :=
    rfl
  have e2 : ofInt (len : Int) = round (decide ((len : Int) < 0)) ((len : Int).natAbs <<< 1074) 1 :=
    rfl
  rw [hs1] at e1
  rw [hs2] at e2
  rw [← e1] at h1
  rw [← e2] at h2
  rcases h1 with h1 | ⟨x, h1⟩ <;> rcases h2 with h2 | ⟨y, h2⟩ <;> rw [h1, h2] at hfin ⊢
  · cases hfin
  · cases hfin
  · revert hfin
    show isFinite (fin (xor false false) 0) = true → ∃ k, fin (xor false false) 0 = fin false k
    exact fun _ => ⟨0, rfl⟩
  · by_cases hy : y = 0
    · subst hy
      by_cases hx : x = 0
      · subst hx
        cases hfin
      · have : div (fin false x) (fin false 0) = inf false := by simp [div, hx]
        rw [this] at hfin
        cases hfin
    · have e : div (fin false x) (fin false y) = round false (x <<< 1074) y := by
        simp [div, hy]
      rw [e] at hfin ⊢
      rcases round_cases false (x <<< 1074) y with h | ⟨k, h⟩
      · rw [h] at hfin
        cases hfin
      · exact ⟨k, h⟩

/-- With weight `== 0` the reward `weight * (count / len)` is a zero, whatever
the count. -/
theorem mul_zero_weight {w : F64} {s : Bool} (hw : w = fin s 0) (cnt len : Nat)
    (hlen : 0 < len) (hb : len < 2 ^ 63) (hc : cnt ≤ len) :
    mul w (div (ofInt (cnt : Int)) (ofInt (len : Int))) = fin s 0 := by
  obtain ⟨k, hk⟩ := div_count cnt len hlen hb hc
  rw [hk, hw]
  show round (xor s false) (0 * k) (1 <<< 1074) = fin s 0
  rw [Nat.zero_mul, round_zero]
  cases s <;> rfl

end F64

theorem mapM_option_length {α β : Type} (f : α → Option β) (l : List α) (bs : List β)
    (h : l.mapM f = some bs) : bs.length = l.length := by
  induction l generalizing bs with
  | nil =>
    simp only [List.mapM_nil, Option.pure_def, Option.some.injEq] at h
    rw [← h]
    rfl
  | cons a l ih =>
    rw [List.mapM_cons] at h
    cases hf : f a with
    | none =>
      rw [hf] at h
      cases h
    | some b =>
      rw [hf] at h
      simp only [Option.pure_def, Option.bind_eq_bind, Option.some_bind] at h
      cases hm : l.mapM f with
      | none =>
        rw [hm] at h
        cases h
      | some cs =>
        rw [hm] at h
        simp only [Option.some_bind, Option.some.injEq] at h
        rw [← h, List.length_cons, List.length_cons, ih cs hm]

theorem scoredGears_length {dataPoints : List DataPoint} {chainring : Int}
    {cassette : List Int} {tyre : F64} {chainringPowerLoss : List ChainringPowerLoss}
    {ftpZones : List FTPZone} {gears : List Gear}
    (h : scoredGears dataPoints chainring cassette tyre chainringPowerLoss ftpZones
      = some gears) : gears.length = (dataPoints.filter scored).length :=
  mapM_option_length _ _ _ h

theorem specScore_of_gears {dataPoints : List DataPoint} {chainring : Int}
    {cassette : List Int} {tyre : F64} {chainringPowerLoss : List ChainringPowerLoss}
    {ftpZones : List FTPZone} {gears : List Gear}
    (h : scoredGears dataPoints chainring cassette tyre chainringPowerLoss ftpZones
      = some gears) (goodGears : List Int) (weight : F64) :
    weightedLoss dataPoints chainring cassette tyre chainringPowerLoss ftpZones goodGears
        weight
      = some (F64.sub ((gears.map (fun g => g.PowerLoss)).foldl F64.add F64.zero)
        (F64.mul weight
          (F64.div (F64.ofInt ((gears.countP (fun g => decide (g.Cog ∈ goodGears)) : Nat) : Int))
            (F64.ofInt (dataPoints.length : Int))))) := by
  rw [weightedLoss_eq_specScore]
  unfold specScore
  rw [h]

theorem totalPowerLoss_eq_some {dataPoints : List DataPoint} {chainring : Int}
    {cassette : List Int} {tyre : F64} {chainringPowerLoss : List ChainringPowerLoss}
    {ftpZones : List FTPZone} {t : F64}
    (h : totalPowerLoss dataPoints chainring cassette tyre chainringPowerLoss ftpZones
      = some t) :
    ∃ gears, scoredGears dataPoints chainring cassette tyre chainringPowerLoss ftpZones
        = some gears ∧ t = (gears.map (fun g => g.PowerLoss)).foldl F64.add F64.zero ∧
      F64.valid t := by
  unfold totalPowerLoss at h
  cases hg : scoredGears dataPoints chainring cassette tyre chainringPowerLoss ftpZones with
  | none =>
    rw [hg] at h
    cases h
  | some gears =>
    rw [hg] at h
    simp only [Option.map_some', Option.some.injEq] at h
    refine ⟨gears, rfl, h.symm, ?_⟩
    rw [← h]
    exact F64.valid_foldl_add _ _ (F64.valid_zero false)

theorem countP_le_length_dataPoints {dataPoints : List DataPoint} {chainring : Int}
    {cassette : List Int} {tyre : F64} {chainringPowerLoss : List ChainringPowerLoss}
    {ftpZones : List FTPZone} {gears : List Gear}
    (h : scoredGears dataPoints chainring cassette tyre chainringPowerLoss ftpZones
      = some gears) (p : Gear → Bool) : gears.countP p ≤ dataPoints.length :=
  le_trans (List.countP_le_length p)
    (by rw [scoredGears_length h]; exact List.length_filter_le _ _)

/-- With weight `== 0` the score of a candidate is its total power loss. -/
theorem weightedLoss_zero_weight {dataPoints : List DataPoint} {chainring : Int}
    {cassette : List Int} {tyre : F64} {chainringPowerLoss : List ChainringPowerLoss}
    {ftpZones : List FTPZone} {t : F64} (goodGears : List Int) {weight : F64}
    (hw : F64.eq weight F64.zero = true) (hd : dataPoints ≠ [])
    (hlen : dataPoints.length < 2 ^ 63)
    (h : totalPowerLoss dataPoints chainring cassette tyre chainringPowerLoss ftpZones
      = some t) :
    ∃ w, weightedLoss dataPoints chainring cassette tyre chainringPowerLoss ftpZones
        goodGears weight = some w ∧ F64.same w t := by
  obtain ⟨gears, hg, ht, hv⟩ := totalPowerLoss_eq_some h
  obtain ⟨s, hs⟩ := F64.eq_zero_iff hw
  refine ⟨_, specScore_of_gears hg goodGears weight, ?_⟩
  rw [F64.mul_zero_weight hs _ _ (List.length_pos.2 hd) hlen
    (countP_le_length_dataPoints hg _), ← ht]
  exact F64.sub_signed_zero hv s

/-- With weight `== 0` the score of a candidate does not depend on `goodGears`. -/
theorem weightedLoss_zero_weight_goodGears (dataPoints : List DataPoint) (chainring : Int)
    (cassette : List Int) (tyre : F64) (chainringPowerLoss : List ChainringPowerLoss)
    (ftpZones : List FTPZone) (goodGears goodGears' : List Int) {weight : F64}
    (hw : F64.eq weight F64.zero = true) (hlen : dataPoints.length < 2 ^ 63) :
    weightedLoss dataPoints chainring cassette tyre chainringPowerLoss ftpZones goodGears'
        weight
      = weightedLoss dataPoints chainring cassette tyre chainringPowerLoss ftpZones goodGears
        weight := by
  cases hg : scoredGears dataPoints chainring cassette tyre chainringPowerLoss ftpZones with
  | none =>
    rw [weightedLoss_eq_specScore, weightedLoss_eq_specScore]
    unfold specScore
    rw [hg]
  | some gears =>
    rw [specScore_of_gears hg, specScore_of_gears hg]
    obtain ⟨s, hs⟩ := F64.eq_zero_iff hw
    by_cases hd : dataPoints = []
    · subst hd
      have hnil : gears = [] := by
        have := scoredGears_length hg
        simpa using this
      subst hnil
      rfl
    · rw [F64.mul_zero_weight hs _ _ (List.length_pos.2 hd) hlen
          (countP_le_length_dataPoints hg _),
        F64.mul_zero_weight hs _ _ (List.length_pos.2 hd) hlen
          (countP_le_length_dataPoints hg _)]

/-- C11 (as amended): with weight `== 0`, for a non-empty candidate list and a
non-empty sample list (of fewer than `2^63` samples) in which every candidate's
total power loss is computed without a panic and is below the initial sentinel
`MaxFloat64`, `calculateOptimalChainring` returns the first candidate with
minimal total power loss, and its result is the same for every choice of the
`goodGears` list. -/
theorem calculateOptimalChainring_zero_weight (dataPoints : List DataPoint)
    (possibleChainrings : List Int) (cassette : List Int) (tyre : F64)
    (chainringPowerLoss : List ChainringPowerLoss) (ftpZones : List FTPZone)
    (goodGears : List Int) (weight : F64)
    (hw : F64.eq weight F64.zero = true) (hc : possibleChainrings ≠ [])
    (hd : dataPoints ≠ []) (hlen : dataPoints.length < 2 ^ 63)
    (htot : ∀ c ∈ possibleChainrings, ∃ t,
      totalPowerLoss dataPoints c cassette tyre chainringPowerLoss ftpZones = some t ∧
        F64.lt t F64.maxFloat64 = true) :
    (∃ (i : Nat) (c : Int) (t : F64), possibleChainrings[i]? = some c ∧
      calculateOptimalChainring dataPoints possibleChainrings cassette tyre
        chainringPowerLoss ftpZones goodGears weight = some c ∧
      totalPowerLoss dataPoints c cassette tyre chainringPowerLoss ftpZones = some t ∧
      ∀ (j : Nat) (c' : Int) (t' : F64), possibleChainrings[j]? = some c' →
        totalPowerLoss dataPoints c' cassette tyre chainringPowerLoss ftpZones = some t' →
        F64.le t t' = true ∧ (j < i → F64.lt t t' = true)) ∧
    ∀ goodGears' : List Int,
      calculateOptimalChainring dataPoints possibleChainrings cassette tyre
          chainringPowerLoss ftpZones goodGears' weight
        = calculateOptimalChainring dataPoints possibleChainrings cassette tyre
          chainringPowerLoss ftpZones goodGears weight := by
  constructor
  · have hscore : ∀ c ∈ possibleChainrings, ∃ w,
        weightedLoss dataPoints c cassette tyre chainringPowerLoss ftpZones goodGears weight
          = some w ∧ F64.lt w F64.maxFloat64 = true := by
      intro c hmem
      obtain ⟨t, ht, hlt⟩ := htot c hmem
      obtain ⟨w, hwl, hsame⟩ := weightedLoss_zero_weight goodGears hw hd hlen ht
      exact ⟨w, hwl, by rw [F64.lt_congr hsame (F64.same_refl _), hlt]⟩
    obtain ⟨i, c, w, hi, hres, hwl, hmin⟩ := calculateOptimalChainring_argmin dataPoints
      possibleChainrings cassette tyre chainringPowerLoss ftpZones goodGears weight hc hscore
    obtain ⟨t, ht, -⟩ := htot c (List.getElem?_mem hi)
    obtain ⟨w0, hwl0, hsame⟩ := weightedLoss_zero_weight goodGears hw hd hlen ht
    have hw0 : w0 = w := Option.some.inj (hwl0.symm.trans hwl)
    subst hw0
    refine ⟨i, c, t, hi, hres, ht, ?_⟩
    intro j c' t' hj ht'
    obtain ⟨w', hwl', hsame'⟩ := weightedLoss_zero_weight goodGears hw hd hlen ht'
    obtain ⟨h1, h2⟩ := hmin j c' w' hj hwl'
    refine ⟨by rw [← F64.le_congr hsame hsame', h1], fun hji => ?_⟩
    rw [← F64.lt_congr hsame hsame']
    exact h2 hji
  · intro goodGears'
    unfold calculateOptimalChainring
    rw [chainringLoop_congr dataPoints dataPoints cassette tyre chainringPowerLoss ftpZones
      goodGears goodGears' weight
      (fun c => weightedLoss_zero_weight_goodGears dataPoints c cassette tyre
        chainringPowerLoss ftpZones goodGears goodGears' hw hlen)]

/-- C11 at a concrete input: `exampleRide` with candidates `[50, 34]`, the
`main2` configuration and weight 0; the totals are 27 and 13.5. -/
theorem calculateOptimalChainring_zero_weight_witness :
    (F64.eq F64.zero F64.zero = true ∧ ([50, 34] : List Int) ≠ [] ∧ exampleRide ≠ [] ∧
      exampleRide.length < 2 ^ 63 ∧
      ∀ c ∈ ([50, 34] : List Int), ∃ t,
        totalPowerLoss exampleRide c main2Cassette main2Tyre main2PowerLoss main2Zones
          = some t ∧ F64.lt t F64.maxFloat64 = true) ∧
    (∃ (i : Nat) (c : Int) (t : F64), ([50, 34] : List Int)[i]? = some c ∧
      calculateOptimalChainring exampleRide [50, 34] main2Cassette main2Tyre
        main2PowerLoss main2Zones main2GoodGears F64.zero = some c ∧
      totalPowerLoss exampleRide c main2Cassette main2Tyre main2PowerLoss main2Zones
        = some t ∧
      ∀ (j : Nat) (c' : Int) (t' : F64), ([50, 34] : List Int)[j]? = some c' →
        totalPowerLoss exampleRide c' main2Cassette main2Tyre main2PowerLoss main2Zones
          = some t' →
        F64.le t t' = true ∧ (j < i → F64.lt t t' = true)) ∧
    ∀ goodGears' : List Int,
      calculateOptimalChainring exampleRide [50, 34] main2Cassette main2Tyre
          main2PowerLoss main2Zones goodGears' F64.zero
        = calculateOptimalChainring exampleRide [50, 34] main2Cassette main2Tyre
          main2PowerLoss main2Zones main2GoodGears F64.zero :=
  have htot : ∀ c ∈ ([50, 34] : List Int), ∃ t,
      totalPowerLoss exampleRide c main2Cassette main2Tyre main2PowerLoss main2Zones
        = some t ∧ F64.lt t F64.maxFloat64 = true := by
    intro c hc
    simp only [List.mem_cons, List.mem_singleton, List.not_mem_nil, or_false] at hc
    rcases hc with rfl | rfl
    · exact ⟨_, rfl, by decide⟩
    · exact ⟨_, rfl, by decide⟩
  ⟨⟨by decide, by decide, by decide, by decide, htot⟩,
    calculateOptimalChainring_zero_weight exampleRide [50, 34] main2Cassette main2Tyre
      main2PowerLoss main2Zones main2GoodGears F64.zero (by decide) (by decide) (by decide)
      (by decide) htot⟩

/-- C11 fails as stated: with weight 0 and a power-loss table shorter than the
cassette the function panics, and with an empty sample list it returns `0`,
which is no candidate (every total power loss is then `0`). -/
theorem calculateOptimalChainring_zero_weight_counterexample :
    F64.eq F64.zero F64.zero = true ∧
    calculateOptimalChainring exampleRide [34, 50] main2Cassette main2Tyre
      (main2PowerLoss.take 2) main2Zones main2GoodGears F64.zero = none ∧
    calculateOptimalChainring [] [34, 50] main2Cassette main2Tyre main2PowerLoss main2Zones
      main2GoodGears F64.zero = some 0 ∧
    totalPowerLoss [] 34 main2Cassette main2Tyre main2PowerLoss main2Zones = some F64.zero ∧
    totalPowerLoss [] 50 main2Cassette main2Tyre main2PowerLoss main2Zones = some F64.zero :=
  ⟨by decide, by decide, by decide, by decide, by decide⟩

/-! ## The end-to-end scenario with candidates 34 and 50 -/

namespace F64

theorem round_of_units_lt (s : Bool) (n d : Nat)
    (h : roundHalfEven n (d <<< (ilog2 (n / d) - 52)) <<< (ilog2 (n / d) - 52) < 1 <<< 2098) :
    round s n d
      = fin s (roundHalfEven n (d <<< (ilog2 (n / d) - 52)) <<< (ilog2 (n / d) - 52)) := by
  unfold round
  dsimp only
  rw [if_pos h]

theorem le_fin_false {u x : Nat} (h : u ≤ x) : le (fin false u) (fin false x) = true := by
  simp [le, sgn, h]

theorem le_fin_true {k x : Nat} (h : x ≤ k) : le (fin true k) (fin true x) = true := by
  simp [le, sgn, h]

theorem le_fin_true_false (k x : Nat) : le (fin true k) (fin false x) = true := by
  simp only [le, sgn, decide_eq_true_eq]
  simp
  omega

/-- Subtracting a positive value from a binary64 number below `MaxFloat64`
does not increase it. -/
theorem sub_pos_le {t w : F64} (hv : valid t)
    (hw : w = inf false ∨ ∃ y, y ≠ 0 ∧ w = fin false y) (ht : lt t maxFloat64 = true) :
    le (sub t w) t = true := by
  cases t with
  | nan => cases ht
  | inf a =>
    have ha : a = true := by
      cases a
      · cases ht
      · rfl
    subst ha
    rcases hw with rfl | ⟨y, -, rfl⟩ <;> rfl
  | fin a x =>
    rcases hw with rfl | ⟨y, hy, rfl⟩
    · rfl
    · have hsub : sub (fin a x) (fin false y)
          = if sgn a x + sgn true y = 0 then fin (a && true) 0
            else round (decide (sgn a x + sgn true y < 0)) (sgn a x + sgn true y).natAbs 1 :=
        rfl
      have hsy : sgn true y = -(y : Int) := rfl
      rw [hsub, hsy]
      by_cases h0 : sgn a x + -(y : Int) = 0
      · rw [if_pos h0]
        cases a
        · simp [le, sgn]
        · simp only [sgn, if_true] at h0
          omega
      · rw [if_neg h0]
        by_cases hneg : sgn a x + -(y : Int) < 0
        · rw [decide_eq_true hneg]
          rcases round_cases true (sgn a x + -(y : Int)).natAbs 1 with h | ⟨k, h⟩
          · rw [h]
            rfl
          · rw [h]
            cases a
            · exact le_fin_true_false k x
            · obtain ⟨-, hk⟩ := round_fin_eq h
              have hx : x ≤ (sgn true x + -(y : Int)).natAbs := by
                simp only [sgn, if_true]
                omega
              have := le_round_units_of_le hv.1 hx
              rw [← hk] at this
              exact le_fin_true this
        · have hpos : 0 < sgn a x + -(y : Int) := by omega
          rw [decide_eq_false hneg]
          cases a
          · have hx : (sgn false x + -(y : Int)).natAbs ≤ x := by
              simp only [sgn] at hpos ⊢
              simp at hpos ⊢
              omega
            have hu := round_units_le_of_le hv.1 hx
            rw [round_of_units_lt _ _ _ (Nat.lt_of_le_of_lt hu hv.2)]
            exact le_fin_false hu
          · simp only [sgn, if_true] at hpos
            omega

theorem pos_cases {w : F64} (h : lt zero w = true) :
    w = inf false ∨ ∃ x, x ≠ 0 ∧ w = fin false x := by
  cases w with
  | nan => cases h
  | inf a =>
    cases a
    · exact Or.inl rfl
    · cases h
  | fin a x =>
    right
    cases a
    · refine ⟨x, ?_, rfl⟩
      rintro rfl
      cases h
    · exfalso
      have : sgn false 0 < sgn true x := by simpa [lt, zero] using h
      simp [sgn] at this
      omega

theorem mul_one_of_pos {w : F64} (h : lt zero w = true) :
    mul w one = inf false ∨ ∃ y, y ≠ 0 ∧ mul w one = fin false y := by
  have hone : one = fin false (1 <<< 1074) := by decide
  rw [hone]
  rcases pos_cases h with rfl | ⟨x, hx, rfl⟩
  · left
    decide
  · have e : mul (fin false x) (fin false (1 <<< 1074))
        = round false (x * (1 <<< 1074)) (1 <<< 1074) := rfl
    rw [e]
    rcases round_cases false (x * (1 <<< 1074)) (1 <<< 1074) with h1 | ⟨k, h1⟩
    · exact Or.inl h1
    · right
      refine ⟨k, ?_, h1⟩
      rintro rfl
      exact round_ne_zero_of_le false false (by decide)
        (Nat.le_mul_of_pos_left _ (Nat.pos_of_ne_zero hx)) h1

theorem mul_zero_of_pos {w : F64} (h : lt zero w = true) :
    mul w zero = nan ∨ mul w zero = zero := by
  rcases pos_cases h with rfl | ⟨x, -, rfl⟩
  · exact Or.inl rfl
  · right
    exact mul_fin_zero false x

/-- No good gear among a positive 64-bit count of samples: the fraction is `+0`. -/
theorem div_zero_count (len : Nat) (hlen : 0 < len) (hb : len < 2 ^ 63) :
    div (ofInt ((0 : Nat) : Int)) (ofInt (len : Int)) = zero := by
  have c63 : (2 : Nat) ^ 63 = 1 <<< 63 := by decide
  obtain ⟨y, hy, hlo, -⟩ := ofInt_eq_fin (len : Int) (by simp; omega) (by omega)
  have hy0 : y ≠ 0 := by
    have : 0 < (1 : Nat) <<< 1073 := by decide
    omega
  have hs : decide ((len : Int) < 0) = false := by simp
  have h0 : ofInt ((0 : Nat) : Int) = fin false 0 := by decide
  rw [hy, hs, h0]
  have e : div (fin false 0) (fin false y) = round false (0 <<< 1074) y := by
    simp [div, hy0]
  rw [e, Nat.zero_shiftLeft, round_zero]
  rfl

theorem pos_ne_zero {x : F64} (h : lt zero x = true) :
    eq x zero = false ∧ isNaN x = false := by
  rcases pos_cases h with rfl | ⟨k, hk, rfl⟩
  · exact ⟨rfl, rfl⟩
  · refine ⟨?_, rfl⟩
    simp [eq, zero, sgn, hk]

end F64

theorem mapM_option_forall {α β : Type} (f : α → Option β) (P : β → Prop) (l : List α)
    (h : ∀ a ∈ l, ∃ b, f a = some b ∧ P b) : ∃ bs, l.mapM f = some bs ∧ ∀ b ∈ bs, P b := by
  induction l with
  | nil => exact ⟨[], rfl, fun _ hb => by cases hb⟩
  | cons a l ih =>
    obtain ⟨b, hb, hP⟩ := h a (List.mem_cons_self a l)
    obtain ⟨bs, hbs, hall⟩ := ih (fun a' ha' => h a' (List.mem_cons_of_mem a ha'))
    refine ⟨b :: bs, ?_, ?_⟩
    · rw [List.mapM_cons, hb]
      simp only [Option.pure_def, Option.bind_eq_bind, Option.some_bind]
      rw [hbs]
      rfl
    · intro b' hb'
      rcases List.mem_cons.1 hb' with rfl | hmem
      · exact hP
      · exact hall b' hmem

/-- When every sample is scored and `calculateGear` selects a gear with property
`P` for each of them, the gears of the candidate all have `P`. -/
theorem scoredGears_forall (P : Gear → Prop) (dataPoints : List DataPoint) (chainring : Int)
    (cassette : List Int) (tyre : F64) (chainringPowerLoss : List ChainringPowerLoss)
    (ftpZones : List FTPZone)
    (hs : ∀ p ∈ dataPoints, scored p = true)
    (h : ∀ p ∈ dataPoints, ∃ g, calculateGear p.Speed (F64.ofInt p.Cad) chainring cassette
      tyre chainringPowerLoss ftpZones = some g ∧ P g) :
    ∃ gears, scoredGears dataPoints chainring cassette tyre chainringPowerLoss ftpZones
        = some gears ∧ gears.length = dataPoints.length ∧ ∀ g ∈ gears, P g := by
  have hfilter : dataPoints.filter scored = dataPoints := List.filter_eq_self.2 hs
  obtain ⟨gears, hg, hall⟩ := mapM_option_forall (fun point : DataPoint =>
    calculateGear point.Speed (F64.ofInt point.Cad) chainring cassette tyre
      chainringPowerLoss ftpZones) P dataPoints h
  have hsg : scoredGears dataPoints chainring cassette tyre chainringPowerLoss ftpZones
      = some gears := by
    unfold scoredGears
    rw [hfilter]
    exact hg
  refine ⟨gears, hsg, ?_, hall⟩
  rw [scoredGears_length hsg, hfilter]

theorem F64.lt_nan_left (x : F64) : F64.lt F64.nan x = false := by
  cases x <;> rfl

theorem F64.lt_inf_true_right (x : F64) : F64.lt x (F64.inf true) = false := by
  cases x with
  | nan => rfl
  | inf a => cases a <;> rfl
  | fin a k => rfl

/-- With an infinite reward the score of a candidate is `-Inf` or NaN. -/
theorem F64.sub_inf_cases (t : F64) :
    F64.sub t (F64.inf false) = F64.inf true ∨ F64.sub t (F64.inf false) = F64.nan := by
  cases t with
  | nan => exact Or.inr rfl
  | inf a => cases a <;> simp [F64.sub, F64.add, F64.neg]
  | fin a k => exact Or.inl rfl

/-- The candidate loop on `[34, 50]` when every sample is scored, cog 13 (a good
gear) is selected under 34 and no good gear under 50: the score of 34 is its
total power loss minus `weight * 1`, the score of 50 its total power loss, and
34 is returned exactly when its score is below `MaxFloat64` and the total power
loss of 50 is not below it. -/
theorem calculateOptimalChainring_of_totals (dataPoints : List DataPoint)
    (cassette : List Int) (tyre : F64) (chainringPowerLoss : List ChainringPowerLoss)
    (ftpZones : List FTPZone) (goodGears : List Int) (weight : F64)
    (hd : dataPoints ≠ []) (hlen : dataPoints.length < 2 ^ 63)
    (hw : F64.lt F64.zero weight = true) (hgood : (13 : Int) ∈ goodGears)
    (hscored : ∀ p ∈ dataPoints, scored p = true)
    (h34 : ∀ p ∈ dataPoints, ∃ g, calculateGear p.Speed (F64.ofInt p.Cad) 34 cassette tyre
      chainringPowerLoss ftpZones = some g ∧ g.Cog = 13)
    (h50 : ∀ p ∈ dataPoints, ∃ g, calculateGear p.Speed (F64.ofInt p.Cad) 50 cassette tyre
      chainringPowerLoss ftpZones = some g ∧ g.Cog ∉ goodGears) :
    ∃ t34 t50 : F64,
      totalPowerLoss dataPoints 34 cassette tyre chainringPowerLoss ftpZones = some t34 ∧
      totalPowerLoss dataPoints 50 cassette tyre chainringPowerLoss ftpZones = some t50 ∧
      (calculateOptimalChainring dataPoints [34, 50] cassette tyre chainringPowerLoss ftpZones
          goodGears weight = some 34 ↔
        F64.lt (F64.sub t34 (F64.mul weight F64.one)) F64.maxFloat64 = true ∧
          F64.lt t50 (F64.sub t34 (F64.mul weight F64.one)) = false) := by
  have hpos : 0 < dataPoints.length := List.length_pos.2 hd
  have c63 : (2 : Nat) ^ 63 = 1 <<< 63 := by decide
  obtain ⟨gears34, hg34, hl34, hall34⟩ := scoredGears_forall (fun g => g.Cog = 13) dataPoints
    34 cassette tyre chainringPowerLoss ftpZones hscored h34
  obtain ⟨gears50, hg50, hl50, hall50⟩ := scoredGears_forall (fun g => g.Cog ∉ goodGears)
    dataPoints 50 cassette tyre chainringPowerLoss ftpZones hscored h50
  have hc34 : gears34.countP (fun g => decide (g.Cog ∈ goodGears)) = dataPoints.length := by
    rw [← hl34, List.countP_eq_length]
    intro g hgm
    simp [hall34 g hgm, hgood]
  have hc50 : gears50.countP (fun g => decide (g.Cog ∈ goodGears)) = 0 := by
    rw [List.countP_eq_zero]
    intro g hgm
    simp [hall50 g hgm]
  have hwl34 := specScore_of_gears hg34 goodGears weight
  have hwl50 := specScore_of_gears hg50 goodGears weight
  rw [hc34, F64.div_ofInt_self _ (by omega) (by simp; omega)] at hwl34
  rw [hc50, F64.div_zero_count _ hpos hlen] at hwl50
  have ht34 : totalPowerLoss dataPoints 34 cassette tyre chainringPowerLoss ftpZones
      = some ((gears34.map (fun g => g.PowerLoss)).foldl F64.add F64.zero) := by
    unfold totalPowerLoss
    rw [hg34]
    rfl
  have ht50 : totalPowerLoss dataPoints 50 cassette tyre chainringPowerLoss ftpZones
      = some ((gears50.map (fun g => g.PowerLoss)).foldl F64.add F64.zero) := by
    unfold totalPowerLoss
    rw [hg50]
    rfl
  have hv50 := F64.valid_foldl_add (gears50.map (fun g => g.PowerLoss)) F64.zero
    (F64.valid_zero false)
  refine ⟨_, _, ht34, ht50, ?_⟩
  generalize (gears34.map (fun g => g.PowerLoss)).foldl F64.add F64.zero = t34 at hwl34
  generalize (gears50.map (fun g => g.PowerLoss)).foldl F64.add F64.zero = t50
    at hwl50 hv50
  -- the score of 50 compares like its total, once the score of 34 is below the sentinel
  have hcmp : F64.lt (F64.sub t34 (F64.mul weight F64.one)) F64.maxFloat64 = true →
      F64.lt (F64.sub t50 (F64.mul weight F64.zero)) (F64.sub t34 (F64.mul weight F64.one))
        = F64.lt t50 (F64.sub t34 (F64.mul weight F64.one)) := by
    intro hA
    rcases F64.pos_cases hw with rfl | ⟨x, -, rfl⟩
    · have e1 : F64.mul (F64.inf false) F64.one = F64.inf false := by decide
      have e0 : F64.sub t50 (F64.mul (F64.inf false) F64.zero) = F64.nan :=
        F64.add_nan_right t50
      rw [e1] at hA ⊢
      rw [e0, F64.lt_nan_left]
      rcases F64.sub_inf_cases t34 with h | h
      · rw [h, F64.lt_inf_true_right]
      · rw [h] at hA
        cases hA
    · have hsame : F64.same (F64.sub t50 (F64.fin false 0)) t50 :=
        F64.sub_signed_zero hv50 false
      rw [F64.mul_fin_zero, F64.lt_congr hsame (F64.same_refl _)]
  have hloop : calculateOptimalChainring dataPoints [34, 50] cassette tyre chainringPowerLoss
      ftpZones goodGears weight
      = some (if F64.lt (F64.sub t34 (F64.mul weight F64.one)) F64.maxFloat64 = true then
          (if F64.lt (F64.sub t50 (F64.mul weight F64.zero))
              (F64.sub t34 (F64.mul weight F64.one)) = true then 50 else 34)
        else (if F64.lt (F64.sub t50 (F64.mul weight F64.zero)) F64.maxFloat64 = true then 50
          else 0)) := by
    unfold calculateOptimalChainring
    simp only [chainringLoop, hwl34, hwl50]
    split_ifs <;> rfl
  rw [hloop]
  by_cases hA : F64.lt (F64.sub t34 (F64.mul weight F64.one)) F64.maxFloat64 = true
  · rw [if_pos hA, ← hcmp hA]
    by_cases hC : F64.lt (F64.sub t50 (F64.mul weight F64.zero))
        (F64.sub t34 (F64.mul weight F64.one)) = true
    · rw [if_pos hC]
      simp [hC]
    · rw [if_neg hC]
      simp only [Bool.not_eq_true] at hC
      simp [hA, hC]
  · rw [if_neg hA]
    constructor
    · intro h
      exfalso
      split at h <;> simp at h
    · intro h
      exact absurd h.1 hA

/-- C12 (as amended): for candidates `[34, 50]`, a non-empty sample stream with
equal positive power in which every sample's required ratio equals `34/13`
exactly (cog 13, a preferred cog of a cassette of distinct cogs, is then
selected under chainring 34) and a non-preferred cog is selected under
chainring 50, and weight `> 0`, for every power-loss table aligned with the
cassette and every zone list: `calculateOptimalChainring` returns 34 exactly
when the total power loss under chainring 34 minus the reward `weight * 1`
(the score of 34) is below `MaxFloat64` and the total power loss under
chainring 50 is not below it. -/
theorem calculateOptimalChainring_scenario (dataPoints : List DataPoint)
    (cassette : List Int) (tyre : F64) (chainringPowerLoss : List ChainringPowerLoss)
    (ftpZones : List FTPZone) (goodGears : List Int) (weight power : F64) (j : Nat)
    (hd : dataPoints ≠ []) (hlen : dataPoints.length < 2 ^ 63)
    (hw : F64.lt F64.zero weight = true)
    (hnodup : cassette.Nodup)
    (hcogs : ∀ cog ∈ cassette, cog ≠ 0 ∧ cog.natAbs < 2 ^ 52)
    (hj : cassette[j]? = some 13) (hgood : (13 : Int) ∈ goodGears)
    (htbl : chainringPowerLoss.length = cassette.length)
    (hpower : F64.lt F64.zero power = true)
    (hsamples : ∀ p ∈ dataPoints, p.Power = power ∧
      F64.eq (F64.ofInt p.Cad) F64.zero = false ∧
      F64.eq
        (F64.div (F64.div p.Speed F64.c3_6)
          (F64.div (F64.mul (F64.ofInt p.Cad) tyre) (F64.ofInt 60000)))
        (F64.div (F64.ofInt 34) (F64.ofInt 13)) = true)
    (h50 : ∀ p ∈ dataPoints, ∃ g, calculateGear p.Speed (F64.ofInt p.Cad) 50 cassette tyre
      chainringPowerLoss ftpZones = some g ∧ g.Cog ∉ goodGears) :
    ∃ t34 t50 : F64,
      totalPowerLoss dataPoints 34 cassette tyre chainringPowerLoss ftpZones = some t34 ∧
      totalPowerLoss dataPoints 50 cassette tyre chainringPowerLoss ftpZones = some t50 ∧
      (calculateOptimalChainring dataPoints [34, 50] cassette tyre chainringPowerLoss ftpZones
          goodGears weight = some 34 ↔
        F64.lt (F64.sub t34 (F64.mul weight F64.one)) F64.maxFloat64 = true ∧
          F64.lt t50 (F64.sub t34 (F64.mul weight F64.one)) = false) := by
  have hscored : ∀ p ∈ dataPoints, scored p = true := by
    intro p hp
    obtain ⟨hpw, -, -⟩ := hsamples p hp
    obtain ⟨h1, h2⟩ := F64.pos_ne_zero hpower
    simp [scored, hpw, h1, h2]
  have h34 : ∀ p ∈ dataPoints, ∃ g, calculateGear p.Speed (F64.ofInt p.Cad) 34 cassette tyre
      chainringPowerLoss ftpZones = some g ∧ g.Cog = 13 := by
    intro p hp
    obtain ⟨-, hcad, hexact⟩ := hsamples p hp
    obtain ⟨g, hg, -, hcog, -⟩ := calculateGear_exact_of_nodup p.Speed (F64.ofInt p.Cad) 34
      cassette tyre chainringPowerLoss ftpZones j 13 hnodup hcogs (by decide) (by decide)
      hcad htbl hj hexact
    exact ⟨g, hg, hcog⟩
  exact calculateOptimalChainring_of_totals dataPoints cassette tyre chainringPowerLoss
    ftpZones goodGears weight hd hlen hw hgood hscored h34 h50

/-- C12 at a concrete input: `slowRide` with the `main2` configuration and
weight 10; the totals are 27 and 21, the score of 34 is `27 - 10 = 17`, not
above 21, and 34 is returned. -/
theorem calculateOptimalChainring_scenario_witness :
    (slowRide ≠ [] ∧ F64.lt F64.zero (F64.ofInt 10) = true ∧ main2Cassette[2]? = some 13 ∧
      (13 : Int) ∈ main2GoodGears ∧ main2PowerLoss.length = main2Cassette.length ∧
      (∀ p ∈ slowRide, p.Power = F64.ofInt 200 ∧
        F64.eq (F64.ofInt p.Cad) F64.zero = false ∧
        F64.eq
          (F64.div (F64.div p.Speed F64.c3_6)
            (F64.div (F64.mul (F64.ofInt p.Cad) main2Tyre) (F64.ofInt 60000)))
          (F64.div (F64.ofInt 34) (F64.ofInt 13)) = true) ∧
      totalPowerLoss slowRide 34 main2Cassette main2Tyre main2PowerLoss main2Zones
        = some (F64.ofInt 27) ∧
      totalPowerLoss slowRide 50 main2Cassette main2Tyre main2PowerLoss main2Zones
        = some (F64.ofInt 21) ∧
      F64.sub (F64.ofInt 27) (F64.mul (F64.ofInt 10) F64.one) = F64.ofInt 17 ∧
      calculateOptimalChainring slowRide [34, 50] main2Cassette main2Tyre main2PowerLoss
        main2Zones main2GoodGears (F64.ofInt 10) = some 34) ∧
    ∃ t34 t50 : F64,
      totalPowerLoss slowRide 34 main2Cassette main2Tyre main2PowerLoss main2Zones
        = some t34 ∧
      totalPowerLoss slowRide 50 main2Cassette main2Tyre main2PowerLoss main2Zones
        = some t50 ∧
      (calculateOptimalChainring slowRide [34, 50] main2Cassette main2Tyre main2PowerLoss
          main2Zones main2GoodGears (F64.ofInt 10) = some 34 ↔
        F64.lt (F64.sub t34 (F64.mul (F64.ofInt 10) F64.one)) F64.maxFloat64 = true ∧
          F64.lt t50 (F64.sub t34 (F64.mul (F64.ofInt 10) F64.one)) = false) :=
  have hs : ∀ p ∈ slowRide, p.Power = F64.ofInt 200 ∧
      F64.eq (F64.ofInt p.Cad) F64.zero = false ∧
      F64.eq
        (F64.div (F64.div p.Speed F64.c3_6)
          (F64.div (F64.mul (F64.ofInt p.Cad) main2Tyre) (F64.ofInt 60000)))
        (F64.div (F64.ofInt 34) (F64.ofInt 13)) = true := by decide
  ⟨⟨by decide, by decide, by decide, by decide, by decide, hs, by decide, by decide,
      by decide, by decide⟩,
    calculateOptimalChainring_scenario slowRide main2Cassette main2Tyre main2PowerLoss
      main2Zones main2GoodGears (F64.ofInt 10) (F64.ofInt 200) 2 (by decide) (by decide)
      (by decide) (by decide) (by decide) (by decide) (by decide) (by decide) (by decide) hs
      (by
        intro p hp
        simp only [slowRide, List.mem_cons, List.mem_singleton, List.not_mem_nil,
          or_false] at hp
        rcases hp with rfl
        exact ⟨_, rfl, by decide⟩)⟩

/-- C12 fails as stated: on `slowRide` (one sample of 200 W at cadence 30 whose
required ratio is exactly `34/13`) with the table, zones, good gears and weight
1 of `main2`, cog 13 is selected under 34 and cog 19 under 50, the scores are
`27 - 1` and `21`, and 50 is returned. -/
theorem calculateOptimalChainring_scenario_counterexample :
    slowRide ≠ [] ∧ F64.lt F64.zero (F64.ofInt 1) = true ∧
    main2PowerLoss.length = main2Cassette.length ∧
    (∀ p ∈ slowRide, p.Power = F64.ofInt 200 ∧ F64.lt F64.zero p.Power = true ∧
      F64.eq
        (F64.div (F64.div p.Speed F64.c3_6)
          (F64.div (F64.mul (F64.ofInt p.Cad) main2Tyre) (F64.ofInt 60000)))
        (F64.div (F64.ofInt 34) (F64.ofInt 13)) = true ∧
      (calculateGear p.Speed (F64.ofInt p.Cad) 34 main2Cassette main2Tyre main2PowerLoss
        main2Zones).map (fun g => g.Cog) = some 13 ∧
      (calculateGear p.Speed (F64.ofInt p.Cad) 50 main2Cassette main2Tyre main2PowerLoss
        main2Zones).map (fun g => g.Cog) = some 19) ∧
    (13 : Int) ∈ main2GoodGears ∧ (19 : Int) ∉ main2GoodGears ∧
    totalPowerLoss slowRide 34 main2Cassette main2Tyre main2PowerLoss main2Zones
      = some (F64.ofInt 27) ∧
    totalPowerLoss slowRide 50 main2Cassette main2Tyre main2PowerLoss main2Zones
      = some (F64.ofInt 21) ∧
    calculateOptimalChainring slowRide [34, 50] main2Cassette main2Tyre main2PowerLoss
      main2Zones main2GoodGears (F64.ofInt 1) = some 50 :=
  ⟨by decide, by decide, by decide, by decide, by decide, by decide, by decide, by decide,
    by decide⟩

/-! ## The zone table of `main2` -/

namespace F64

theorem lt_of_lt_of_le {a b c : F64} (h1 : lt a b = true) (h2 : le b c = true) :
    lt a c = true := by
  cases a with
  | nan => cases b <;> cases h1
  | inf a =>
    cases b with
    | nan => cases h1
    | inf b =>
      cases c with
      | nan => cases h2
      | inf c => revert h1 h2; cases a <;> cases b <;> cases c <;> decide
      | fin c z => revert h1 h2; cases a <;> cases b <;> simp [le, lt]
    | fin b y =>
      cases c with
      | nan => cases h2
      | inf c => revert h1 h2; cases a <;> cases c <;> simp [le, lt]
      | fin c z => exact h1
  | fin a x =>
    cases b with
    | nan => cases h1
    | inf b =>
      cases c with
      | nan => cases h2
      | inf c => revert h1 h2; cases b <;> cases c <;> simp [le, lt]
      | fin c z => revert h1 h2; cases b <;> simp [le, lt]
    | fin b y =>
      cases c with
      | nan => cases h2
      | inf c => exact h2
      | fin c z =>
        simp only [le, lt, decide_eq_true_eq] at h1 h2 ⊢
        omega

theorem not_le_of_lt {a b : F64} (h : lt a b = true) : le b a = false := by
  cases hle : le b a with
  | false => rfl
  | true =>
    rw [not_lt_of_le hle] at h
    cases h

/-- No value lies below `a` and at or above `b` when `a <= b`. -/
theorem not_in_both {p a b : F64} (h1 : lt p a = true) (h2 : ge p b = true)
    (hab : le a b = true) : False := by
  have h3 : le a p = true := le_trans hab h2
  rw [not_lt_of_le h3] at h1
  cases h1

end F64

/-- In the zone table of `main2` every zone ends where each later zone starts,
or before, except "Tempo" against "Sweet Spot". -/
theorem main2Zones_ordered :
    ∀ i j : Fin main2Zones.length, i < j → ¬ (i.val = 2 ∧ j.val = 3) →
      F64.le (main2Zones.get i).Max (main2Zones.get j).Min = true := by
  decide

theorem main2Zones_two_zones (power : F64) (i j : Nat) (zi zj : FTPZone) (hij : i < j)
    (hi : main2Zones[i]? = some zi) (hj : main2Zones[j]? = some zj)
    (h1 : (F64.ge power zi.Min && F64.lt power zi.Max) = true)
    (h2 : (F64.ge power zj.Min && F64.lt power zj.Max) = true) :
    i = 2 ∧ j = 3 := by
  obtain ⟨hi', ei⟩ := List.getElem?_eq_some.1 hi
  obtain ⟨hj', ej⟩ := List.getElem?_eq_some.1 hj
  rw [Bool.and_eq_true] at h1 h2
  by_contra hne
  have hle := main2Zones_ordered ⟨i, hi'⟩ ⟨j, hj'⟩ hij hne
  have e1 : main2Zones.get ⟨i, hi'⟩ = zi := ei
  have e2 : main2Zones.get ⟨j, hj'⟩ = zj := ej
  rw [e1, e2] at hle
  exact F64.not_in_both h1.2 h2.1 hle

/-- C18 (as amended): in the zone table of `main2` every zone's `Min` equals
the previous zone's `Max` except that of "Sweet Spot", whose `Min` 279 lies
below the `Max` 286 of "Tempo".  A power value that lies in two zones lies in
"Tempo" and "Sweet Spot", is at least 279 and below 286, and gets the
coefficient 0.75 of "Tempo", the first match; and every power value from 279
to below 286 lies in exactly these two zones. -/
theorem main2Zones_contiguous_except_tempo :
    (main2Zones.zip main2Zones.tail).map
        (fun p => (p.1.Zone, p.2.Zone, decide (p.2.Min = p.1.Max)))
      = [("Active Recovery", "Endurance", true), ("Endurance", "Tempo", true),
         ("Tempo", "Sweet Spot", false), ("Sweet Spot", "VO2 max", true),
         ("VO2 max", "Anaerobic capacity", true),
         ("Anaerobic capacity", "Neuromuscular", true)] ∧
    (∀ (power : F64) (i j : Nat) (zi zj : FTPZone), i < j →
      main2Zones[i]? = some zi → main2Zones[j]? = some zj →
      (F64.ge power zi.Min && F64.lt power zi.Max) = true →
      (F64.ge power zj.Min && F64.lt power zj.Max) = true →
      zi.Zone = "Tempo" ∧ zj.Zone = "Sweet Spot" ∧
        F64.ge power (F64.ofInt 279) = true ∧ F64.lt power (F64.ofInt 286) = true ∧
        zoneCoefficient power main2Zones = F64.ofRatio 75 100) ∧
    (∀ power : F64, F64.ge power (F64.ofInt 279) = true →
      F64.lt power (F64.ofInt 286) = true →
      (main2Zones.filter (fun z => F64.ge power z.Min && F64.lt power z.Max)).map
        (fun z => z.Zone) = ["Tempo", "Sweet Spot"]) := by
  have key : ∀ power : F64, F64.ge power (F64.ofInt 279) = true →
      F64.lt power (F64.ofInt 286) = true →
      (F64.ge power (F64.ofInt 0) && F64.lt power (F64.ofInt 174)) = false ∧
      (F64.ge power (F64.ofInt 174) && F64.lt power (F64.ofInt 241)) = false ∧
      (F64.ge power (F64.ofInt 241) && F64.lt power (F64.ofInt 286)) = true ∧
      (F64.ge power (F64.ofInt 279) && F64.lt power (F64.ofInt 333)) = true ∧
      (F64.ge power (F64.ofInt 333) && F64.lt power (F64.ofInt 381)) = false ∧
      (F64.ge power (F64.ofInt 381) && F64.lt power (F64.ofInt 477)) = false ∧
      (F64.ge power (F64.ofInt 477) && F64.lt power (F64.ofInt 2000)) = false := by
    intro power hge hlt
    have hge' : F64.le (F64.ofInt 279) power = true := hge
    have lo : ∀ m : F64, F64.le m (F64.ofInt 279) = true → F64.lt power m = false :=
      fun m hm => F64.not_lt_of_le (F64.le_trans hm hge')
    have hi : ∀ m : F64, F64.le (F64.ofInt 286) m = true → F64.ge power m = false :=
      fun m hm => F64.not_le_of_lt (F64.lt_of_lt_of_le hlt hm)
    refine ⟨?_, ?_, ?_, ?_, ?_, ?_, ?_⟩
    · rw [lo _ (by decide), Bool.and_false]
    · rw [lo _ (by decide), Bool.and_false]
    · have : F64.ge power (F64.ofInt 241) = true := F64.le_trans (by decide) hge'
      rw [this, hlt]
      rfl
    · rw [hge, F64.lt_of_lt_of_le hlt (by decide)]
      rfl
    · rw [hi _ (by decide), Bool.false_and]
    · rw [hi _ (by decide), Bool.false_and]
    · rw [hi _ (by decide), Bool.false_and]
  refine ⟨by decide, ?_, ?_⟩
  · intro power i j zi zj hij hi hj h1 h2
    obtain ⟨rfl, rfl⟩ := main2Zones_two_zones power i j zi zj hij hi hj h1 h2
    have ei : zi = ⟨"Tempo", F64.ofInt 241, F64.ofInt 286, F64.ofRatio 75 100⟩ := by
      have : main2Zones[2]? = some ⟨"Tempo", F64.ofInt 241, F64.ofInt 286,
          F64.ofRatio 75 100⟩ := rfl
      rw [this] at hi
      exact (Option.some.inj hi).symm
    have ej : zj = ⟨"Sweet Spot", F64.ofInt 279, F64.ofInt 333, F64.ofInt 1⟩ := by
      have : main2Zones[3]? = some ⟨"Sweet Spot", F64.ofInt 279, F64.ofInt 333,
          F64.ofInt 1⟩ := rfl
      rw [this] at hj
      exact (Option.some.inj hj).symm
    subst ei ej
    rw [Bool.and_eq_true] at h1 h2
    obtain ⟨k0, k1, k2, -⟩ := key power h2.1 h1.2
    refine ⟨rfl, rfl, h2.1, h1.2, ?_⟩
    simp only [main2Zones, zoneCoefficient, k0, k1, k2, if_true, Bool.false_eq_true, if_false]
  · intro power hge hlt
    obtain ⟨k0, k1, k2, k3, k4, k5, k6⟩ := key power hge hlt
    simp only [main2Zones, List.filter, k0, k1, k2, k3, k4, k5, k6, List.map]

/-- C18 at a concrete input: 282 W lies in "Tempo" and in "Sweet Spot", and
gets the coefficient 0.75. -/
theorem main2Zones_contiguous_except_tempo_witness :
    ((2 : Nat) < 3 ∧
      main2Zones[2]? = some ⟨"Tempo", F64.ofInt 241, F64.ofInt 286, F64.ofRatio 75 100⟩ ∧
      main2Zones[3]? = some ⟨"Sweet Spot", F64.ofInt 279, F64.ofInt 333, F64.ofInt 1⟩ ∧
      (F64.ge (F64.ofInt 282) (F64.ofInt 241) && F64.lt (F64.ofInt 282) (F64.ofInt 286)) = true ∧
      (F64.ge (F64.ofInt 282) (F64.ofInt 279) && F64.lt (F64.ofInt 282) (F64.ofInt 333))
        = true) ∧
    F64.ge (F64.ofInt 282) (F64.ofInt 279) = true ∧
    F64.lt (F64.ofInt 282) (F64.ofInt 286) = true ∧
    zoneCoefficient (F64.ofInt 282) main2Zones = F64.ofRatio 75 100 :=
  have h := main2Zones_contiguous_except_tempo.2.1 (F64.ofInt 282) 2 3
    ⟨"Tempo", F64.ofInt 241, F64.ofInt 286, F64.ofRatio 75 100⟩
    ⟨"Sweet Spot", F64.ofInt 279, F64.ofInt 333, F64.ofInt 1⟩
    (by decide) rfl rfl (by decide) (by decide)
  ⟨⟨by decide, rfl, rfl, by decide, by decide⟩, h.2.2.1, h.2.2.2.1, h.2.2.2.2⟩

/-! ## Rounding is monotone -/

namespace F64

theorem roundHalfEven_mono {n D n' D' : Nat} (hD : 0 < D) (hD' : 0 < D')
    (h : n * D' ≤ n' * D) : roundHalfEven n D ≤ roundHalfEven n' D' := by
  have e := Nat.div_add_mod n D
  have e' := Nat.div_add_mod n' D'
  have hr := Nat.mod_lt n hD
  have hr' := Nat.mod_lt n' hD'
  have hk : n / D ≤ n' / D' := by
    rw [Nat.le_div_iff_mul_le hD']
    have h1 : n / D * D ≤ n := Nat.div_mul_le_self n D
    have h2 : n / D * D' * D ≤ n' * D := by
      calc n / D * D' * D = n / D * D * D' := by ring
        _ ≤ n * D' := Nat.mul_le_mul_right _ h1
        _ ≤ n' * D := h
    exact Nat.le_of_mul_le_mul_right h2 hD
  have hlo := le_roundHalfEven n' D'
  unfold roundHalfEven
  dsimp only
  split
  · rename_i hup
    split
    · omega
    · rename_i hdown
      rcases Nat.lt_or_ge (n / D) (n' / D') with hlt | hge
      · omega
      · exfalso
        have hkk : n / D = n' / D' := Nat.le_antisymm hk hge
        have hrr : n % D * D' ≤ n' % D' * D := by
          have h3 : (D * (n / D) + n % D) * D' ≤ (D' * (n' / D') + n' % D') * D := by
            rw [e, e']
            exact h
          rw [← hkk] at h3
          have h4 : D * (n / D) * D' = D' * (n / D) * D := by ring
          have h5 : (D * (n / D) + n % D) * D' = D * (n / D) * D' + n % D * D' := by ring
          have h6 : (D' * (n / D) + n' % D') * D = D' * (n / D) * D + n' % D' * D := by ring
          rw [h5, h6, h4] at h3
          omega
        have hnot1 : ¬ D' < 2 * (n' % D') := fun hh => hdown (Or.inl hh)
        rcases hup with hup | ⟨hup, hodd⟩
        · have h7 : D * D' < 2 * (n % D) * D' := Nat.mul_lt_mul_of_pos_right hup hD'
          have h8 : 2 * (n % D) * D' = 2 * (n % D * D') := by ring
          have h9 : D * D' < 2 * (n' % D') * D := by
            have : 2 * (n' % D') * D = 2 * (n' % D' * D) := by ring
            omega
          have h10 : D' * D < 2 * (n' % D') * D := by
            rw [Nat.mul_comm D' D]
            exact h9
          exact hnot1 (Nat.lt_of_mul_lt_mul_right h10)
        · have h7 : D * D' ≤ 2 * (n' % D') * D := by
            have h8 : D * D' = 2 * (n % D * D') := by
              have h0 : 2 * (n % D) * D' = D * D' := by rw [hup]
              rw [← h0]
              ring
            have : 2 * (n' % D') * D = 2 * (n' % D' * D) := by ring
            omega
          have h10 : D' * D ≤ 2 * (n' % D') * D := by
            rw [Nat.mul_comm D' D]
            exact h7
          have h11 : D' ≤ 2 * (n' % D') := Nat.le_of_mul_le_mul_right h10 hD
          have h12 : 2 * (n' % D') = D' := by omega
          exact hdown (Or.inr ⟨h12, by rw [← hkk]; exact hodd⟩)
  · split <;> omega

/-- The magnitude produced by `round` for `n / d`. -/
theorem representable_cases_div {K : Nat} (hr : representable K) (n d : Nat) (hd : 0 < d) :
    (∃ q, K = q * 2 ^ (ilog2 (n / d) - 52)) ∨
      (K < 2 ^ 52 * 2 ^ (ilog2 (n / d) - 52) ∧ 2 ^ 52 * 2 ^ (ilog2 (n / d) - 52) * d ≤ n) := by
  rcases representable_cases hr (n / d) with h | ⟨h1, h2⟩
  · exact Or.inl h
  · right
    refine ⟨h1, ?_⟩
    exact (Nat.le_div_iff_mul_le hd).1 h2

/-- Rounding `n / d` does not cross a binary64 number from below. -/
theorem units_le_of_le {K n d : Nat} (hr : representable K) (hd : 0 < d) (h : n ≤ K * d) :
    roundHalfEven n (d <<< (ilog2 (n / d) - 52)) <<< (ilog2 (n / d) - 52) ≤ K := by
  rw [Nat.shiftLeft_eq, Nat.shiftLeft_eq]
  have hpos : 0 < 2 ^ (ilog2 (n / d) - 52) := Nat.two_pow_pos _
  rcases representable_cases_div hr n d hd with ⟨q, hq⟩ | ⟨h1, h2⟩
  · rw [hq]
    refine Nat.mul_le_mul_right _ (roundHalfEven_le_of_le_mul n q _ (Nat.mul_pos hd hpos) ?_)
    rw [hq] at h
    calc n ≤ q * 2 ^ (ilog2 (n / d) - 52) * d := h
      _ = q * (d * 2 ^ (ilog2 (n / d) - 52)) := by ring
  · exfalso
    have h3 : 2 ^ 52 * 2 ^ (ilog2 (n / d) - 52) * d ≤ K * d := Nat.le_trans h2 h
    have h4 := Nat.le_of_mul_le_mul_right h3 hd
    omega

/-- Rounding `n / d` does not cross a binary64 number from above. -/
theorem le_units_of_le {K n d : Nat} (hr : representable K) (hd : 0 < d) (h : K * d ≤ n) :
    K ≤ roundHalfEven n (d <<< (ilog2 (n / d) - 52)) <<< (ilog2 (n / d) - 52) := by
  rw [Nat.shiftLeft_eq, Nat.shiftLeft_eq]
  have hpos : 0 < 2 ^ (ilog2 (n / d) - 52) := Nat.two_pow_pos _
  have hdd : 0 < d * 2 ^ (ilog2 (n / d) - 52) := Nat.mul_pos hd hpos
  rcases representable_cases_div hr n d hd with ⟨q, hq⟩ | ⟨h1, h2⟩
  · rw [hq]
    refine Nat.mul_le_mul_right _ (Nat.le_trans ?_ (le_roundHalfEven n _))
    rw [Nat.le_div_iff_mul_le hdd]
    rw [hq] at h
    calc q * (d * 2 ^ (ilog2 (n / d) - 52)) = q * 2 ^ (ilog2 (n / d) - 52) * d := by ring
      _ ≤ n := h
  · have h3 : 2 ^ 52 ≤ n / (d * 2 ^ (ilog2 (n / d) - 52)) := by
      rw [Nat.le_div_iff_mul_le hdd]
      calc 2 ^ 52 * (d * 2 ^ (ilog2 (n / d) - 52))
          = 2 ^ 52 * 2 ^ (ilog2 (n / d) - 52) * d := by ring
        _ ≤ n := h2
    have h4 := le_roundHalfEven n (d * 2 ^ (ilog2 (n / d) - 52))
    have h5 : 2 ^ 52 * 2 ^ (ilog2 (n / d) - 52)
        ≤ roundHalfEven n (d * 2 ^ (ilog2 (n / d) - 52)) * 2 ^ (ilog2 (n / d) - 52) :=
      Nat.mul_le_mul_right _ (Nat.le_trans h3 h4)
    omega

theorem representable_two_pow (e : Nat) : representable (2 ^ e) :=
  ⟨1, e, by norm_num, by rw [Nat.one_mul]⟩

/-- A quotient of `2^16384` or more overflows. -/
theorem round_huge (s : Bool) {n d : Nat} (h : 1 <<< 16384 ≤ n / d) : round s n d = inf s := by
  rcases round_cases s n d with hr | ⟨k, hr⟩
  · exact hr
  · exfalso
    have hk := round_fin_lt hr
    obtain ⟨-, hkk⟩ := round_fin_eq hr
    have hq0 : n / d ≠ 0 := by
      have : 0 < 1 <<< 16384 := by decide
      omega
    have hs : 2 ^ (ilog2 (n / d) - 52) ≤ n / d :=
      Nat.le_trans (Nat.pow_le_pow_right (by norm_num) (Nat.sub_le _ _))
        (two_pow_ilog2_le _ hq0)
    have h1 := half_le_truncate (n / d) _ hs
    have h2 : n / d / 2 ^ (ilog2 (n / d) - 52) * 2 ^ (ilog2 (n / d) - 52)
        ≤ roundHalfEven n (d <<< (ilog2 (n / d) - 52)) <<< (ilog2 (n / d) - 52) := by
      rw [Nat.shiftLeft_eq, Nat.shiftLeft_eq, Nat.div_div_eq_div_mul]
      exact Nat.mul_le_mul_right _ (le_roundHalfEven _ _)
    rw [← hkk] at h2
    have c : 2 * (1 <<< 2098) ≤ 1 <<< 16384 := by decide
    generalize 1 <<< 16384 = A at h c
    generalize 1 <<< 2098 = B at hk c
    omega

/-- The magnitudes produced by `round` are ordered like the quotients. -/
theorem units_mono {n d n' d' : Nat} (hd : 0 < d) (hd' : 0 < d') (h : n * d' ≤ n' * d)
    (hq' : n' / d' < 1 <<< 16384) :
    roundHalfEven n (d <<< (ilog2 (n / d) - 52)) <<< (ilog2 (n / d) - 52)
      ≤ roundHalfEven n' (d' <<< (ilog2 (n' / d') - 52)) <<< (ilog2 (n' / d') - 52) := by
  have hqq : n / d ≤ n' / d' := by
    rw [Nat.le_div_iff_mul_le hd']
    have h1 : n / d * d ≤ n := Nat.div_mul_le_self n d
    have h2 : n / d * d' * d ≤ n' * d := by
      calc n / d * d' * d = n / d * d * d' := by ring
        _ ≤ n * d' := Nat.mul_le_mul_right _ h1
        _ ≤ n' * d := h
    exact Nat.le_of_mul_le_mul_right h2 hd
  by_cases ht : ilog2 (n / d) - 52 = ilog2 (n' / d') - 52
  · rw [← ht, Nat.shiftLeft_eq, Nat.shiftLeft_eq, Nat.shiftLeft_eq, Nat.shiftLeft_eq]
    have hpos : 0 < 2 ^ (ilog2 (n / d) - 52) := Nat.two_pow_pos _
    refine Nat.mul_le_mul_right _ (roundHalfEven_mono (Nat.mul_pos hd hpos)
      (Nat.mul_pos hd' hpos) ?_)
    calc n * (d' * 2 ^ (ilog2 (n / d) - 52)) = n * d' * 2 ^ (ilog2 (n / d) - 52) := by ring
      _ ≤ n' * d * 2 ^ (ilog2 (n / d) - 52) := Nat.mul_le_mul_right _ h
      _ = n' * (d * 2 ^ (ilog2 (n / d) - 52)) := by ring
  · -- different binades: a power of two lies between the two quotients
    have hq0' : n' / d' ≠ 0 := by
      intro h0
      have : n / d = 0 := by
        rw [h0] at hqq
        exact Nat.eq_zero_of_le_zero hqq
      rw [this, h0] at ht
      exact ht rfl
    have hup : n / d < 2 ^ (ilog2 (n / d) + 1) := by
      by_cases hq0 : n / d = 0
      · rw [hq0]
        exact Nat.two_pow_pos _
      · exact lt_two_pow_ilog2 _ hq0 (Nat.lt_of_le_of_lt hqq hq')
    have hlo' := two_pow_ilog2_le _ hq0'
    have hLL : ilog2 (n / d) + 1 ≤ ilog2 (n' / d') := by
      by_contra hcon
      have hle : ilog2 (n' / d') ≤ ilog2 (n / d) := by omega
      have hup' := lt_two_pow_ilog2 _ hq0' hq'
      by_cases hq0 : n / d = 0
      · rw [hq0, ilog2_zero] at hle
        have h0 : ilog2 (n' / d') = 0 := by omega
        rw [hq0, ilog2_zero, h0] at ht
        exact ht rfl
      · have hlo := two_pow_ilog2_le _ hq0
        have h1 : 2 ^ ilog2 (n / d) < 2 ^ (ilog2 (n' / d') + 1) :=
          Nat.lt_of_le_of_lt (Nat.le_trans hlo hqq) hup'
        have h2 : ilog2 (n / d) < ilog2 (n' / d') + 1 :=
          (Nat.pow_lt_pow_iff_right (by norm_num)).1 h1
        have : ilog2 (n / d) = ilog2 (n' / d') := by omega
        rw [this] at ht
        exact ht rfl
    have h1 : roundHalfEven n (d <<< (ilog2 (n / d) - 52)) <<< (ilog2 (n / d) - 52)
        ≤ 2 ^ (ilog2 (n / d) + 1) := by
      apply units_le_of_le (representable_two_pow _) hd
      exact Nat.le_of_lt ((Nat.div_lt_iff_lt_mul hd).1 hup)
    have h2 : 2 ^ ilog2 (n' / d')
        ≤ roundHalfEven n' (d' <<< (ilog2 (n' / d') - 52)) <<< (ilog2 (n' / d') - 52) := by
      apply le_units_of_le (representable_two_pow _) hd'
      exact (Nat.le_div_iff_mul_le hd').1 hlo'
    exact Nat.le_trans h1 (Nat.le_trans (Nat.pow_le_pow_right (by norm_num) hLL) h2)

/-- Rounding is monotone: a smaller non-negative quotient rounds to a value
that is not greater. -/
theorem round_mono {n d n' d' : Nat} (hd : 0 < d) (hd' : 0 < d') (h : n * d' ≤ n' * d) :
    le (round false n d) (round false n' d') = true := by
  by_cases hq' : n' / d' < 1 <<< 16384
  · have hu := units_mono hd hd' h hq'
    rcases round_cases false n' d' with h' | ⟨k', h'⟩
    · rw [h']
      rcases round_cases false n d with h0 | ⟨k, h0⟩ <;> rw [h0] <;> rfl
    · obtain ⟨-, hk'⟩ := round_fin_eq h'
      have hlt' := round_fin_lt h'
      rw [h', round_of_units_lt false n d (by rw [hk'] at hlt'; exact Nat.lt_of_le_of_lt hu hlt')]
      apply le_fin_false
      rw [hk']
      exact hu
  · rw [round_huge false (Nat.le_of_not_lt hq')]
    rcases round_cases false n d with h0 | ⟨k, h0⟩ <;> rw [h0] <;> rfl

end F64

/-! ## Interval bounds for the arithmetic operators -/

namespace F64

theorem le_of_lt {a b : F64} (h : lt a b = true) : le a b = true := by
  cases a with
  | nan => cases b <;> cases h
  | inf a =>
    cases b with
    | nan => cases h
    | inf b => revert h; cases a <;> cases b <;> decide
    | fin b y => exact h
  | fin a x =>
    cases b with
    | nan => cases h
    | inf b => exact h
    | fin b y =>
      simp only [le, lt, decide_eq_true_eq] at h ⊢
      omega

theorem le_or_lt {a b : F64} (ha : isNaN a = false) (hb : isNaN b = false) :
    le a b = true ∨ lt b a = true := by
  cases hlt : lt b a with
  | true => exact Or.inr rfl
  | false => exact Or.inl (le_of_not_lt hlt ha hb)

theorem isNaN_of_le_left {a b : F64} (h : le a b = true) : isNaN a = false := by
  cases a <;> cases b <;> first | rfl | cases h

theorem isNaN_of_le_right {a b : F64} (h : le a b = true) : isNaN b = false := by
  cases a <;> cases b <;> first | rfl | cases h

theorem le_inf_of_not_nan {z : F64} (h : isNaN z = false) : le z (inf false) = true := by
  cases z with
  | nan => cases h
  | inf a => cases a <;> rfl
  | fin a k => rfl

/-- A value at or above a positive one is positive. -/
theorem pos_of_le {lo x : F64} (hlo : lt zero lo = true) (h : le lo x = true) :
    lt zero x = true := lt_of_lt_of_le hlo h

/-- A value between a positive one and a finite one, in units. -/
theorem pos_between {lo x hi : F64} (hlo : lt zero lo = true) (h1 : le lo x = true)
    (h2 : le x hi = true) (hhi : isFinite hi = true) :
    ∃ kl k kh, lo = fin false kl ∧ x = fin false k ∧ hi = fin false kh ∧
      0 < kl ∧ kl ≤ k ∧ k ≤ kh := by
  have hx := pos_of_le hlo h1
  have hh := pos_of_le hx h2
  rcases pos_cases hh with rfl | ⟨kh, -, rfl⟩
  · cases hhi
  rcases pos_cases hx with rfl | ⟨k, -, rfl⟩
  · cases h2
  rcases pos_cases hlo with rfl | ⟨kl, hkl, rfl⟩
  · cases h1
  refine ⟨kl, k, kh, rfl, rfl, rfl, Nat.pos_of_ne_zero hkl, ?_, ?_⟩
  · simpa [le, sgn] using h1
  · simpa [le, sgn] using h2

theorem isNaN_mul_pos {x y : F64} (hx : lt zero x = true) (hy : lt zero y = true) :
    isNaN (mul x y) = false := by
  rcases pos_cases hx with rfl | ⟨a, ha, rfl⟩ <;> rcases pos_cases hy with rfl | ⟨b, hb, rfl⟩
  · rfl
  · simp [mul, hb, isNaN]
  · simp [mul, ha, isNaN]
  · exact isNaN_round _ _ _

/-- Multiplication of positive values is monotone. -/
theorem mul_mono_pos {x x' y y' : F64} (hx : lt zero x = true) (hxx : le x x' = true)
    (hy : lt zero y = true) (hyy : le y y' = true) : le (mul x y) (mul x' y') = true := by
  have hx' := pos_of_le hx hxx
  have hy' := pos_of_le hy hyy
  have hnan := isNaN_mul_pos hx hy
  rcases pos_cases hx' with rfl | ⟨a', ha', rfl⟩
  · have e : mul (inf false) y' = inf false := by
      rcases pos_cases hy' with rfl | ⟨b', hb', rfl⟩
      · rfl
      · simp [mul, hb']
    rw [e]
    exact le_inf_of_not_nan hnan
  rcases pos_cases hy' with rfl | ⟨b', hb', rfl⟩
  · have e : mul (fin false a') (inf false) = inf false := by simp [mul, ha']
    rw [e]
    exact le_inf_of_not_nan hnan
  rcases pos_cases hx with rfl | ⟨a, -, rfl⟩
  · cases hxx
  rcases pos_cases hy with rfl | ⟨b, -, rfl⟩
  · cases hyy
  have haa : a ≤ a' := by simpa [le, sgn] using hxx
  have hbb : b ≤ b' := by simpa [le, sgn] using hyy
  show le (round (xor false false) (a * b) (1 <<< 1074))
    (round (xor false false) (a' * b') (1 <<< 1074)) = true
  exact round_mono (by decide) (by decide)
    (Nat.mul_le_mul_right _ (Nat.mul_le_mul haa hbb))

/-- The square of a non-negative value is at most the square of a positive
value above it. -/
theorem mul_self_mono {r h : F64} (hr : le zero r = true) (hrh : le r h = true)
    (hh : lt zero h = true) : le (mul r r) (mul h h) = true := by
  have hnan := isNaN_mul_pos hh hh
  cases r with
  | nan => cases hr
  | inf a =>
    have ha : a = false := by
      cases a
      · rfl
      · cases hr
    subst ha
    rcases pos_cases hh with rfl | ⟨kh, -, rfl⟩
    · rfl
    · cases hrh
  | fin a k =>
    rcases pos_cases hh with rfl | ⟨kh, hkh, rfl⟩
    · have e : mul (fin a k) (fin a k) = round (xor a a) (k * k) (1 <<< 1074) := rfl
      rw [e]
      exact le_inf_of_not_nan (isNaN_round _ _ _)
    · have hk : k ≤ kh := by
        cases a
        · simpa [le, sgn] using hrh
        · have : (0 : Int) ≤ -(k : Int) := by simpa [le, sgn, zero] using hr
          omega
      show le (round (xor a a) (k * k) (1 <<< 1074))
        (round (xor false false) (kh * kh) (1 <<< 1074)) = true
      rw [Bool.xor_self, Bool.xor_self]
      exact round_mono (by decide) (by decide)
        (Nat.mul_le_mul_right _ (Nat.mul_le_mul hk hk))

/-- A positive value below a finite one, in units. -/
theorem pos_pair {x x' : F64} (hx : lt zero x = true) (hxx : le x x' = true)
    (hx' : isFinite x' = true) :
    ∃ a a', x = fin false a ∧ x' = fin false a' ∧ 0 < a ∧ a ≤ a' := by
  have hp := pos_of_le hx hxx
  rcases pos_cases hp with rfl | ⟨a', -, rfl⟩
  · cases hx'
  rcases pos_cases hx with rfl | ⟨a, ha, rfl⟩
  · cases hxx
  exact ⟨a, a', rfl, rfl, Nat.pos_of_ne_zero ha, by simpa [le, sgn] using hxx⟩

/-- Division of positive finite values: increasing in the numerator,
decreasing in the denominator. -/
theorem div_mono_pos {x x' y y' : F64} (hx : lt zero x = true) (hxx : le x x' = true)
    (hx' : isFinite x' = true) (hy' : lt zero y' = true) (hyy : le y' y = true)
    (hy : isFinite y = true) : le (div x y) (div x' y') = true := by
  obtain ⟨a, a', rfl, rfl, -, haa⟩ := pos_pair hx hxx hx'
  obtain ⟨b', b, rfl, rfl, hb', hbb⟩ := pos_pair hy' hyy hy
  have hb0 : b ≠ 0 := by omega
  have hb0' : b' ≠ 0 := by omega
  have e1 : div (fin false a) (fin false b) = round false (a <<< 1074) b := by
    simp [div, hb0]
  have e2 : div (fin false a') (fin false b') = round false (a' <<< 1074) b' := by
    simp [div, hb0']
  rw [e1, e2]
  refine round_mono (by omega) hb' ?_
  exact Nat.mul_le_mul (shiftLeft_mono haa 1074) hbb

/-- The difference of two non-negative finite values with a positive result,
in units. -/
theorem sub_fin_of_lt {a b : Nat} (h : b < a) :
    sub (fin false a) (fin false b) = round false (a - b) 1 := by
  have hsub : sub (fin false a) (fin false b)
      = if sgn false a + sgn true b = 0 then fin (false && true) 0
        else round (decide (sgn false a + sgn true b < 0)) (sgn false a + sgn true b).natAbs 1 :=
    rfl
  have h1 : sgn false a = (a : Int) := rfl
  have h2 : sgn true b = -(b : Int) := rfl
  rw [hsub, h1, h2, if_neg (by omega), decide_eq_false (by omega)]
  congr 1
  omega

/-- Subtraction with a positive result: increasing in the first operand,
decreasing in the second. -/
theorem sub_mono_pos {x x' y y' : F64} (hx : lt zero x = true) (hxx : le x x' = true)
    (hx' : isFinite x' = true) (hy' : lt zero y' = true) (hyy : le y' y = true)
    (hy : isFinite y = true) (hlt : lt y x = true) : le (sub x y) (sub x' y') = true := by
  obtain ⟨a, a', rfl, rfl, -, haa⟩ := pos_pair hx hxx hx'
  obtain ⟨b', b, rfl, rfl, hb', hbb⟩ := pos_pair hy' hyy hy
  have hba : b < a := by simpa [lt, sgn] using hlt
  rw [sub_fin_of_lt hba, sub_fin_of_lt (show b' < a' by omega)]
  refine round_mono (by decide) (by decide) ?_
  rw [Nat.mul_one, Nat.mul_one]
  omega

/-- Enclosure of a non-negative value `r` whose square is within the relative
tolerances `up` and `down` of `a`, itself enclosed by `aLo` and `aHi`. -/
theorem sqrt_between {a r aLo aHi up down : F64} (rLo rHi : F64)
    (ha0 : lt zero aLo = true) (ha1 : le aLo a = true) (ha2 : le a aHi = true)
    (hup : lt zero up = true) (hdown : lt zero down = true)
    (hr0 : le zero r = true) (hr1 : le (mul r r) (mul a up) = true)
    (hr2 : le (mul a down) (mul r r) = true)
    (hLo0 : lt zero rLo = true) (hLo : lt (mul rLo rLo) (mul aLo down) = true)
    (hHi0 : lt zero rHi = true) (hHi : lt (mul aHi up) (mul rHi rHi) = true) :
    le rLo r = true ∧ le r rHi = true := by
  have hr : isNaN r = false := isNaN_of_le_right hr0
  have ha : lt zero a = true := pos_of_le ha0 ha1
  constructor
  · rcases le_or_lt (isNaN_of_lt_right hLo0) hr with h | h
    · exact h
    · exfalso
      have h1 := mul_self_mono hr0 (le_of_lt h) hLo0
      have h2 := mul_mono_pos ha0 ha1 hdown (le_of_not_lt (lt_irrefl down)
        (isNaN_of_lt_right hdown) (isNaN_of_lt_right hdown))
      have h3 := lt_of_le_of_lt h1 hLo
      have h4 := lt_of_lt_of_le (lt_of_lt_of_le h3 h2) hr2
      rw [lt_irrefl] at h4
      cases h4
  · rcases le_or_lt hr (isNaN_of_lt_right hHi0) with h | h
    · exact h
    · exfalso
      have h1 := mul_mono_pos hHi0 (le_of_lt h) hHi0 (le_of_lt h)
      have h2 := mul_mono_pos ha ha2 hup (le_of_not_lt (lt_irrefl up)
        (isNaN_of_lt_right hup) (isNaN_of_lt_right hup))
      have h3 := lt_of_lt_of_le hHi h1
      have h4 := lt_of_lt_of_le (lt_of_lt_of_le h3 hr1) h2
      rw [lt_irrefl] at h4
      cases h4

end F64

/-! ## One degree of latitude -/

namespace F64

theorem le_refl_of_not_nan {x : F64} (h : isNaN x = false) : le x x = true :=
  le_of_not_lt (lt_irrefl x) h h

theorem isFinite_of_pos_le {x hi : F64} (hx : lt zero x = true) (h : le x hi = true)
    (hhi : isFinite hi = true) : isFinite x = true := by
  obtain ⟨a, a', rfl, -, -, -⟩ := pos_pair hx h hhi
  rfl

theorem valid_mul (x y : F64) : valid (mul x y) := by
  cases x with
  | nan => cases y <;> trivial
  | inf a =>
    cases y with
    | nan => trivial
    | inf b => trivial
    | fin b k =>
      show valid (if k = 0 then nan else inf (xor a b))
      split <;> trivial
  | fin a k =>
    cases y with
    | nan => trivial
    | inf b =>
      show valid (if k = 0 then nan else inf (xor a b))
      split <;> trivial
    | fin b j => exact valid_round _ _ _

/-- Adding a zero to a positive binary64 number leaves it unchanged. -/
theorem add_signed_zero_pos {x : F64} (hx : lt zero x = true) (hf : isFinite x = true)
    (hv : valid x) (s : Bool) : add x (fin s 0) = x := by
  rcases pos_cases hx with rfl | ⟨k, hk, rfl⟩
  · cases hf
  have hs0 : sgn s 0 = 0 := by cases s <;> rfl
  have hadd : add (fin false k) (fin s 0)
      = if sgn false k + sgn s 0 = 0 then fin (false && s) 0
        else round (decide (sgn false k + sgn s 0 < 0)) (sgn false k + sgn s 0).natAbs 1 := rfl
  have h1 : sgn false k = (k : Int) := rfl
  rw [hadd, hs0, h1, Int.add_zero, if_neg (by omega), decide_eq_false (by omega)]
  have h2 : ((k : Int)).natAbs = k := by simp
  rw [h2]
  exact round_of_representable false hv.1 hv.2

theorem isFinite_div_180_of_valid {z : F64} (hz : isFinite z = true) (hv : valid z) :
    isFinite (div z (ofInt 180)) = true := by
  cases z with
  | nan => cases hz
  | inf a => cases hz
  | fin a k =>
    have hk : k < 1 <<< 2098 := hv.2
    have h180 : ofInt 180 = fin false (180 <<< 1074) := by decide
    have hne : (180 <<< 1074 : Nat) ≠ 0 := by decide
    rw [h180]
    show isFinite (if 180 <<< 1074 = 0 then (if k = 0 then nan else inf (xor a false))
      else round (xor a false) (k <<< 1074) (180 <<< 1074)) = true
    rw [if_neg hne, round_eq_fin]
    · rfl
    · rw [shiftLeft_div_shiftLeft]
      have c : 2 ≤ 1 <<< 2098 := by decide
      generalize 1 <<< 2098 = B at hk c
      omega

end F64

/-- A latitude whose product with `π` is finite has a finite value in radians. -/
theorem isFinite_radians {lat : F64} (h : F64.isFinite (F64.mul lat F64.pi) = true) :
    F64.isFinite (F64.div (F64.mul lat F64.pi) (F64.ofInt 180)) = true :=
  F64.isFinite_div_180_of_valid h (F64.valid_mul _ _)

/-- Enclosure of `a` from the accuracy of `Sin`. -/
theorem oneDegree_a (M : FloatMath) (hacc : OneDegreeAccuracy M) :
    F64.le OneDegree.aLo (haversineA M) = true ∧ F64.le (haversineA M) OneDegree.aHi = true := by
  have h0 : F64.lt F64.zero OneDegree.sinLo = true := by decide
  have h1 : F64.le OneDegree.sinLo (M.Sin halfDegree) = true := hacc.sin_ge
  have hs : F64.lt F64.zero (M.Sin halfDegree) = true := F64.pos_of_le h0 h1
  exact ⟨F64.mul_mono_pos h0 h1 h0 h1, F64.mul_mono_pos hs hacc.sin_le hs hacc.sin_le⟩

/-- Enclosure of the result of `Atan2` from the accuracy of `Sin`, `Sqrt` and
`Atan2`. -/
theorem oneDegree_angle (M : FloatMath) (hacc : OneDegreeAccuracy M) :
    F64.le OneDegree.angleLo
        (M.Atan2 (M.Sqrt (haversineA M)) (M.Sqrt (F64.sub F64.one (haversineA M)))) = true ∧
      F64.le (M.Atan2 (M.Sqrt (haversineA M)) (M.Sqrt (F64.sub F64.one (haversineA M))))
        OneDegree.angleHi = true := by
  obtain ⟨ha1, ha2⟩ := oneDegree_a M hacc
  have hup : F64.lt F64.zero F64.onePlus = true := by decide
  have hdown : F64.lt F64.zero F64.oneMinus = true := by decide
  have haLo : F64.lt F64.zero OneDegree.aLo = true := by decide
  have haHi : F64.isFinite OneDegree.aHi = true := by decide
  have ha : F64.lt F64.zero (haversineA M) = true := F64.pos_of_le haLo ha1
  have haf : F64.isFinite (haversineA M) = true := F64.isFinite_of_pos_le ha ha2 haHi
  -- the square root of `a`
  obtain ⟨hr1, hr2⟩ := F64.sqrt_between OneDegree.r1Lo OneDegree.r1Hi
    haLo ha1 ha2 hup hdown hacc.sqrt_a_nonneg hacc.sqrt_a_le hacc.sqrt_a_ge
    (by decide) (by decide) (by decide) (by decide)
  -- `1 - a`
  have hone : F64.lt F64.zero F64.one = true := by decide
  have honef : F64.isFinite F64.one = true := by decide
  have hone' : F64.le F64.one F64.one = true := by decide
  have hb1 : F64.le (F64.sub F64.one OneDegree.aHi) (F64.sub F64.one (haversineA M)) = true :=
    F64.sub_mono_pos hone hone' honef ha ha2 haHi (by decide)
  have hb2 : F64.le (F64.sub F64.one (haversineA M)) (F64.sub F64.one OneDegree.aLo) = true :=
    F64.sub_mono_pos hone hone' honef haLo ha1 haf
      (F64.lt_of_le_of_lt ha2 (by decide))
  -- the square root of `1 - a`
  obtain ⟨hq1, hq2⟩ := F64.sqrt_between OneDegree.r2Lo OneDegree.r2Hi
    (by decide) hb1 hb2 hup hdown hacc.sqrt_b_nonneg hacc.sqrt_b_le hacc.sqrt_b_ge
    (by decide) (by decide) (by decide) (by decide)
  have hr1Lo : F64.lt F64.zero OneDegree.r1Lo = true := by decide
  have hr2Lo : F64.lt F64.zero OneDegree.r2Lo = true := by decide
  have hr : F64.lt F64.zero (M.Sqrt (haversineA M)) = true := F64.pos_of_le hr1Lo hr1
  have hq : F64.lt F64.zero (M.Sqrt (F64.sub F64.one (haversineA M))) = true :=
    F64.pos_of_le hr2Lo hq1
  have hrf := F64.isFinite_of_pos_le hr hr2 (by decide : F64.isFinite OneDegree.r1Hi = true)
  have hqf := F64.isFinite_of_pos_le hq hq2 (by decide : F64.isFinite OneDegree.r2Hi = true)
  -- the quotient
  have ht1 : F64.le OneDegree.tLo (haversineT M) = true :=
    F64.div_mono_pos hr1Lo hr1 hrf hq hq2 (by decide)
  have ht2 : F64.le (haversineT M) OneDegree.tHi = true :=
    F64.div_mono_pos hr hr2 (by decide) hr2Lo hq1 hqf
  have htLo : F64.lt F64.zero OneDegree.tLo = true := by decide
  have ht : F64.lt F64.zero (haversineT M) = true := F64.pos_of_le htLo ht1
  have htf := F64.isFinite_of_pos_le ht ht2 (by decide : F64.isFinite OneDegree.tHi = true)
  -- the cube of the quotient
  have hsq : F64.le (F64.mul (haversineT M) (haversineT M))
      (F64.mul OneDegree.tHi OneDegree.tHi) = true := F64.mul_mono_pos ht ht2 ht ht2
  have hsq0 : F64.lt F64.zero (F64.mul (haversineT M) (haversineT M)) = true :=
    F64.pos_of_le (by decide : F64.lt F64.zero (F64.mul OneDegree.tLo OneDegree.tLo) = true)
      (F64.mul_mono_pos htLo ht1 htLo ht1)
  have hcube : F64.le (F64.mul (F64.mul (haversineT M) (haversineT M)) (haversineT M))
      (F64.mul (F64.mul OneDegree.tHi OneDegree.tHi) OneDegree.tHi) = true :=
    F64.mul_mono_pos hsq0 hsq ht ht2
  have hcube0 : F64.lt F64.zero
      (F64.mul (F64.mul (haversineT M) (haversineT M)) (haversineT M)) = true :=
    F64.pos_of_le
      (by decide : F64.lt F64.zero
        (F64.mul (F64.mul OneDegree.tLo OneDegree.tLo) OneDegree.tLo) = true)
      (F64.mul_mono_pos
        (by decide : F64.lt F64.zero (F64.mul OneDegree.tLo OneDegree.tLo) = true)
        (F64.mul_mono_pos htLo ht1 htLo ht1) htLo ht1)
  constructor
  · refine F64.le_trans ?_ hacc.atan2_ge
    exact F64.sub_mono_pos htLo ht1 htf hcube0 hcube (by decide) (by decide)
  · refine F64.le_trans hacc.atan2_le ?_
    exact F64.mul_mono_pos ht ht2 hup (by decide)

/-- The square of `Sin(Δφ/2)` when the latitudes differ by `1` in either
direction. -/
theorem haversine_half_angle (M : FloatMath) (hacc : OneDegreeAccuracy M) (d : F64)
    (hd : d = F64.one ∨ d = F64.neg F64.one) :
    F64.mul
        (M.Sin (F64.div (F64.div (F64.mul d F64.pi) (F64.ofInt 180)) (F64.ofInt 2)))
        (M.Sin (F64.div (F64.div (F64.mul d F64.pi) (F64.ofInt 180)) (F64.ofInt 2)))
      = haversineA M := by
  rcases hd with rfl | rfl
  · rfl
  · rw [F64.mul_neg_left, F64.div_neg_left, F64.div_neg_left]
    have e : M.Sin (F64.neg (F64.div (F64.div (F64.mul F64.one F64.pi) (F64.ofInt 180))
        (F64.ofInt 2))) = F64.neg (M.Sin halfDegree) := hacc.sin_neg
    rw [e, F64.mul_neg_left, F64.mul_neg_right, F64.neg_neg]
    rfl

/-- For two points of a meridian whose latitudes differ by `1`, `haversine`
returns `R * (2 * Atan2(Sqrt(a), Sqrt(1 - a)))` with `a` the square of
`Sin(halfDegree)`, whatever the latitude and the longitude. -/
theorem haversine_one_degree_eq (M : FloatMath) (hacc : OneDegreeAccuracy M)
    (lat1 lat2 lon : F64)
    (hdiff : F64.sub lat2 lat1 = F64.one ∨ F64.sub lat2 lat1 = F64.neg F64.one)
    (hlat1 : F64.isFinite (F64.mul lat1 F64.pi) = true)
    (hlat2 : F64.isFinite (F64.mul lat2 F64.pi) = true)
    (hlon : F64.isFinite lon = true) :
    haversine M lat1 lon lat2 lon
      = F64.mul (F64.ofInt 6371000)
        (F64.mul (F64.ofInt 2)
          (M.Atan2 (M.Sqrt (haversineA M)) (M.Sqrt (F64.sub F64.one (haversineA M))))) := by
  obtain ⟨s, k, hcc⟩ := F64.mul_fin_of_le_one (hacc.cos_le_one _ (isFinite_radians hlat1))
    (hacc.cos_le_one _ (isFinite_radians hlat2))
  have hsin : M.Sin (F64.div (F64.div (F64.mul (F64.sub lon lon) F64.pi) (F64.ofInt 180))
      (F64.ofInt 2)) = F64.zero := by
    rw [F64.sub_self_of_isFinite hlon]
    have : F64.div (F64.div (F64.mul F64.zero F64.pi) (F64.ofInt 180)) (F64.ofInt 2)
        = F64.zero := by decide
    rw [this, hacc.sin_zero]
  obtain ⟨ha1, ha2⟩ := oneDegree_a M hacc
  have ha : F64.lt F64.zero (haversineA M) = true :=
    F64.pos_of_le (by decide : F64.lt F64.zero OneDegree.aLo = true) ha1
  have haf := F64.isFinite_of_pos_le ha ha2 (by decide : F64.isFinite OneDegree.aHi = true)
  have hadd : F64.add (haversineA M) (F64.fin s 0) = haversineA M :=
    F64.add_signed_zero_pos ha haf (F64.valid_mul _ _) s
  unfold haversine
  dsimp only
  rw [haversine_half_angle M hacc _ hdiff, hsin, hcc, F64.mul_fin_zero, F64.mul_fin_zero,
    hadd]
  rfl

theorem oneDegreeTable_accuracy : OneDegreeAccuracy oneDegreeTable where
  sin_zero := by decide
  sin_neg := by decide
  cos_le_one := by
    intro x hx
    show F64.le (F64.abs (if x = F64.fin false (0x11df46a2529d39 <<< 1016) then
        F64.fin false (0x1ffec097f5af8a <<< 1021)
      else if F64.isFinite x then F64.one else F64.nan)) F64.one = true
    split
    · decide
    · decide
  sin_le := by decide
  sin_ge := by decide
  sqrt_a_nonneg := by decide
  sqrt_a_le := by decide
  sqrt_a_ge := by decide
  sqrt_b_nonneg := by decide
  sqrt_b_le := by decide
  sqrt_b_ge := by decide
  atan2_le := by decide
  atan2_ge := by decide

/-- C15 (as amended): for two points on the same meridian whose latitudes
differ by exactly 1 degree, in either direction (finite longitude, latitudes
whose product with `π` is finite), `haversine` returns a `float64` within 0.5%
of 111,195 m, and within one part in 256 of `R * π / 180` as `float64`
arithmetic gives it, for every implementation of package `math` that is as
accurate as `OneDegreeAccuracy` asks. -/
theorem haversine_one_degree (M : FloatMath) (hacc : OneDegreeAccuracy M)
    (lat1 lat2 lon : F64)
    (hdiff : F64.sub lat2 lat1 = F64.one ∨ F64.sub lat2 lat1 = F64.neg F64.one)
    (hlat1 : F64.isFinite (F64.mul lat1 F64.pi) = true)
    (hlat2 : F64.isFinite (F64.mul lat2 F64.pi) = true)
    (hlon : F64.isFinite lon = true) :
    F64.le (F64.ofRatio 110639025 1000) (haversine M lat1 lon lat2 lon) = true ∧
    F64.le (haversine M lat1 lon lat2 lon) (F64.ofRatio 111750975 1000) = true ∧
    F64.le
      (F64.mul (F64.div (F64.mul (F64.ofInt 6371000) F64.pi) (F64.ofInt 180))
        (F64.ofRatio 255 256))
      (haversine M lat1 lon lat2 lon) = true ∧
    F64.le (haversine M lat1 lon lat2 lon)
      (F64.mul (F64.div (F64.mul (F64.ofInt 6371000) F64.pi) (F64.ofInt 180))
        (F64.ofRatio 257 256)) = true := by
  rw [haversine_one_degree_eq M hacc lat1 lat2 lon hdiff hlat1 hlat2 hlon]
  obtain ⟨h1, h2⟩ := oneDegree_angle M hacc
  have h0 : F64.lt F64.zero OneDegree.angleLo = true := by decide
  have hθ := F64.pos_of_le h0 h1
  have two0 : F64.lt F64.zero (F64.ofInt 2) = true := by decide
  have two1 : F64.le (F64.ofInt 2) (F64.ofInt 2) = true := by decide
  have r0 : F64.lt F64.zero (F64.ofInt 6371000) = true := by decide
  have r1 : F64.le (F64.ofInt 6371000) (F64.ofInt 6371000) = true := by decide
  have lo : F64.le (F64.mul (F64.ofInt 6371000) (F64.mul (F64.ofInt 2) OneDegree.angleLo))
      (F64.mul (F64.ofInt 6371000)
        (F64.mul (F64.ofInt 2)
          (M.Atan2 (M.Sqrt (haversineA M)) (M.Sqrt (F64.sub F64.one (haversineA M))))))
      = true :=
    F64.mul_mono_pos r0 r1 (by decide) (F64.mul_mono_pos two0 two1 h0 h1)
  have hi : F64.le
      (F64.mul (F64.ofInt 6371000)
        (F64.mul (F64.ofInt 2)
          (M.Atan2 (M.Sqrt (haversineA M)) (M.Sqrt (F64.sub F64.one (haversineA M))))))
      (F64.mul (F64.ofInt 6371000) (F64.mul (F64.ofInt 2) OneDegree.angleHi)) = true :=
    F64.mul_mono_pos r0 r1
      (F64.pos_of_le (by decide : F64.lt F64.zero
        (F64.mul (F64.ofInt 2) OneDegree.angleLo) = true)
        (F64.mul_mono_pos two0 two1 h0 h1))
      (F64.mul_mono_pos two0 two1 hθ h2)
  exact ⟨F64.le_trans (by decide) lo, F64.le_trans hi (by decide),
    F64.le_trans (by decide) lo, F64.le_trans hi (by decide)⟩

/-- C15 at a concrete input: from (1, 0) to (0, 0), the latitude decreasing,
with the values of package `math` of `oneDegreeTable`. -/
theorem haversine_one_degree_witness :
    (OneDegreeAccuracy oneDegreeTable ∧
      F64.sub (F64.ofInt 0) (F64.ofInt 1) = F64.neg F64.one ∧
      F64.isFinite (F64.mul (F64.ofInt 1) F64.pi) = true ∧
      F64.isFinite (F64.mul (F64.ofInt 0) F64.pi) = true ∧
      F64.isFinite (F64.ofInt 0) = true) ∧
    F64.le (F64.ofRatio 110639025 1000)
      (haversine oneDegreeTable (F64.ofInt 1) (F64.ofInt 0) (F64.ofInt 0) (F64.ofInt 0))
      = true ∧
    F64.le (haversine oneDegreeTable (F64.ofInt 1) (F64.ofInt 0) (F64.ofInt 0) (F64.ofInt 0))
      (F64.ofRatio 111750975 1000) = true ∧
    F64.le
      (F64.mul (F64.div (F64.mul (F64.ofInt 6371000) F64.pi) (F64.ofInt 180))
        (F64.ofRatio 255 256))
      (haversine oneDegreeTable (F64.ofInt 1) (F64.ofInt 0) (F64.ofInt 0) (F64.ofInt 0))
      = true ∧
    F64.le (haversine oneDegreeTable (F64.ofInt 1) (F64.ofInt 0) (F64.ofInt 0) (F64.ofInt 0))
      (F64.mul (F64.div (F64.mul (F64.ofInt 6371000) F64.pi) (F64.ofInt 180))
        (F64.ofRatio 257 256)) = true :=
  ⟨⟨oneDegreeTable_accuracy, by decide, by decide, by decide, by decide⟩,
    haversine_one_degree oneDegreeTable oneDegreeTable_accuracy
      (F64.ofInt 1) (F64.ofInt 0) (F64.ofInt 0) (Or.inr (by decide)) (by decide) (by decide)
      (by decide)⟩

/-- C15 fails as stated: the result is a `float64` and `R * π / 180` is
irrational, so no library makes them equal; and with the values package `math`
returns for the points (0, 0) and (1, 0) the result is
`0x1.b25aed3893eadp+16` (111194.92664455874), one unit in the last place
above the `float64` product `R * math.Pi / 180 = 0x1.b25aed3893eacp+16`. -/
theorem haversine_one_degree_not_exact :
    OneDegreeAccuracy oneDegreeTable ∧
    haversine oneDegreeTable (F64.ofInt 0) (F64.ofInt 0) (F64.ofInt 1) (F64.ofInt 0)
      = F64.fin false (0x1b25aed3893ead <<< 1038) ∧
    haversine oneDegreeTable (F64.ofInt 1) (F64.ofInt 0) (F64.ofInt 0) (F64.ofInt 0)
      = F64.fin false (0x1b25aed3893ead <<< 1038) ∧
    F64.div (F64.mul (F64.ofInt 6371000) F64.pi) (F64.ofInt 180)
      = F64.fin false (0x1b25aed3893eac <<< 1038) ∧
    F64.eq
      (haversine oneDegreeTable (F64.ofInt 0) (F64.ofInt 0) (F64.ofInt 1) (F64.ofInt 0))
      (F64.div (F64.mul (F64.ofInt 6371000) F64.pi) (F64.ofInt 180)) = false ∧
    ∀ (M : FloatMath) (lat1 lon1 lat2 lon2 : F64) (neg : Bool) (k : Nat),
      haversine M lat1 lon1 lat2 lon2 = F64.fin neg k →
      ((F64.sgn neg k : Int) : Real) / (2 : Real) ^ (1074 : Nat) ≠ 6371000 * Real.pi / 180 := by
  refine ⟨oneDegreeTable_accuracy, by decide, by decide, by decide, by decide, ?_⟩
  intro M lat1 lon1 lat2 lon2 neg k _ heq
  apply irrational_pi
  refine ⟨((F64.sgn neg k : Int) : Rat) / (2 : Rat) ^ (1074 : Nat) * 180 / 6371000, ?_⟩
  have hpi : Real.pi
      = ((F64.sgn neg k : Int) : Real) / (2 : Real) ^ (1074 : Nat) * 180 / 6371000 := by
    rw [heq]
    ring
  rw [hpi]
  simp only [Rat.cast_div, Rat.cast_mul, Rat.cast_pow, Rat.cast_intCast, Rat.cast_ofNat]

end Chainring
